import Mathlib

/-!
Verification of the block-burb simulation engine (a Schelling-style
residential segregation classroom game).  The repository contains two
engine variants concatenated in `src/block-burb-app/src/game/engine.ts`:

* a *relocation* variant (directional nearest-vacancy relocation of a
  selected unhappy household), modelled in namespace `Reloc`, together
  with the metric helpers of `src/block-burb-app/src/game/debrief.ts`
  (namespace `Debrief`);
* a *slide-and-merge* (2048-style) variant with tipping-point flight,
  isolation locking and spawning, modelled in namespace `Slide`.

JavaScript numbers are modelled as exact rationals (`ℚ`), array cells as
`Option`-valued entries of a list-of-lists board, and the ambient
`Math.random` draws as explicitly passed parameters (a shuffle result, a
rational draw in `[0,1)`, ...) that the theorems quantify over.
-/

/- Make the kernel-executable core rational operations the ones used by
the definitions below, so that concrete boards can be evaluated by
`decide` in witnesses. The Batteries definitions are `@[irreducible]`
only to keep `simp` from unfolding them; semantically nothing changes. -/
attribute [local semireducible] Rat.add Rat.mul Rat.sub Rat.inv
attribute [local instance] Rat.instAdd Rat.instMul Rat.instSub Rat.instNeg Rat.instDiv

namespace BlockBurb

/-- The two household colors (`'blue' | 'orange'` in `types.ts`); blue is
the majority color, orange the minority color. -/
inductive HouseholdColor where
  | blue
  | orange
deriving DecidableEq

/-- A grid coordinate (`{ row, col }` in `types.ts`).  Row and column are
integers; all coordinates produced by the engine are nonnegative, but
arithmetic such as `col - 1` can leave the grid, so we use `ℤ`. -/
structure Coordinate where
  row : Int
  col : Int
deriving DecidableEq

/-- Movement direction (`'up' | 'down' | 'left' | 'right'`). -/
inductive Direction where
  | up
  | down
  | left
  | right
deriving DecidableEq

/-- JavaScript `Math.round`: halves round toward positive infinity, i.e.
`Math.round q = ⌊q + 1/2⌋`.  Written with integer floor division on the
reduced numerator/denominator so that it evaluates by `decide`;
`jsRound_eq_floor` below gives the mathematical characterisation. -/
def jsRound (q : ℚ) : ℤ :=
  Int.fdiv (2 * q.num + (q.den : ℤ)) (2 * (q.den : ℤ))

/-! ### Boards

A board is a square matrix of cells, `Cell = Tile | null` in `types.ts`.
It is generic in the tile type because the two engine variants use
different tile records. -/

/-- `Board α` models `Cell[][]` with `Cell = α | null`. -/
abbrev Board (α : Type) := List (List (Option α))

/-- Read `board[p.row][p.col]`, returning `none` both for an empty cell
and for an index outside the allocated array (all reads in the source are
bounds-guarded, so the two cases are never confused there). -/
def getCell {α : Type} (b : Board α) (p : Coordinate) : Option α :=
  if 0 ≤ p.row ∧ 0 ≤ p.col then (b.getD p.row.toNat []).getD p.col.toNat none else none

/-- Write `board[p.row][p.col] = x`; out-of-range writes are dropped
(the source never performs one). -/
def setCell {α : Type} (b : Board α) (p : Coordinate) (x : Option α) : Board α :=
  if 0 ≤ p.row ∧ 0 ≤ p.col then
    b.set p.row.toNat ((b.getD p.row.toNat []).set p.col.toNat x)
  else b

/-- `p` addresses an actually allocated entry of `b`. -/
def InB {α : Type} (b : Board α) (p : Coordinate) : Prop :=
  0 ≤ p.row ∧ 0 ≤ p.col ∧ p.row.toNat < b.length ∧
    p.col.toNat < (b.getD p.row.toNat []).length

instance {α : Type} (b : Board α) (p : Coordinate) : Decidable (InB b p) := by
  unfold InB; infer_instance

/-- Every row has the board's length: the square-matrix invariant of
`types.ts` (`Board`: a square matrix of cells). -/
def IsSquare {α : Type} (b : Board α) : Prop :=
  ∀ i : ℕ, i < b.length → (b.getD i []).length = b.length

instance {α : Type} (b : Board α) : Decidable (IsSquare b) := by
  unfold IsSquare; exact Nat.decidableBallLT _ _

/-- `isInBounds` from `engine.ts` (both variants): both coordinates are
checked against `board.length`, the row count. -/
def isInBounds {α : Type} (b : Board α) (row col : Int) : Bool :=
  decide (0 ≤ row) && decide (0 ≤ col) &&
    decide (row < (b.length : Int)) && decide (col < (b.length : Int))

/-- All tiles on the board, in row-major order (`board.flat()` restricted
to occupied cells). -/
def tilesList {α : Type} (b : Board α) : List α :=
  b.flatten.filterMap id

/-- The multiset of tiles on the board. -/
def tileMS {α : Type} (b : Board α) : Multiset α :=
  (tilesList b : Multiset α)

/-- The zero-or-one-element multiset held by a single cell. -/
def cellMS {α : Type} : Option α → Multiset α
  | none => 0
  | some t => {t}

/-- Pointwise cell rewriting with coordinates, modelling the in-place
`for` loops that update one derived field of every tile
(`recomputeHappiness`, `recomputeLocks`, `resetMergeFlags`).  Those loops
read only fields their updates never touch, so the sequential in-place
mutation of the source equals this simultaneous map. -/
def mapRowFrom {α : Type} (f : Coordinate → α → α) (r c : Int) :
    List (Option α) → List (Option α)
  | [] => []
  | x :: xs => x.map (f ⟨r, c⟩) :: mapRowFrom f r (c + 1) xs

def mapBoardFrom {α : Type} (f : Coordinate → α → α) (r : Int) : Board α → Board α
  | [] => []
  | row :: rows => mapRowFrom f r 0 row :: mapBoardFrom f (r + 1) rows

def mapBoard {α : Type} (f : Coordinate → α → α) (b : Board α) : Board α :=
  mapBoardFrom f 0 b

/-- Row-major traversal of an `n × n` grid, the coordinate sequence of the
source's nested `for (row …) for (col …)` loops. -/
def natCoords (size : ℕ) : List Coordinate :=
  (List.range size).flatMap fun r =>
    (List.range size).map fun c => ⟨Int.ofNat r, Int.ofNat c⟩

/-- Raw JavaScript array read `board[r][c]`: `some none` is an allocated
empty (`null`) cell, `none` is `undefined` (index past the end). -/
def cellJS {α : Type} (b : Board α) (r c : ℕ) : Option (Option α) :=
  b[r]?.bind fun row => row[c]?

namespace Reloc

/-! Embedding of the relocation-variant engine
(`src/block-burb-app/src/game/engine.ts`, first file: lines 1–396).  Tile
ids are the values of the global `tileCounter` (the string `tile-N` is
determined by `N`), threaded explicitly through the functions that create
tiles. -/

/-- `HouseholdTile` of the relocation variant. -/
structure HouseholdTile where
  id : ℕ
  color : HouseholdColor
  unhappy : Bool
deriving DecidableEq

/-- `makeTileId`/`createHousehold`: increment the counter and build a tile
carrying the fresh id. -/
def createHousehold (ctr : ℕ) (color : HouseholdColor) : HouseholdTile × ℕ :=
  ({ id := ctr + 1, color := color, unhappy := false }, ctr + 1)

def createEmptyBoard (size : ℕ) : Board HouseholdTile :=
  List.replicate size (List.replicate size none)

/-- `isHousehold` (relocation variant): a cell is a household iff it is
not `null`. -/
def isHousehold (cell : Option HouseholdTile) : Bool :=
  cell.isSome

/-- The four orthogonal step offsets (`directions`). -/
def directions : List Coordinate :=
  [⟨-1, 0⟩, ⟨1, 0⟩, ⟨0, -1⟩, ⟨0, 1⟩]

def orthogonalNeighbors (b : Board HouseholdTile) (p : Coordinate) : List Coordinate :=
  (directions.map fun s => Coordinate.mk (p.row + s.row) (p.col + s.col)).filter
    fun n => isInBounds b n.row n.col

/-- `isHappy`: an empty cell is happy; a household is happy iff some
orthogonal neighbour holds a same-colored household. -/
def isHappy (b : Board HouseholdTile) (p : Coordinate) : Bool :=
  match getCell b p with
  | none => true
  | some tile =>
    (orthogonalNeighbors b p).any fun n =>
      match getCell b n with
      | none => false
      | some neighborTile => neighborTile.color = tile.color

/-- `recomputeHappiness`: set every tile's `unhappy` flag from the current
board.  The source updates in place, but `isHappy` never reads `unhappy`,
so the loop equals this simultaneous rewrite. -/
def recomputeHappiness (b : Board HouseholdTile) : Board HouseholdTile :=
  mapBoard (fun p t => { t with unhappy := !(isHappy b p) }) b

def countUnhappy (b : Board HouseholdTile) : ℕ :=
  (tilesList b).countP fun t => t.unhappy

def countVacancies (b : Board HouseholdTile) : ℕ :=
  b.flatten.countP fun c => c.isNone

/-- `right`/`down` reads of `adjacencyStats` (engine variant): the
neighbour one step right/down, or `null` at the edge. -/
def rightOf (b : Board HouseholdTile) (p : Coordinate) : Option HouseholdTile :=
  if p.col + 1 < (b.length : Int) then getCell b ⟨p.row, p.col + 1⟩ else none

def downOf (b : Board HouseholdTile) (p : Coordinate) : Option HouseholdTile :=
  if p.row + 1 < (b.length : Int) then getCell b ⟨p.row + 1, p.col⟩ else none

/-- Contribution of one cell to the engine variant's `adjacencyStats`:
`(same, mixed)` increments from its right and down neighbours only. -/
def statsAt (b : Board HouseholdTile) (p : Coordinate) : ℕ × ℕ :=
  match getCell b p with
  | none => (0, 0)
  | some current =>
    let r : ℕ × ℕ :=
      match rightOf b p with
      | some right => if right.color = current.color then (1, 0) else (0, 1)
      | none => (0, 0)
    let d : ℕ × ℕ :=
      match downOf b p with
      | some down => if down.color = current.color then (1, 0) else (0, 1)
      | none => (0, 0)
    (r.1 + d.1, r.2 + d.2)

/-- `adjacencyStats` of the relocation engine: only the `right` and `down`
neighbours of each occupied cell are examined. -/
def adjacencyStats (b : Board HouseholdTile) : ℕ × ℕ :=
  (natCoords b.length).foldl
    (fun acc p => (acc.1 + (statsAt b p).1, acc.2 + (statsAt b p).2)) (0, 0)

def calculateSegregationIndex (b : Board HouseholdTile) : ℤ :=
  let s := adjacencyStats b
  if s.1 + s.2 = 0 then 0
  else jsRound (((s.1 : ℚ) / ((s.1 + s.2 : ℕ) : ℚ)) * 100)

def calculateIntegrationIndex (b : Board HouseholdTile) : ℤ :=
  let s := adjacencyStats b
  if s.1 + s.2 = 0 then 0
  else jsRound (((s.2 : ℚ) / ((s.1 + s.2 : ℕ) : ℚ)) * 100)

/-- `LastMove`; the source's `from`/`to` fields are named `src`/`dst`
(`from` is a Lean keyword). -/
structure LastMove where
  src : Coordinate
  dst : Coordinate
  direction : Direction
  trail : List Coordinate
deriving DecidableEq

structure TurnSummary where
  moved : Bool
  selectedValid : Bool
  unhappyBefore : ℕ
  unhappyAfter : ℕ
  segregationIndex : ℤ
  integrationIndex : ℤ
  vacancyCount : ℕ
  lastMove : Option LastMove
deriving DecidableEq

def summaryForBoard (b : Board HouseholdTile) (unhappyBefore : ℕ)
    (selectedValid moved : Bool) (lastMove : Option LastMove) : TurnSummary :=
  { moved := moved
    selectedValid := selectedValid
    unhappyBefore := unhappyBefore
    unhappyAfter := countUnhappy b
    segregationIndex := calculateSegregationIndex b
    integrationIndex := calculateIntegrationIndex b
    vacancyCount := countVacancies b
    lastMove := lastMove }

def allCoordinates (size : ℕ) : List Coordinate :=
  (List.range (size * size)).map fun i => ⟨((i / size : ℕ) : Int), ((i % size : ℕ) : Int)⟩

/-- `isInDirection`: strictly inside the half-plane of the direction. -/
def isInDirection (src to' : Coordinate) (direction : Direction) : Bool :=
  match direction with
  | .up => to'.row < src.row
  | .down => to'.row > src.row
  | .left => to'.col < src.col
  | .right => to'.col > src.col

def compareDirectionalTieBreak (src a b : Coordinate) (direction : Direction) : Int :=
  match direction with
  | .up =>
    if a.row ≠ b.row then a.row - b.row
    else ((a.col - src.col).natAbs : Int) - ((b.col - src.col).natAbs : Int)
  | .down =>
    if a.row ≠ b.row then b.row - a.row
    else ((a.col - src.col).natAbs : Int) - ((b.col - src.col).natAbs : Int)
  | .left =>
    if a.col ≠ b.col then a.col - b.col
    else ((a.row - src.row).natAbs : Int) - ((b.row - src.row).natAbs : Int)
  | .right =>
    if a.col ≠ b.col then b.col - a.col
    else ((a.row - src.row).natAbs : Int) - ((b.row - src.row).natAbs : Int)

def manhattanDistance (a b : Coordinate) : Int :=
  ((a.row - b.row).natAbs : Int) + ((a.col - b.col).natAbs : Int)

/-- The comparator passed to `vacancies.sort` in
`nearestVacancyInDirection`. -/
def vacancyCmp (src : Coordinate) (direction : Direction) (a b : Coordinate) : Int :=
  let dd := manhattanDistance src a - manhattanDistance src b
  if dd ≠ 0 then dd
  else
    let t := compareDirectionalTieBreak src a b direction
    if t ≠ 0 then t
    else if a.row ≠ b.row then a.row - b.row
    else a.col - b.col

/-- The vacancy candidates scanned by `nearestVacancyInDirection`: every
allocated `null` cell strictly in the direction's half-plane, in row-major
scan order. -/
def vacanciesInDirection (b : Board HouseholdTile) (src : Coordinate)
    (direction : Direction) : List Coordinate :=
  (natCoords b.length).filter fun p =>
    decide (cellJS b p.row.toNat p.col.toNat = some none) && isInDirection src p direction

/-- `nearestVacancyInDirection`: sort the candidates by the comparator and
return the first, or `null` when none exist. -/
def nearestVacancyInDirection (b : Board HouseholdTile) (src : Coordinate)
    (direction : Direction) : Option Coordinate :=
  let vacancies := vacanciesInDirection b src direction
  if vacancies = [] then none
  else (vacancies.mergeSort fun a b => vacancyCmp src direction a b ≤ 0).head?

def rowWalk (target row col : Int) : List Coordinate :=
  if row = target then []
  else if row < target then ⟨row + 1, col⟩ :: rowWalk target (row + 1) col
  else ⟨row - 1, col⟩ :: rowWalk target (row - 1) col
termination_by (target - row).natAbs
decreasing_by all_goals omega

def colWalk (target row col : Int) : List Coordinate :=
  if col = target then []
  else if col < target then ⟨row, col + 1⟩ :: colWalk target row (col + 1)
  else ⟨row, col - 1⟩ :: colWalk target row (col - 1)
termination_by (target - col).natAbs
decreasing_by all_goals omega

/-- `moveTrail`: vertical-first for `up`/`down`, horizontal-first for
`left`/`right`. -/
def moveTrail (src dst : Coordinate) (direction : Direction) : List Coordinate :=
  match direction with
  | .up | .down => rowWalk dst.row src.row src.col ++ colWalk dst.col dst.row src.col
  | .left | .right => colWalk dst.col src.row src.col ++ rowWalk dst.row src.row dst.col

/-- `GameConfig` of the relocation variant; all four fields are raw
JavaScript numbers. -/
structure GameConfig where
  size : ℚ
  initialOccupancy : ℚ
  minorityShare : ℚ
  maxTurns : ℚ
deriving DecidableEq

/-- `normalizedConfig`: silently clamp each parameter
(`size` to `[8,16]` after rounding, `initialOccupancy` to `[0.65,0.98]`,
`minorityShare` to `[0.1,0.2]`, `maxTurns` to `[10,80]` after rounding). -/
def normalizedConfig (config : GameConfig) : GameConfig :=
  { size := max 8 (min 16 ((jsRound config.size : ℤ) : ℚ))
    initialOccupancy := max ((65 : ℚ) / 100) (min ((98 : ℚ) / 100) config.initialOccupancy)
    minorityShare := max ((1 : ℚ) / 10) (min ((2 : ℚ) / 10) config.minorityShare)
    maxTurns := max 10 (min 80 ((jsRound config.maxTurns : ℤ) : ℚ)) }

inductive GameOverReason where
  | equilibrium
  | max_turns
  | manual_end
deriving DecidableEq

structure GameState where
  board : Board HouseholdTile
  turn : ℕ
  gameOver : Bool
  gameOverReason : Option GameOverReason
  summary : TurnSummary
deriving DecidableEq

/-- The placement loop of `createInitialState`
(`for (index …) board[positions[index]] = createHousehold(colors[index])`),
written as structural recursion over the index list; the counter is
threaded through `createHousehold`. -/
def placeLoop (positions : List Coordinate) (colors : List HouseholdColor) :
    List ℕ → Board HouseholdTile × ℕ → Board HouseholdTile × ℕ
  | [], acc => acc
  | i :: rest, acc =>
    let pr := createHousehold acc.2 (colors.getD i HouseholdColor.blue)
    placeLoop positions colors rest (setCell acc.1 (positions.getD i ⟨0, 0⟩) (some pr.1), pr.2)

/-- `createInitialState`.  The two `shuffle` calls are modelled by the
caller-supplied functions `shuffleC`/`shuffleP` (theorems quantify over
them, adding a permutation hypothesis where a property depends on it);
`ctr` is the value of the global `tileCounter` on entry, and the new
counter value is returned alongside the state. -/
def createInitialState (ctr : ℕ) (rawConfig : GameConfig)
    (shuffleC : List HouseholdColor → List HouseholdColor)
    (shuffleP : List Coordinate → List Coordinate) : GameState × ℕ :=
  let config := normalizedConfig rawConfig
  let sizeN := config.size.floor.toNat
  let capacity := sizeN * sizeN
  let householdCount : ℕ :=
    (max 2 (min ((capacity : ℤ) - 1) (jsRound ((capacity : ℚ) * config.initialOccupancy)))).toNat
  let minorityCount : ℕ := (jsRound ((householdCount : ℚ) * config.minorityShare)).toNat
  let majorityCount : ℕ := householdCount - minorityCount
  let colors := shuffleC (List.replicate majorityCount HouseholdColor.blue
    ++ List.replicate minorityCount HouseholdColor.orange)
  let positions := (shuffleP (allCoordinates sizeN)).take householdCount
  let placed := placeLoop positions colors (List.range positions.length) (createEmptyBoard sizeN, ctr)
  let board := recomputeHappiness placed.1
  ({ board := board
     turn := 0
     gameOver := false
     gameOverReason := none
     summary := summaryForBoard board (countUnhappy board) true false none }, placed.2)

def endSession (state : GameState) : GameState :=
  { state with gameOver := true, gameOverReason := some .manual_end }

/-- `applyTurn` of the relocation variant. -/
def applyTurn (state : GameState) (selected : Coordinate) (direction : Direction)
    (rawConfig : GameConfig) : GameState :=
  if state.gameOver then state
  else
    let config := normalizedConfig rawConfig
    let board := state.board
    let unhappyBefore := countUnhappy board
    let selectedTile :=
      if isInBounds board selected.row selected.col then getCell board selected else none
    match selectedTile with
    | none => { state with summary := summaryForBoard board unhappyBefore false false none }
    | some tile =>
      if !tile.unhappy then
        { state with summary := summaryForBoard board unhappyBefore false false none }
      else
        match nearestVacancyInDirection board selected direction with
        | none => { state with summary := summaryForBoard board unhappyBefore true false none }
        | some vacancy =>
          let board' :=
            recomputeHappiness (setCell (setCell board vacancy (some tile)) selected none)
          let turn := state.turn + 1
          let unhappyAfter := countUnhappy board'
          let over : Bool × Option GameOverReason :=
            if unhappyAfter = 0 then (true, some .equilibrium)
            else if (turn : ℚ) ≥ config.maxTurns then (true, some .max_turns)
            else (false, none)
          let lastMove : LastMove :=
            { src := selected, dst := vacancy, direction := direction,
              trail := moveTrail selected vacancy direction }
          { board := board'
            turn := turn
            gameOver := over.1
            gameOverReason := over.2
            summary := summaryForBoard board' unhappyBefore true true (some lastMove) }

end Reloc

namespace Debrief

/-! Embedding of `src/block-burb-app/src/game/debrief.ts` (relocation
app).  Its `adjacencyStats` enumerates the four canonical unique-pair
offsets, including the two diagonals. -/

/-- `uniquePairOffsets = [right, down, down-right, down-left]`. -/
def uniquePairOffsets : List Coordinate :=
  [⟨0, 1⟩, ⟨1, 0⟩, ⟨1, 1⟩, ⟨1, -1⟩]

/-- Contribution of the pair `(p, p + offset)` to the stats: `(1,0)` for a
same-colored occupied pair, `(0,1)` for a mixed occupied pair, `(0,0)`
when the offset leaves the grid or the neighbour is empty. -/
def offsetStat (b : Board Reloc.HouseholdTile) (current : Reloc.HouseholdTile)
    (p : Coordinate) (offset : Coordinate) : ℕ × ℕ :=
  let nextRow := p.row + offset.row
  let nextCol := p.col + offset.col
  if nextRow < 0 ∨ nextCol < 0 ∨ nextRow ≥ (b.length : Int) ∨ nextCol ≥ (b.length : Int) then
    (0, 0)
  else
    match getCell b ⟨nextRow, nextCol⟩ with
    | none => (0, 0)
    | some neighbor => if neighbor.color = current.color then (1, 0) else (0, 1)

/-- `adjacencyStats` of `debrief.ts`: each occupied cell contributes its
pairs along the four canonical offsets. -/
def adjacencyStats (b : Board Reloc.HouseholdTile) : ℕ × ℕ :=
  (natCoords b.length).foldl
    (fun acc p =>
      match getCell b p with
      | none => acc
      | some current =>
        uniquePairOffsets.foldl
          (fun acc2 offset =>
            (acc2.1 + (offsetStat b current p offset).1,
             acc2.2 + (offsetStat b current p offset).2))
          acc)
    (0, 0)

def calculateSegregationIndex (b : Board Reloc.HouseholdTile) : ℤ :=
  let s := adjacencyStats b
  if s.1 + s.2 = 0 then 0
  else jsRound (((s.1 : ℚ) / ((s.1 + s.2 : ℕ) : ℚ)) * 100)

def calculateIntegrationIndex (b : Board Reloc.HouseholdTile) : ℤ :=
  let s := adjacencyStats b
  if s.1 + s.2 = 0 then 0
  else jsRound (((s.2 : ℚ) / ((s.1 + s.2 : ℕ) : ℚ)) * 100)

end Debrief

/-! ### Concrete boards used by counterexamples and witnesses -/

/-- Build a household tile (happy, with explicit id). -/
def ht (i : ℕ) (c : HouseholdColor) : Option Reloc.HouseholdTile :=
  some ⟨i, c, false⟩

/-- A 3×3 board with eight orthogonally adjacent occupied pairs of which
exactly one is same-colored, so `same/total = 1/8` and the two rounded
indices are `13` and `88`. -/
def boardC1 : Board Reloc.HouseholdTile :=
  [[ht 1 .blue, ht 2 .orange, ht 3 .blue],
   [ht 4 .orange, ht 5 .blue, ht 6 .orange],
   [ht 7 .orange, none, none]]

/-- A 2×2 board whose only adjacency is diagonal: two blue households at
`(0,0)` and `(1,1)`. -/
def boardC2 : Board Reloc.HouseholdTile :=
  [[ht 1 .blue, none], [none, ht 2 .blue]]

namespace Reloc

/-- The tile read of `applyTurn`:
`isInBounds(...) ? board[selected.row][selected.col] : null`. -/
def selectedTileOf (state : GameState) (selected : Coordinate) : Option HouseholdTile :=
  if isInBounds state.board selected.row selected.col then getCell state.board selected else none

end Reloc

/-- A 2×2 board whose single household, at `(0,0)`, is unhappy. -/
def boardC7 : Board Reloc.HouseholdTile :=
  [[some ⟨1, .blue, true⟩, none], [none, none]]

def stateC7 : Reloc.GameState :=
  { board := boardC7, turn := 3, gameOver := false, gameOverReason := none,
    summary := Reloc.summaryForBoard boardC7 1 true false none }

def stateC8 : Reloc.GameState :=
  { board := boardC7, turn := 3, gameOver := true, gameOverReason := some .manual_end,
    summary := Reloc.summaryForBoard boardC7 1 true false none }

/-! ### Claim C6 -/

/-- An empty cell of the `size × size` grid (the cells the vacancy scan of
`nearestVacancyInDirection` visits and finds `null`). -/
def EmptyCellOn {α : Type} (b : Board α) (p : Coordinate) : Prop :=
  0 ≤ p.row ∧ p.row < (b.length : Int) ∧ 0 ≤ p.col ∧ p.col < (b.length : Int) ∧
    cellJS b p.row.toNat p.col.toNat = some none

instance {α : Type} [DecidableEq α] (b : Board α) (p : Coordinate) :
    Decidable (EmptyCellOn b p) := by
  unfold EmptyCellOn; infer_instance

/-- The five-component lexicographic comparison the sort comparator
realises. -/
def lex5 (a1 a2 a3 a4 a5 b1 b2 b3 b4 b5 : Int) : Prop :=
  a1 < b1 ∨ (a1 = b1 ∧ (a2 < b2 ∨ (a2 = b2 ∧ (a3 < b3 ∨ (a3 = b3 ∧
    (a4 < b4 ∨ (a4 = b4 ∧ a5 ≤ b5)))))))

/-- Direction-specific secondary sort key: the component of the
tie-break comparison that is ordered first. -/
def rankSecondary (dir : Direction) (p : Coordinate) : Int :=
  match dir with
  | .up => p.row
  | .down => -p.row
  | .left => p.col
  | .right => -p.col

/-- Direction-specific tertiary sort key: the off-axis distance from the
source. -/
def rankTertiary (src : Coordinate) (dir : Direction) (p : Coordinate) : Int :=
  match dir with
  | .up | .down => ((p.col - src.col).natAbs : Int)
  | .left | .right => ((p.row - src.row).natAbs : Int)

/-- The direction-specific tie-break rule as the specification words it:
for `up`, smaller row first, then smaller absolute column distance from
the source; analogously for the other three directions. -/
def specTieBreak (src : Coordinate) (dir : Direction) (c d : Coordinate) : Prop :=
  match dir with
  | .up => c.row ≤ d.row ∧ (c.row = d.row → (c.col - src.col).natAbs ≤ (d.col - src.col).natAbs)
  | .down => d.row ≤ c.row ∧ (c.row = d.row → (c.col - src.col).natAbs ≤ (d.col - src.col).natAbs)
  | .left => c.col ≤ d.col ∧ (c.col = d.col → (c.row - src.row).natAbs ≤ (d.row - src.row).natAbs)
  | .right => d.col ≤ c.col ∧ (c.col = d.col → (c.row - src.row).natAbs ≤ (d.row - src.row).natAbs)

/-- A 2×2 board whose only empty cell is `(1,0)`. -/
def boardC6 : Board Reloc.HouseholdTile :=
  [[ht 1 .blue, ht 2 .orange], [none, ht 3 .blue]]

/-! ### Claim C2 -/

/-- The pair `(p, q)` holds two same-colored households. -/
def sameColorPair (b : Board Reloc.HouseholdTile) (pq : Coordinate × Coordinate) : Bool :=
  match getCell b pq.1, getCell b pq.2 with
  | some a, some c => a.color = c.color
  | _, _ => false

/-- The pair `(p, q)` holds two differently-colored households. -/
def mixedColorPair (b : Board Reloc.HouseholdTile) (pq : Coordinate × Coordinate) : Bool :=
  match getCell b pq.1, getCell b pq.2 with
  | some a, some c => !(a.color = c.color : Bool)
  | _, _ => false

/-- The pair the debrief scan records for cell `p` and offset `o`: the
same grid-bounds test and occupancy test as the loop body. -/
def debriefPairAt (b : Board Reloc.HouseholdTile) (p o : Coordinate) :
    Option (Coordinate × Coordinate) :=
  let q : Coordinate := ⟨p.row + o.row, p.col + o.col⟩
  if q.row < 0 ∨ q.col < 0 ∨ q.row ≥ (b.length : Int) ∨ q.col ≥ (b.length : Int) then none
  else
    match getCell b q with
    | none => none
    | some _ => some (p, q)

/-- All pairs the `debrief.ts` scan examines, in scan order: for each
occupied cell, its occupied neighbours along the four canonical offsets. -/
def debriefPairList (b : Board Reloc.HouseholdTile) : List (Coordinate × Coordinate) :=
  (natCoords b.length).flatMap fun p =>
    match getCell b p with
    | none => []
    | some _ => Debrief.uniquePairOffsets.filterMap (debriefPairAt b p)

/-- The pairs the relocation engine's `adjacencyStats` records at one
occupied cell: its occupied `right` and `down` neighbours only. -/
def orthoPairsAt (b : Board Reloc.HouseholdTile) (p : Coordinate) :
    List (Coordinate × Coordinate) :=
  (match Reloc.rightOf b p with
    | some _ => [(p, (⟨p.row, p.col + 1⟩ : Coordinate))]
    | none => []) ++
  (match Reloc.downOf b p with
    | some _ => [(p, (⟨p.row + 1, p.col⟩ : Coordinate))]
    | none => [])

/-- All pairs the relocation engine's `adjacencyStats` examines. -/
def orthoPairList (b : Board Reloc.HouseholdTile) : List (Coordinate × Coordinate) :=
  (natCoords b.length).flatMap fun p =>
    match getCell b p with
    | none => []
    | some _ => orthoPairsAt b p

namespace Slide

/-! Embedding of the slide-and-merge variant engine
(`src/block-burb-app/src/game/engine.ts`, second file: lines 397–1048)
together with `clamp01` from its `config.ts`.  All `Math.random` draws are
explicit parameters: the flight shuffle result, per-candidate coins, the
edge-cell tie-break draws, and the spawn cell/color draws. -/

inductive TileKind where
  | household
  | gated_community
  | community_center
deriving DecidableEq

inductive TippingUnit where
  | row
  | column
  | sector2x2
deriving DecidableEq

inductive FlightMode where
  | deterministic
  | probabilistic
deriving DecidableEq

inductive FlightBehavior where
  | despawn
  | edgeRelocate
deriving DecidableEq

/-- `Tile` of the slide variant (the engine never reads or writes the
`isolationTurns` presentation field, so it is omitted). -/
structure Tile where
  id : ℕ
  kind : TileKind
  color : Option HouseholdColor
  locked : Bool
  mergedThisTurn : Bool
deriving DecidableEq

/-- `GameConfig` of the slide variant (`spawnRatio.{blue,orange}` and
`integrationBand.{min,max}` flattened into four fields). -/
structure GameConfig where
  size : ℕ
  initialTiles : ℕ
  spawnRatioBlue : ℚ
  spawnRatioOrange : ℚ
  spawnRatioShiftPerTurn : ℚ
  spawnPerTurn : ℕ
  earlySpawnPerTurn : ℕ
  earlySpawnTurns : ℕ
  isolationLockDelayTurns : ℕ
  tippingThreshold : ℚ
  tippingUnit : TippingUnit
  flightMode : FlightMode
  flightProbability : ℚ
  flightBehavior : FlightBehavior
  integrationBandMin : ℚ
  integrationBandMax : ℚ
  integrationPointsPerRow : ℕ

/-- `clamp01` from `config.ts`. -/
def clamp01 (value : ℚ) : ℚ := max 0 (min 1 value)

def DIRECTIONS : List Direction := [.up, .down, .left, .right]

def createEmptyBoard (size : ℕ) : Board Tile :=
  List.replicate size (List.replicate size none)

def isHousehold (cell : Option Tile) : Bool :=
  match cell with
  | none => false
  | some tile => tile.kind = .household

def isMinority (cell : Option Tile) : Bool :=
  isHousehold cell &&
    (match cell with
      | some tile => tile.color = some HouseholdColor.orange
      | none => false)

def isMajority (cell : Option Tile) : Bool :=
  isHousehold cell &&
    (match cell with
      | some tile => tile.color = some HouseholdColor.blue
      | none => false)

def canSlide (cell : Option Tile) : Bool :=
  isHousehold cell &&
    (match cell with
      | some tile => !tile.locked
      | none => false)

def isImmovableWall (cell : Option Tile) : Bool :=
  match cell with
  | none => false
  | some tile => if tile.kind ≠ .household then true else tile.locked

def createHousehold (ctr : ℕ) (color : HouseholdColor) : Tile × ℕ :=
  ({ id := ctr + 1, kind := .household, color := some color, locked := false,
     mergedThisTurn := false }, ctr + 1)

/-- `createMergeResult`: same colors make a gated community, otherwise a
community centre; either way a fresh id. -/
def createMergeResult (a b : Tile) (ctr : ℕ) : Tile × ℕ :=
  if a.color ≠ none ∧ b.color ≠ none ∧ a.color = b.color then
    ({ id := ctr + 1, kind := .gated_community, color := none, locked := false,
       mergedThisTurn := true }, ctr + 1)
  else
    ({ id := ctr + 1, kind := .community_center, color := none, locked := false,
       mergedThisTurn := true }, ctr + 1)

def canMerge (mover : Tile) (target : Option Tile) : Bool :=
  match target with
  | none => false
  | some t =>
    if t.kind ≠ .household then false
    else if t.locked || t.mergedThisTurn || mover.mergedThisTurn then false
    else true

/-- `directionVector` (the source's unreachable `default` branch returns
`{0,0}`; the match here is total over the four directions). -/
def directionVector (direction : Direction) : Coordinate :=
  match direction with
  | .up => ⟨-1, 0⟩
  | .down => ⟨1, 0⟩
  | .left => ⟨0, -1⟩
  | .right => ⟨0, 1⟩

/-- `traversalOrder`: tiles nearest the destination edge are processed
first so no tile moves twice in one pass. -/
def traversalOrder (size : ℕ) (direction : Direction) : List Coordinate :=
  match direction with
  | .left =>
    (List.range size).flatMap fun row =>
      (List.range' 1 (size - 1)).map fun col => ⟨Int.ofNat row, Int.ofNat col⟩
  | .right =>
    (List.range size).flatMap fun row =>
      ((List.range (size - 1)).reverse).map fun col => ⟨Int.ofNat row, Int.ofNat col⟩
  | .up =>
    (List.range size).flatMap fun col =>
      (List.range' 1 (size - 1)).map fun row => ⟨Int.ofNat row, Int.ofNat col⟩
  | .down =>
    (List.range size).flatMap fun col =>
      ((List.range (size - 1)).reverse).map fun row => ⟨Int.ofNat row, Int.ofNat col⟩

def resetMergeFlags (b : Board Tile) : Board Tile :=
  mapBoard (fun _ t => { t with mergedThisTurn := false }) b

/-- The `while (true)` slide loop of `slideAndMerge` for one tile.  The
loop advances `cur` one step per iteration and stops at the border, at a
wall, or after a merge attempt; `fuel` is set to the board size by the
caller, which bounds the number of possible steps. -/
def slideLoop (vector : Coordinate) (active : Tile) :
    ℕ → Board Tile → ℕ → Coordinate → Bool → ℕ → Board Tile × ℕ × Bool × ℕ
  | 0, b, ctr, _, moved, merges => (b, ctr, moved, merges)
  | fuel + 1, b, ctr, cur, moved, merges =>
    let next : Coordinate := ⟨cur.row + vector.row, cur.col + vector.col⟩
    if !(isInBounds b next.row next.col) then (b, ctr, moved, merges)
    else
      match getCell b next with
      | none =>
        slideLoop vector active fuel (setCell (setCell b next (some active)) cur none) ctr
          next true merges
      | some target =>
        if isImmovableWall (some target) then (b, ctr, moved, merges)
        else if canMerge active (some target) then
          let mr := createMergeResult active target ctr
          (setCell (setCell b next (some mr.1)) cur none, mr.2, true, merges + 1)
        else (b, ctr, moved, merges)

/-- The outer `for (const position of order)` loop of `slideAndMerge`. -/
def slideOuter (vector : Coordinate) :
    List Coordinate → Board Tile × ℕ × Bool × ℕ → Board Tile × ℕ × Bool × ℕ
  | [], acc => acc
  | pos :: rest, acc =>
    match getCell acc.1 pos with
    | some startTile =>
      if canSlide (some startTile) then
        slideOuter vector rest
          (slideLoop vector startTile acc.1.length acc.1 acc.2.1 pos acc.2.2.1 acc.2.2.2)
      else slideOuter vector rest acc
    | none => slideOuter vector rest acc

/-- `slideAndMerge`, threading the tile counter (merges draw fresh ids);
returns `(board, counter, moved, merges)`. -/
def slideAndMerge (b : Board Tile) (ctr : ℕ) (direction : Direction) :
    Board Tile × ℕ × Bool × ℕ :=
  let b0 := resetMergeFlags b
  let r := slideOuter (directionVector direction)
    (traversalOrder b0.length direction) (b0, ctr, false, 0)
  (resetMergeFlags r.1, r.2.1, r.2.2.1, r.2.2.2)

/-- The `(minorityCount, householdCount)` tallies of `getMinorityShare`. -/
def shareCounts (b : Board Tile) (cells : List Coordinate) : ℕ × ℕ :=
  cells.foldl
    (fun acc cell =>
      match getCell b cell with
      | none => acc
      | some tile =>
        if tile.kind ≠ .household then acc
        else
          match tile.color with
          | none => acc
          | some c => (acc.1 + (if c = .orange then 1 else 0), acc.2 + 1))
    (0, 0)

def getMinorityShare (b : Board Tile) (cells : List Coordinate) : ℚ :=
  let counts := shareCounts b cells
  if counts.2 = 0 then 0 else (counts.1 : ℚ) / (counts.2 : ℚ)

def unitsForTipping (b : Board Tile) (config : GameConfig) : List (List Coordinate) :=
  let size := b.length
  match config.tippingUnit with
  | .row =>
    (List.range size).map fun row =>
      (List.range size).map fun col => ⟨Int.ofNat row, Int.ofNat col⟩
  | .column =>
    (List.range size).map fun col =>
      (List.range size).map fun row => ⟨Int.ofNat row, Int.ofNat col⟩
  | .sector2x2 =>
    (List.range (size - 1)).flatMap fun row =>
      (List.range (size - 1)).map fun col =>
        [⟨Int.ofNat row, Int.ofNat col⟩, ⟨Int.ofNat row + 1, Int.ofNat col⟩,
         ⟨Int.ofNat row, Int.ofNat col + 1⟩, ⟨Int.ofNat row + 1, Int.ofNat col + 1⟩]

/-- `edgeCells`: top and bottom rows, then the remaining left/right
border cells. -/
def edgeCells (b : Board Tile) : List Coordinate :=
  ((List.range b.length).flatMap fun i =>
    [⟨0, Int.ofNat i⟩, ⟨(b.length : Int) - 1, Int.ofNat i⟩]) ++
  ((List.range' 1 (b.length - 2)).flatMap fun row =>
    [⟨Int.ofNat row, 0⟩, ⟨Int.ofNat row, (b.length : Int) - 1⟩])

/-- JavaScript `Math.abs` on a rational. -/
def qabs (q : ℚ) : ℚ := if q < 0 then -q else q

/-- `manhattan` in `engine.ts`; the board centre passed for the
no-minority fallback has fractional coordinates, so it works on rational
points. -/
def manhattanQ (a b : ℚ × ℚ) : ℚ := qabs (a.1 - b.1) + qabs (a.2 - b.2)

def coordQ (c : Coordinate) : ℚ × ℚ := ((c.row : ℚ), (c.col : ℚ))

/-- `Math.min(...xs)` over a nonempty list. -/
def minimumQ (x : ℚ) (xs : List ℚ) : ℚ := xs.foldl min x

/-- `findFarthestEdgeCell`: among empty border cells other than
`excluded`, keep those of maximal score (minimal distance to a minority
household, or distance to the centre when there are none) and pick one by
the uniform draw `r ∈ [0,1)` (an out-of-range draw falls back to the
first candidate). -/
def findFarthestEdgeCell (b : Board Tile) (minorityCells : List Coordinate)
    (excluded : Coordinate) (r : ℚ) : Option Coordinate :=
  let center : ℚ × ℚ := (((b.length : ℚ) - 1) / 2, ((b.length : ℚ) - 1) / 2)
  let scored :=
    (edgeCells b).foldl
      (fun (acc : Option ℚ × List Coordinate) edge =>
        if getCell b edge ≠ none then acc
        else if edge.row = excluded.row ∧ edge.col = excluded.col then acc
        else
          let score : ℚ :=
            match minorityCells with
            | [] => manhattanQ (coordQ edge) center
            | m :: ms =>
              minimumQ (manhattanQ (coordQ edge) (coordQ m))
                (ms.map fun mc => manhattanQ (coordQ edge) (coordQ mc))
          match acc.1 with
          | none => (some score, [edge])
          | some best =>
            if score > best then (some score, [edge])
            else if score = best then (acc.1, acc.2 ++ [edge])
            else acc)
      (none, [])
  match scored.2 with
  | [] => none
  | c :: rest =>
    some ((c :: rest).getD ((Rat.floor (r * ((c :: rest).length : ℚ))).toNat) c)

/-- The first-insertion-order deduplication performed by the
`Map`-keyed candidate set of `applyFlight`. -/
def dedupInsert (acc : List Coordinate) (c : Coordinate) : List Coordinate :=
  if c ∈ acc then acc else acc ++ [c]

/-- The deduplicated majority-cell flight candidates of `applyFlight`. -/
def flightCandidates (b : Board Tile) (config : GameConfig) : List Coordinate :=
  (unitsForTipping b config).foldl
    (fun acc unit =>
      if getMinorityShare b unit ≤ config.tippingThreshold then acc
      else
        unit.foldl
          (fun acc2 cell =>
            if isMajority (getCell b cell) then dedupInsert acc2 cell else acc2)
          acc)
    []

/-- Which candidates actually flee: a fixed half of a shuffle outcome in
deterministic mode, an independent-coin filter in probabilistic mode.
`shuf` is the shuffle result (a permutation, hypothesised where used) and
`coins` the per-candidate `Math.random` draws. -/
def selectFleeing (config : GameConfig) (shuf : List Coordinate → List Coordinate)
    (coins : ℕ → ℚ) (targets : List Coordinate) : List Coordinate :=
  match config.flightMode with
  | .deterministic => (shuf targets).take (targets.length / 2)
  | .probabilistic =>
    (targets.enum.filter fun ia => coins ia.1 < config.flightProbability).map (·.2)

/-- One iteration of the `for (const departure of fleeing)` loop:
`(new board, whether a flight event was counted)`. -/
def flightStep (config : GameConfig) (b : Board Tile) (departure : Coordinate)
    (eRand : ℚ) : Board Tile × Bool :=
  match getCell b departure with
  | none => (b, false)
  | some tile =>
    if !(isMajority (some tile)) then (b, false)
    else
      let b1 := setCell b departure none
      if config.flightBehavior = .despawn then (b1, true)
      else
        let minorityCells := (natCoords b1.length).filter fun p => isMinority (getCell b1 p)
        match findFarthestEdgeCell b1 minorityCells departure eRand with
        | none => (b1, true)
        | some edgeTarget => (setCell b1 edgeTarget (some tile), true)

def flightLoop (config : GameConfig) (eRands : ℕ → ℚ) :
    List Coordinate → Board Tile → ℕ → Board Tile × ℕ
  | [], b, events => (b, events)
  | dep :: rest, b, events =>
    let r := flightStep config b dep (eRands events)
    flightLoop config eRands rest r.1 (events + (if r.2 then 1 else 0))

/-- `applyFlight`: returns the new board and the number of flight
events. -/
def applyFlight (b : Board Tile) (config : GameConfig)
    (shuf : List Coordinate → List Coordinate) (coins : ℕ → ℚ) (eRands : ℕ → ℚ) :
    Board Tile × ℕ :=
  let majorityTargets := flightCandidates b config
  if majorityTargets.length = 0 then (b, 0)
  else
    let fleeing := selectFleeing config shuf coins majorityTargets
    if fleeing.length = 0 then (b, 0)
    else flightLoop config eRands fleeing b 0

/-- `minorityShareForRow` (the same guard structure as
`getMinorityShare`, over one row). -/
def minorityShareForRow (b : Board Tile) (row : ℕ) : ℚ :=
  let counts := shareCounts b
    ((List.range b.length).map fun col => ⟨Int.ofNat row, Int.ofNat col⟩)
  if counts.2 = 0 then 0 else (counts.1 : ℚ) / (counts.2 : ℚ)

def integrationRows (b : Board Tile) (config : GameConfig) : ℕ :=
  (List.range b.length).countP fun row =>
    decide (config.integrationBandMin ≤ minorityShareForRow b row) &&
      decide (minorityShareForRow b row ≤ config.integrationBandMax)

/-- Whether row `row` contains a household of color `c`. -/
def rowHasColor (b : Board Tile) (row : ℕ) (c : HouseholdColor) : Bool :=
  (List.range b.length).any fun col =>
    match getCell b ⟨Int.ofNat row, Int.ofNat col⟩ with
    | some tile => (tile.kind = TileKind.household : Bool) && tile.color = some c
    | none => false

/-- `isBoardSegregated`: false as soon as some row mixes both colors,
else true iff both colors occur at all (the source's single pass with an
early `return false` computes exactly this). -/
def isBoardSegregated (b : Board Tile) : Bool :=
  if (List.range b.length).any fun row =>
      rowHasColor b row .blue && rowHasColor b row .orange then false
  else
    ((List.range b.length).any fun row => rowHasColor b row .blue) &&
      ((List.range b.length).any fun row => rowHasColor b row .orange)

/-- Count of households in row `p.row` (column `p.col`) matching `color`,
over all indices, as in `recomputeLocks`. -/
def sameColorInRow (b : Board Tile) (p : Coordinate) (color : Option HouseholdColor) : ℕ :=
  (List.range b.length).countP fun index =>
    match getCell b ⟨p.row, Int.ofNat index⟩ with
    | some rowTile => (rowTile.kind = TileKind.household : Bool) && rowTile.color = color
    | none => false

def sameColorInCol (b : Board Tile) (p : Coordinate) (color : Option HouseholdColor) : ℕ :=
  (List.range b.length).countP fun index =>
    match getCell b ⟨Int.ofNat index, p.col⟩ with
    | some colTile => (colTile.kind = TileKind.household : Bool) && colTile.color = color
    | none => false

/-- `recomputeLocks`: a colored household is locked iff it is the sole
tile of its color in its row and in its column.  The in-place loop reads
only `kind` and `color`, never `locked`, so it equals this simultaneous
rewrite. -/
def recomputeLocks (b : Board Tile) : Board Tile :=
  mapBoard
    (fun p t =>
      if t.kind ≠ .household ∨ t.color = none then t
      else { t with locked :=
        sameColorInRow b p t.color = 1 ∧ sameColorInCol b p t.color = 1 })
    b

def emptyCells (b : Board Tile) : List Coordinate :=
  (natCoords b.length).filter fun p =>
    decide (cellJS b p.row.toNat p.col.toNat = some none)

def spawnOrangeShare (config : GameConfig) (turn : ℕ) : ℚ :=
  clamp01 (config.spawnRatioOrange + config.spawnRatioShiftPerTurn * (turn : ℚ))

/-- `spawnOneHousehold`: place a fresh household on a uniformly drawn
empty cell; `rPick`/`rColor` are the two `Math.random` draws.  Returns
`(board, counter, spawned)`. -/
def spawnOneHousehold (b : Board Tile) (config : GameConfig) (turn : ℕ) (ctr : ℕ)
    (rPick rColor : ℚ) : Board Tile × ℕ × Bool :=
  let empty := emptyCells b
  if empty.length = 0 then (b, ctr, false)
  else
    let target := empty.getD ((Rat.floor (rPick * (empty.length : ℚ))).toNat) ⟨0, 0⟩
    let orangeShare := spawnOrangeShare config turn
    let color := if rColor < orangeShare then HouseholdColor.orange else HouseholdColor.blue
    let ch := createHousehold ctr color
    (setCell b target (some ch.1), ch.2, true)

def isFullyLocked (b : Board Tile) : Bool :=
  let households := (tilesList b).countP fun t => t.kind = .household
  let locked := (tilesList b).countP fun t => (t.kind = TileKind.household : Bool) && t.locked
  decide (0 < households) && decide (households = locked)

/-- `hasLegalMoves`: probe each direction on a disposable clone; the
probes call `slideAndMerge` and therefore advance the tile counter. -/
def legalMovesLoop (b : Board Tile) : List Direction → ℕ → Bool × ℕ
  | [], ctr => (false, ctr)
  | d :: rest, ctr =>
    let r := slideAndMerge b ctr d
    if r.2.2.1 then (true, r.2.1) else legalMovesLoop b rest r.2.1

def hasLegalMoves (b : Board Tile) (ctr : ℕ) : Bool × ℕ :=
  legalMovesLoop b DIRECTIONS ctr

inductive GameOverReason where
  | fully_locked
  | no_legal_moves
  | manual_end
deriving DecidableEq

structure TurnSummary where
  moved : Bool
  merges : ℕ
  flightCount : ℕ
  integrationRows : ℕ
  pointsGained : ℕ
  segregationWarning : Bool
  spawned : Bool
deriving DecidableEq

def defaultSummary : TurnSummary :=
  { moved := false, merges := 0, flightCount := 0, integrationRows := 0, pointsGained := 0,
    segregationWarning := false, spawned := false }

structure GameState where
  board : Board Tile
  turn : ℕ
  totalScore : ℕ
  integrationTurnsSurvived : ℕ
  gameOver : Bool
  gameOverReason : Option GameOverReason
  summary : TurnSummary
deriving DecidableEq

/-- The initial-tiles spawn loop of `createInitialState` (stops early
when the board fills up); `i` indexes the random streams. -/
def initialSpawnLoop (config : GameConfig) (rPicks rColors : ℕ → ℚ) :
    ℕ → ℕ → Board Tile → ℕ → Board Tile × ℕ
  | 0, _, b, ctr => (b, ctr)
  | count + 1, i, b, ctr =>
    let r := spawnOneHousehold b config 0 ctr (rPicks i) (rColors i)
    if r.2.2 then initialSpawnLoop config rPicks rColors count (i + 1) r.1 r.2.1
    else (r.1, r.2.1)

def createInitialState (config : GameConfig) (ctr : ℕ) (rPicks rColors : ℕ → ℚ) :
    GameState × ℕ :=
  let spawned := initialSpawnLoop config rPicks rColors config.initialTiles 0
    (createEmptyBoard config.size) ctr
  let board := recomputeLocks spawned.1
  ({ board := board, turn := 0, totalScore := 0, integrationTurnsSurvived := 0,
     gameOver := false, gameOverReason := none, summary := defaultSummary }, spawned.2)

def endSession (state : GameState) : GameState :=
  { state with gameOver := true, gameOverReason := some .manual_end }

/-- The ambient random draws consumed by one slide-variant turn. -/
structure Oracle where
  shuf : List Coordinate → List Coordinate
  coins : ℕ → ℚ
  eRands : ℕ → ℚ
  spawnPick : ℚ
  spawnColor : ℚ

/-- `applyTurn` of the slide variant, threading the tile counter. -/
def applyTurn (state : GameState) (direction : Direction) (config : GameConfig)
    (ctr : ℕ) (o : Oracle) : GameState × ℕ :=
  if state.gameOver then (state, ctr)
  else
    let sm := slideAndMerge state.board ctr direction
    if !sm.2.2.1 then
      ({ state with summary := { defaultSummary with moved := false } }, sm.2.1)
    else
      let b1 := recomputeLocks sm.1
      let fl := applyFlight b1 config o.shuf o.coins o.eRands
      let b2 := recomputeLocks fl.1
      let turn := state.turn + 1
      let sp := spawnOneHousehold b2 config turn sm.2.1 o.spawnPick o.spawnColor
      let b3 := recomputeLocks sp.1
      let rowsIntegrated := integrationRows b3 config
      let pointsGained := rowsIntegrated * config.integrationPointsPerRow
      let segregationWarning := isBoardSegregated b3
      let fullyLocked := isFullyLocked b3
      let lm := hasLegalMoves b3 sp.2.1
      let gameOver := fullyLocked || !lm.1
      ({ board := b3
         turn := turn
         totalScore := state.totalScore + pointsGained
         integrationTurnsSurvived :=
           state.integrationTurnsSurvived + (if 0 < rowsIntegrated then 1 else 0)
         gameOver := gameOver
         gameOverReason :=
           if gameOver then
             (if fullyLocked then some .fully_locked else some .no_legal_moves)
           else none
         summary :=
           { moved := sm.2.2.1, merges := sm.2.2.2, flightCount := fl.2,
             integrationRows := rowsIntegrated, pointsGained := pointsGained,
             segregationWarning := segregationWarning, spawned := sp.2.2 } }, lm.2)

/-- The multiset of tile kinds on the board. -/
def kindMS (b : Board Tile) : Multiset TileKind := (tileMS b).map Tile.kind

/-- Number of household tiles on the board (`isHousehold` count). -/
def hhCount (b : Board Tile) : ℕ := Multiset.count TileKind.household (kindMS b)

/-- The multiset of tile ids on the board. -/
def idsMS (b : Board Tile) : Multiset ℕ := (tileMS b).map Tile.id

/-- Id sanity relative to the global counter: all ids distinct and none
exceeding the counter (so a fresh `ctr + 1` can never collide). -/
def IdsOk (ctr : ℕ) (b : Board Tile) : Prop :=
  (idsMS b).Nodup ∧ ∀ i ∈ idsMS b, i ≤ ctr

/-- A border cell `findFarthestEdgeCell` may select: empty and distinct
from the excluded departure cell. -/
def Admissible (b : Board Tile) (ex e : Coordinate) : Prop :=
  getCell b e = none ∧ ¬(e.row = ex.row ∧ e.col = ex.col)

instance (b : Board Tile) (ex e : Coordinate) : Decidable (Admissible b ex e) := by
  unfold Admissible; infer_instance

end Slide

namespace Reloc

/-- The multiset of tile ids on a relocation-variant board. -/
def idsR (b : Board HouseholdTile) : Multiset ℕ := (tileMS b).map HouseholdTile.id

/-- Number of household tiles: every occupied cell of this variant holds a
household. -/
def householdCount (b : Board HouseholdTile) : ℕ := Multiset.card (tileMS b)

/-- Id sanity relative to the global counter (relocation variant). -/
def RIdsOk (ctr : ℕ) (b : Board HouseholdTile) : Prop :=
  (idsR b).Nodup ∧ ∀ i ∈ idsR b, i ≤ ctr

end Reloc

/-! ### Claim C3 -/

def st (i : ℕ) (c : HouseholdColor) : Option Slide.Tile :=
  some { id := i, kind := .household, color := some c, locked := false, mergedThisTurn := false }

/-- Two unlocked blue households side by side on a 2×2 board: sliding
left merges them into a gated community. -/
def boardC3 : Board Slide.Tile :=
  [[st 1 .blue, st 2 .blue], [none, none]]

namespace Slide

/-- The candidate-accumulation step of the `findFarthestEdgeCell` loop,
with the edge's score abstracted into `score`. -/
def farthestStep (b : Board Tile) (ex : Coordinate) (score : Coordinate → ℚ)
    (acc : Option ℚ × List Coordinate) (edge : Coordinate) : Option ℚ × List Coordinate :=
  if getCell b edge ≠ none then acc
  else if edge.row = ex.row ∧ edge.col = ex.col then acc
  else
    match acc.1 with
    | none => (some (score edge), [edge])
    | some best =>
      if score edge > best then (some (score edge), [edge])
      else if score edge = best then (acc.1, acc.2 ++ [edge])
      else acc

/-- The score of an edge cell in `findFarthestEdgeCell`: minimal distance
to a minority household, or distance to the board centre when there are
none. -/
def farthestScore (b : Board Tile) (mc : List Coordinate) (edge : Coordinate) : ℚ :=
  match mc with
  | [] =>
    manhattanQ (coordQ edge) (((b.length : ℚ) - 1) / 2, ((b.length : ℚ) - 1) / 2)
  | m :: ms =>
    minimumQ (manhattanQ (coordQ edge) (coordQ m))
      (ms.map fun x => manhattanQ (coordQ edge) (coordQ x))

end Slide

/-- A 2×2 board fully occupied by blue households: after a departure
vacates a corner, the only empty border cell is the excluded departure
cell itself. -/
def boardC10 : Board Slide.Tile :=
  [[st 1 .blue, st 2 .blue], [st 3 .blue, st 4 .blue]]

def tileC10 : Slide.Tile :=
  { id := 1, kind := .household, color := some .blue, locked := false, mergedThisTurn := false }

def cfgC10 : Slide.GameConfig :=
  { size := 2, initialTiles := 0, spawnRatioBlue := 9 / 10, spawnRatioOrange := 1 / 10,
    spawnRatioShiftPerTurn := 0, spawnPerTurn := 1, earlySpawnPerTurn := 2,
    earlySpawnTurns := 12, isolationLockDelayTurns := 3, tippingThreshold := 3 / 10,
    tippingUnit := .row, flightMode := .deterministic, flightProbability := 45 / 100,
    flightBehavior := .edgeRelocate, integrationBandMin := 3 / 10,
    integrationBandMax := 7 / 10, integrationPointsPerRow := 10 }

/-- A 3×3 board whose top row holds two blue households and one orange:
the row's minority share 1/3 exceeds the tipping threshold 3/10, so both
blue cells are flight candidates. -/
def boardC5 : Board Slide.Tile :=
  [[st 1 .blue, st 2 .blue, st 3 .orange],
   [none, none, none],
   [none, none, none]]

/-- A game session of the relocation variant: the initial state (with the
global tile counter starting at 0) and closure under `applyTurn` (any
selection, direction and raw configuration) and `endSession`; the second
component tracks the value of the global `tileCounter`. -/
inductive RReach : Reloc.GameState → ℕ → Prop where
  | init (cfg : Reloc.GameConfig) (sC : List HouseholdColor → List HouseholdColor)
      (sP : List Coordinate → List Coordinate) :
      RReach (Reloc.createInitialState 0 cfg sC sP).1 (Reloc.createInitialState 0 cfg sC sP).2
  | step (s : Reloc.GameState) (ctr : ℕ) (sel : Coordinate) (dir : Direction)
      (cfg : Reloc.GameConfig) : RReach s ctr → RReach (Reloc.applyTurn s sel dir cfg) ctr
  | finish (s : Reloc.GameState) (ctr : ℕ) : RReach s ctr → RReach (Reloc.endSession s) ctr

/-- A game session of the slide-and-merge variant: the initial state (tile
counter 0, arbitrary spawn draws) and closure under `applyTurn` (any
direction, configuration and random oracle) and `endSession`. -/
inductive SReach : Slide.GameState → ℕ → Prop where
  | init (cfg : Slide.GameConfig) (rP rC : ℕ → ℚ) :
      SReach (Slide.createInitialState cfg 0 rP rC).1 (Slide.createInitialState cfg 0 rP rC).2
  | step (s : Slide.GameState) (ctr : ℕ) (dir : Direction) (cfg : Slide.GameConfig)
      (o : Slide.Oracle) : SReach s ctr →
      SReach (Slide.applyTurn s dir cfg ctr o).1 (Slide.applyTurn s dir cfg ctr o).2
  | finish (s : Slide.GameState) (ctr : ℕ) : SReach s ctr → SReach (Slide.endSession s) ctr

def cfgC9 : Reloc.GameConfig :=
  { size := 8, initialOccupancy := 7 / 10, minorityShare := 15 / 100, maxTurns := 30 }

/-! ### Theorems -/

theorem jsRound_eq_floor (q : ℚ) : jsRound q = ⌊q + 1 / 2⌋ := by
  have hden : (q.den : ℚ) ≠ 0 := Nat.cast_ne_zero.mpr q.den_nz
  have hval : q + 1 / 2 = ((2 * q.num + (q.den : ℤ) : ℤ) : ℚ) / ((2 * q.den : ℕ) : ℚ) := by
    rw [eq_div_iff (by exact_mod_cast Nat.mul_ne_zero two_ne_zero q.den_nz)]
    have hnum : (q.num : ℚ) = q * (q.den : ℚ) := by
      nth_rewrite 2 [← Rat.num_div_den q]
      rw [div_mul_cancel₀ _ hden]
    push_cast
    rw [hnum]
    ring
  rw [hval, Rat.floor_intCast_div_natCast, jsRound,
    Int.fdiv_eq_ediv _ (by positivity)]
  push_cast
  ring_nf

theorem isInBounds_iff_InB {α : Type} {b : Board α} (hsq : IsSquare b) (p : Coordinate) :
    isInBounds b p.row p.col = true ↔ InB b p := by
  unfold isInBounds InB
  simp only [Bool.and_eq_true, decide_eq_true_eq]
  constructor
  · rintro ⟨⟨⟨h1, h2⟩, h3⟩, h4⟩
    have hr : p.row.toNat < b.length := by omega
    refine ⟨h1, h2, hr, ?_⟩
    rw [hsq p.row.toNat hr]; omega
  · rintro ⟨h1, h2, h3, h4⟩
    have := hsq p.row.toNat h3
    omega

theorem getD_set {β : Type} (l : List β) (i j : ℕ) (x d : β) :
    (l.set i x).getD j d = if i = j ∧ i < l.length then x else l.getD j d := by
  induction l generalizing i j with
  | nil => simp
  | cons a l ih =>
    cases i with
    | zero => cases j <;> simp
    | succ i =>
      cases j with
      | zero => simp
      | succ j =>
        simp only [List.set_cons_succ, List.getD_cons_succ, List.length_cons, ih]
        have hiff : (i = j ∧ i < l.length) ↔ (i + 1 = j + 1 ∧ i + 1 < l.length + 1) := by omega
        rw [if_congr hiff rfl rfl]

theorem row_set_ms {α : Type} (l : List (Option α)) (j : ℕ) (x : Option α) (hj : j < l.length) :
    ((l.set j x).filterMap id : Multiset α) + cellMS (l.getD j none)
      = (l.filterMap id : Multiset α) + cellMS x := by
  induction l generalizing j with
  | nil => simp at hj
  | cons a l ih =>
    cases j with
    | zero =>
      cases a <;> cases x <;>
        (simp [cellMS, List.filterMap_cons, ← Multiset.cons_coe,
          ← Multiset.singleton_add]) <;> abel
    | succ j =>
      have hj' : j < l.length := by simpa using hj
      cases a with
      | none =>
        simpa [List.filterMap_cons] using ih j hj'
      | some t =>
        have h := ih j hj'
        simp only [List.set_cons_succ, List.getD_cons_succ, List.filterMap_cons, id]
        rw [← Multiset.cons_coe, ← Multiset.cons_coe, ← Multiset.singleton_add,
          ← Multiset.singleton_add, add_assoc, add_assoc, h]

theorem flatten_set_ms {α : Type} (b : List (List (Option α))) (i : ℕ) (r : List (Option α))
    (hi : i < b.length) :
    ((b.set i r).flatten.filterMap id : Multiset α) + ((b.getD i []).filterMap id : Multiset α)
      = (b.flatten.filterMap id : Multiset α) + (r.filterMap id : Multiset α) := by
  induction b generalizing i with
  | nil => simp at hi
  | cons row rows ih =>
    cases i with
    | zero =>
      simp only [List.set_cons_zero, List.getD_cons_zero, List.flatten_cons,
        List.filterMap_append, ← Multiset.coe_add]
      abel
    | succ i =>
      have hi' : i < rows.length := by simpa using hi
      have h := ih i hi'
      simp only [List.set_cons_succ, List.getD_cons_succ, List.flatten_cons,
        List.filterMap_append, ← Multiset.coe_add] at *
      calc (row.filterMap id : Multiset α) + ((rows.set i r).flatten.filterMap id : Multiset α)
        + ((rows.getD i []).filterMap id : Multiset α)
        = (row.filterMap id : Multiset α) + (((rows.set i r).flatten.filterMap id : Multiset α)
          + ((rows.getD i []).filterMap id : Multiset α)) := by abel
      _ = (row.filterMap id : Multiset α) + ((rows.flatten.filterMap id : Multiset α)
          + (r.filterMap id : Multiset α)) := by rw [h]
      _ = (row.filterMap id : Multiset α) + (rows.flatten.filterMap id : Multiset α)
          + (r.filterMap id : Multiset α) := by abel

/-- The fundamental accounting lemma: writing `x` into an allocated cell
exchanges the old cell contents for `x` in the board's tile multiset. -/
theorem tileMS_set {α : Type} (b : Board α) (p : Coordinate) (x : Option α) (h : InB b p) :
    tileMS (setCell b p x) + cellMS (getCell b p) = tileMS b + cellMS x := by
  obtain ⟨h1, h2, h3, h4⟩ := h
  unfold tileMS tilesList setCell getCell
  rw [if_pos ⟨h1, h2⟩, if_pos ⟨h1, h2⟩]
  have hrow := row_set_ms (b.getD p.row.toNat []) p.col.toNat x h4
  have hb := flatten_set_ms b p.row.toNat ((b.getD p.row.toNat []).set p.col.toNat x) h3
  set A : Multiset α :=
    ((b.set p.row.toNat ((b.getD p.row.toNat []).set p.col.toNat x)).flatten.filterMap id
      : Multiset α) with hA
  set B : Multiset α := (b.flatten.filterMap id : Multiset α) with hB
  set R : Multiset α := ((b.getD p.row.toNat []).filterMap id : Multiset α) with hR
  set R' : Multiset α :=
    (((b.getD p.row.toNat []).set p.col.toNat x).filterMap id : Multiset α) with hR'
  set c1 : Multiset α := cellMS ((b.getD p.row.toNat []).getD p.col.toNat none) with hc1
  apply add_right_cancel (b := R)
  calc A + c1 + R = (A + R) + c1 := by abel
    _ = (B + R') + c1 := by rw [hb]
    _ = B + (R' + c1) := by abel
    _ = B + (R + cellMS x) := by rw [hrow]
    _ = B + cellMS x + R := by abel

theorem length_setCell {α : Type} (b : Board α) (p : Coordinate) (x : Option α) :
    (setCell b p x).length = b.length := by
  unfold setCell; split <;> simp

theorem getD_setCell_row {α : Type} (b : Board α) (p : Coordinate) (x : Option α) (i : ℕ) :
    ((setCell b p x).getD i []).length = (b.getD i []).length := by
  unfold setCell
  split
  · rw [getD_set]
    split
    · rename_i hcond
      rw [← hcond.1]; simp
    · rfl
  · rfl

theorem isSquare_setCell {α : Type} {b : Board α} (hsq : IsSquare b) (p : Coordinate)
    (x : Option α) : IsSquare (setCell b p x) := by
  intro i hi
  rw [length_setCell] at hi
  rw [length_setCell, getD_setCell_row]
  exact hsq i hi

theorem getCell_setCell_same {α : Type} {b : Board α} {p : Coordinate} (h : InB b p)
    (x : Option α) : getCell (setCell b p x) p = x := by
  obtain ⟨h1, h2, h3, h4⟩ := h
  unfold getCell setCell
  rw [if_pos ⟨h1, h2⟩, if_pos ⟨h1, h2⟩, getD_set, if_pos ⟨rfl, h3⟩, getD_set,
    if_pos ⟨rfl, h4⟩]

theorem getCell_setCell_other {α : Type} (b : Board α) {p q : Coordinate} (hne : p ≠ q)
    (x : Option α) : getCell (setCell b q x) p = getCell b p := by
  by_cases hq : 0 ≤ q.row ∧ 0 ≤ q.col
  case neg => unfold setCell; rw [if_neg hq]
  by_cases hp : 0 ≤ p.row ∧ 0 ≤ p.col
  case neg => unfold getCell setCell; rw [if_pos hq, if_neg hp, if_neg hp]
  unfold getCell setCell
  rw [if_pos hq, if_pos hp, if_pos hp, getD_set]
  split
  · rename_i hrow
    rw [getD_set]
    split
    · rename_i hcol
      exfalso
      apply hne
      have h1 : p.row = q.row := by omega
      have h2 : p.col = q.col := by omega
      cases p; cases q
      simp_all
    · rw [hrow.1]
  · rfl

theorem set_getD_self {β : Type} (l : List β) (i : ℕ) (d : β) : l.set i (l.getD i d) = l := by
  induction l generalizing i with
  | nil => simp
  | cons a l ih =>
    cases i with
    | zero => simp
    | succ n => simp only [List.set_cons_succ, List.getD_cons_succ, ih]

/-- A write outside the allocated array leaves the board unchanged. -/
theorem setCell_out_of_range {α : Type} (b : Board α) (p : Coordinate) (x : Option α)
    (h : ¬ InB b p) : setCell b p x = b := by
  unfold setCell
  split
  · rename_i hnn
    rcases Nat.lt_or_ge p.row.toNat b.length with hr | hr
    · rcases Nat.lt_or_ge p.col.toNat (b.getD p.row.toNat []).length with hc | hc
      · exact absurd ⟨hnn.1, hnn.2, hr, hc⟩ h
      · rw [List.set_eq_of_length_le hc, set_getD_self]
    · exact List.set_eq_of_length_le hr
  · rfl

/-- Inserting any tile can only add that tile to the multiset (as an
inequality this needs no in-bounds hypothesis: an out-of-range write is
dropped). -/
theorem tileMS_setCell_le {α : Type} (b : Board α) (p : Coordinate) (t : α) :
    tileMS (setCell b p (some t)) ≤ tileMS b + {t} := by
  by_cases h : InB b p
  · have := tileMS_set b p (some t) h
    calc tileMS (setCell b p (some t)) ≤ tileMS (setCell b p (some t)) + cellMS (getCell b p) :=
        le_add_right le_rfl
      _ = tileMS b + cellMS (some t) := this
      _ = tileMS b + {t} := rfl
  · rw [setCell_out_of_range b p _ h]
    exact le_add_right le_rfl

/-- Clearing a cell can only remove tiles from the multiset. -/
theorem tileMS_setCell_none_le {α : Type} (b : Board α) (p : Coordinate) :
    tileMS (setCell b p none) ≤ tileMS b := by
  by_cases h : InB b p
  · have := tileMS_set b p none h
    calc tileMS (setCell b p none) ≤ tileMS (setCell b p none) + cellMS (getCell b p) :=
        le_add_right le_rfl
      _ = tileMS b + cellMS none := this
      _ = tileMS b := by simp [cellMS]
  · rw [setCell_out_of_range b p _ h]

/-- Moving an existing tile from `p` to an empty in-bounds cell `q`
preserves the tile multiset exactly
(`board[to] = tile; board[from] = null`). -/
theorem tileMS_move {α : Type} (b : Board α) {p q : Coordinate} {t : α}
    (hp : getCell b p = some t) (hq : getCell b q = none) (hqb : InB b q) (hne : p ≠ q) :
    tileMS (setCell (setCell b q (some t)) p none) = tileMS b := by
  have h1 : tileMS (setCell b q (some t)) + cellMS (getCell b q) = tileMS b + cellMS (some t) :=
    tileMS_set b q (some t) hqb
  rw [hq] at h1
  simp only [cellMS, add_zero] at h1
  by_cases hpb : InB b p
  · have hpb' : InB (setCell b q (some t)) p := by
      obtain ⟨a1, a2, a3, a4⟩ := hpb
      exact ⟨a1, a2, by rw [length_setCell]; exact a3, by rw [getD_setCell_row]; exact a4⟩
    have h2 := tileMS_set (setCell b q (some t)) p none hpb'
    rw [getCell_setCell_other b hne] at h2
    rw [hp] at h2
    simp only [cellMS, add_zero] at h2
    have : tileMS (setCell (setCell b q (some t)) p none) + {t} = tileMS b + {t} := by
      rw [h2, h1]
    exact add_right_cancel this
  · exfalso
    have : getCell b p = none := by
      unfold getCell
      split
      · rename_i hnn
        rcases Nat.lt_or_ge p.row.toNat b.length with hr | hr
        · rcases Nat.lt_or_ge p.col.toNat (b.getD p.row.toNat []).length with hc | hc
          · exact absurd ⟨hnn.1, hnn.2, hr, hc⟩ hpb
          · exact List.getD_eq_default _ _ hc
        · rw [List.getD_eq_default _ _ hr]; rfl
      · rfl
    rw [hp] at this
    exact Option.noConfusion this

theorem length_mapRowFrom {α : Type} (f : Coordinate → α → α) (r c : Int)
    (l : List (Option α)) : (mapRowFrom f r c l).length = l.length := by
  induction l generalizing c with
  | nil => rfl
  | cons x xs ih => simp [mapRowFrom, ih]

theorem length_mapBoardFrom {α : Type} (f : Coordinate → α → α) (r : Int) (b : Board α) :
    (mapBoardFrom f r b).length = b.length := by
  induction b generalizing r with
  | nil => rfl
  | cons row rows ih => simp [mapBoardFrom, ih]

theorem getD_mapBoardFrom_row {α : Type} (f : Coordinate → α → α) (r : Int) (b : Board α)
    (i : ℕ) : ((mapBoardFrom f r b).getD i []).length = (b.getD i []).length := by
  induction b generalizing r i with
  | nil => simp [mapBoardFrom]
  | cons row rows ih =>
    cases i with
    | zero => simp [mapBoardFrom, length_mapRowFrom]
    | succ n => simp only [mapBoardFrom, List.getD_cons_succ, ih]

theorem isSquare_mapBoard {α : Type} {b : Board α} (hsq : IsSquare b)
    (f : Coordinate → α → α) : IsSquare (mapBoard f b) := by
  intro i hi
  unfold mapBoard at hi ⊢
  rw [length_mapBoardFrom] at hi
  rw [length_mapBoardFrom, getD_mapBoardFrom_row]
  exact hsq i hi

/-- A projection untouched by the rewriting function is preserved on the
tile multiset. -/
theorem tileMS_map_mapRowFrom {α β : Type} (f : Coordinate → α → α) (g : α → β)
    (hg : ∀ p t, g (f p t) = g t) (r c : Int) (l : List (Option α)) :
    ((mapRowFrom f r c l).filterMap id).map g = (l.filterMap id).map g := by
  induction l generalizing c with
  | nil => rfl
  | cons x xs ih =>
    cases x with
    | none => simp [mapRowFrom, List.filterMap_cons, ih]
    | some t => simp [mapRowFrom, List.filterMap_cons, ih, hg]

theorem tileMS_map_mapBoardFrom {α β : Type} (f : Coordinate → α → α) (g : α → β)
    (hg : ∀ p t, g (f p t) = g t) (r : Int) (b : Board α) :
    (tileMS (mapBoardFrom f r b)).map g = (tileMS b).map g := by
  induction b generalizing r with
  | nil => rfl
  | cons row rows ih =>
    unfold tileMS tilesList at *
    simp only [mapBoardFrom, List.flatten_cons, List.filterMap_append, ← Multiset.coe_add,
      Multiset.map_add]
    have h2 := ih (r + 1)
    rw [Multiset.map_coe, Multiset.map_coe] at h2
    rw [Multiset.map_coe, Multiset.map_coe, Multiset.map_coe, Multiset.map_coe,
      tileMS_map_mapRowFrom f g hg, h2]

theorem tileMS_map_mapBoard {α β : Type} (f : Coordinate → α → α) (g : α → β)
    (hg : ∀ p t, g (f p t) = g t) (b : Board α) :
    (tileMS (mapBoard f b)).map g = (tileMS b).map g :=
  tileMS_map_mapBoardFrom f g hg 0 b

/-- A cell that holds a tile is in bounds. -/
theorem InB_of_getCell_some {α : Type} {b : Board α} {p : Coordinate} {t : α}
    (h : getCell b p = some t) : InB b p := by
  by_contra hpb
  have : getCell b p = none := by
    unfold getCell
    split
    · rename_i hnn
      rcases Nat.lt_or_ge p.row.toNat b.length with hr | hr
      · rcases Nat.lt_or_ge p.col.toNat (b.getD p.row.toNat []).length with hc | hc
        · exact absurd ⟨hnn.1, hnn.2, hr, hc⟩ hpb
        · exact List.getD_eq_default _ _ hc
      · rw [List.getD_eq_default _ _ hr]; rfl
    · rfl
  rw [h] at this
  exact Option.noConfusion this

theorem cellJS_eq_some_iff {α : Type} {b : Board α} {r c : ℕ} {x : Option α} :
    cellJS b r c = some x ↔
      r < b.length ∧ c < (b.getD r []).length ∧ (b.getD r []).getD c none = x := by
  unfold cellJS
  constructor
  · intro h
    rcases hb : b[r]? with _ | row
    · rw [hb] at h; exact Option.noConfusion h
    · rw [hb] at h
      simp only [Option.some_bind] at h
      have hr : r < b.length := by
        by_contra hr
        rw [List.getElem?_eq_none (by omega)] at hb
        exact Option.noConfusion hb
      have hrow : b.getD r [] = row := by
        rw [List.getD_eq_getElem?_getD, hb]; rfl
      have hc : c < row.length := by
        by_contra hc
        rw [List.getElem?_eq_none (by omega)] at h
        exact Option.noConfusion h
      refine ⟨hr, by rw [hrow]; exact hc, ?_⟩
      rw [hrow, List.getD_eq_getElem?_getD, h]
      rfl
  · rintro ⟨hr, hc, hx⟩
    rw [List.getElem?_eq_getElem hr]
    simp only [Option.some_bind]
    have hrow : b.getD r [] = b[r] := by
      rw [List.getD_eq_getElem?_getD, List.getElem?_eq_getElem hr]
      rfl
    rw [hrow] at hc hx
    rw [List.getD_eq_getElem?_getD, List.getElem?_eq_getElem hc] at hx
    rw [List.getElem?_eq_getElem hc]
    exact congrArg some hx

/-! ### Helper lemmas -/

theorem floor_add_floor_neg (z : ℚ) : ⌊z⌋ + ⌊-z⌋ = 0 ∨ ⌊z⌋ + ⌊-z⌋ = -1 := by
  rw [Int.floor_neg]
  have h1 := Int.floor_le_ceil z
  have h2 := Int.ceil_le_floor_add_one z
  omega

/-- Independently rounding the two complementary percentages gives a sum
of `100`, or `101` when both land exactly on a half. -/
theorem jsRound_complement (s m : ℕ) (h : s + m ≠ 0) :
    jsRound ((s : ℚ) / ((s + m : ℕ) : ℚ) * 100) + jsRound ((m : ℚ) / ((s + m : ℕ) : ℚ) * 100)
        = 100 ∨
      jsRound ((s : ℚ) / ((s + m : ℕ) : ℚ) * 100) + jsRound ((m : ℚ) / ((s + m : ℕ) : ℚ) * 100)
        = 101 := by
  have ht : ((s + m : ℕ) : ℚ) ≠ 0 := Nat.cast_ne_zero.mpr h
  have hy : (m : ℚ) / ((s + m : ℕ) : ℚ) * 100
      = 100 - (s : ℚ) / ((s + m : ℕ) : ℚ) * 100 := by
    rw [eq_sub_iff_add_eq, div_mul_eq_mul_div, div_mul_eq_mul_div, div_add_div_same,
      div_eq_iff ht]
    push_cast
    ring
  rw [jsRound_eq_floor, jsRound_eq_floor, hy]
  have hz : (100 : ℚ) - (s : ℚ) / ((s + m : ℕ) : ℚ) * 100 + 1 / 2
      = -((s : ℚ) / ((s + m : ℕ) : ℚ) * 100 + 1 / 2) + ((101 : ℤ) : ℚ) := by
    push_cast
    ring
  rw [hz, Int.floor_add_int]
  rcases floor_add_floor_neg ((s : ℚ) / ((s + m : ℕ) : ℚ) * 100 + 1 / 2) with h' | h' <;> omega

/-! ### Claim C1 -/

/-- C1 (amended): for every board, whenever at least one occupied adjacent
pair exists, `calculateSegregationIndex b + calculateIntegrationIndex b`
is `100` or `101` (`101` exactly when both percentages land on a half,
since each index is rounded independently), and both functions return `0`
— never a division error — on a board with no occupied adjacent pair.
This holds for the engine pair of functions and for the `debrief.ts` pair. -/
theorem claim_C1_complement_within_one (b : Board Reloc.HouseholdTile) :
    (((Reloc.adjacencyStats b).1 + (Reloc.adjacencyStats b).2 ≠ 0) →
      Reloc.calculateSegregationIndex b + Reloc.calculateIntegrationIndex b = 100 ∨
      Reloc.calculateSegregationIndex b + Reloc.calculateIntegrationIndex b = 101) ∧
    (((Reloc.adjacencyStats b).1 + (Reloc.adjacencyStats b).2 = 0) →
      Reloc.calculateSegregationIndex b = 0 ∧ Reloc.calculateIntegrationIndex b = 0) ∧
    (((Debrief.adjacencyStats b).1 + (Debrief.adjacencyStats b).2 ≠ 0) →
      Debrief.calculateSegregationIndex b + Debrief.calculateIntegrationIndex b = 100 ∨
      Debrief.calculateSegregationIndex b + Debrief.calculateIntegrationIndex b = 101) ∧
    (((Debrief.adjacencyStats b).1 + (Debrief.adjacencyStats b).2 = 0) →
      Debrief.calculateSegregationIndex b = 0 ∧ Debrief.calculateIntegrationIndex b = 0) := by
  refine ⟨?_, ?_, ?_, ?_⟩
  · intro h
    simp only [Reloc.calculateSegregationIndex, Reloc.calculateIntegrationIndex]
    rw [if_neg h, if_neg h]
    exact jsRound_complement _ _ h
  · intro h
    simp only [Reloc.calculateSegregationIndex, Reloc.calculateIntegrationIndex]
    rw [if_pos h, if_pos h]
    exact ⟨rfl, rfl⟩
  · intro h
    simp only [Debrief.calculateSegregationIndex, Debrief.calculateIntegrationIndex]
    rw [if_neg h, if_neg h]
    exact jsRound_complement _ _ h
  · intro h
    simp only [Debrief.calculateSegregationIndex, Debrief.calculateIntegrationIndex]
    rw [if_pos h, if_pos h]
    exact ⟨rfl, rfl⟩

/-- C1 fails as stated: `boardC1` has eight occupied adjacent pairs, one
of them same-colored, and the two independently rounded indices `13` and
`88` sum to `101`, not `100`. -/
theorem claim_C1_counterexample :
    (Reloc.adjacencyStats boardC1).1 + (Reloc.adjacencyStats boardC1).2 ≠ 0 ∧
      Reloc.calculateSegregationIndex boardC1 = 13 ∧
      Reloc.calculateIntegrationIndex boardC1 = 88 ∧
      Reloc.calculateSegregationIndex boardC1 + Reloc.calculateIntegrationIndex boardC1
        = 101 := by
  decide

theorem claim_C1_witness :
    Reloc.calculateSegregationIndex boardC1 + Reloc.calculateIntegrationIndex boardC1 = 100 ∨
      Reloc.calculateSegregationIndex boardC1 + Reloc.calculateIntegrationIndex boardC1
        = 101 :=
  (claim_C1_complement_within_one boardC1).1 (by decide)

/-! ### Claim C4 -/

/-- A `foldl` preserves any property preserved by its step function. -/
theorem foldl_preserve {β σ : Type} (P : σ → Prop) (f : σ → β → σ)
    (hf : ∀ s x, P s → P (f s x)) :
    ∀ (l : List β) (s : σ), P s → P (l.foldl f s) := by
  intro l
  induction l with
  | nil => intro s hs; exact hs
  | cons x xs ih => intro s hs; exact ih (f s x) (hf s x hs)

theorem length_createEmptyBoard (n : ℕ) : (Reloc.createEmptyBoard n).length = n :=
  List.length_replicate ..

theorem isSquare_createEmptyBoard (n : ℕ) : IsSquare (Reloc.createEmptyBoard n) := by
  intro i hi
  unfold Reloc.createEmptyBoard at *
  rw [List.length_replicate] at hi
  rw [List.getD_eq_getElem?_getD, List.getElem?_replicate, if_pos hi]
  simp

theorem placeLoop_sq {L : ℕ} (positions : List Coordinate) (colors : List HouseholdColor) :
    ∀ (idx : List ℕ) (acc : Board Reloc.HouseholdTile × ℕ),
      IsSquare acc.1 → acc.1.length = L →
      IsSquare (Reloc.placeLoop positions colors idx acc).1 ∧
        (Reloc.placeLoop positions colors idx acc).1.length = L := by
  intro idx
  induction idx with
  | nil => intro acc h1 h2; exact ⟨h1, h2⟩
  | cons i rest ih =>
    intro acc h1 h2
    exact ih _ (isSquare_setCell h1 _ _) (by rw [length_setCell]; exact h2)

theorem length_recomputeHappiness (b : Board Reloc.HouseholdTile) :
    (Reloc.recomputeHappiness b).length = b.length :=
  length_mapBoardFrom _ 0 b

theorem isSquare_recomputeHappiness {b : Board Reloc.HouseholdTile} (h : IsSquare b) :
    IsSquare (Reloc.recomputeHappiness b) :=
  isSquare_mapBoard h _

/-- C4 (amended): `normalizedConfig` silently clamps every parameter at
the boundary of its actual domain — `size` to `[8,16]` (after rounding to
an integer), `initialOccupancy` to `[0.65,0.98]`, `minorityShare` to
`[0.1,0.2]`, `maxTurns` to `[10,80]` (after rounding) — leaves in-range
values unchanged (integral values, for the two rounded parameters), never
rejects any input, and `createInitialState` returns a well-formed state
(square board with the clamped size, turn `0`, not game over) for every
rational configuration and every shuffle outcome. -/
theorem claim_C4_config_clamping (cfg : Reloc.GameConfig) :
    (8 ≤ (Reloc.normalizedConfig cfg).size ∧ (Reloc.normalizedConfig cfg).size ≤ 16) ∧
    ((65 : ℚ) / 100 ≤ (Reloc.normalizedConfig cfg).initialOccupancy ∧
      (Reloc.normalizedConfig cfg).initialOccupancy ≤ (98 : ℚ) / 100) ∧
    ((1 : ℚ) / 10 ≤ (Reloc.normalizedConfig cfg).minorityShare ∧
      (Reloc.normalizedConfig cfg).minorityShare ≤ (2 : ℚ) / 10) ∧
    (10 ≤ (Reloc.normalizedConfig cfg).maxTurns ∧ (Reloc.normalizedConfig cfg).maxTurns ≤ 80) ∧
    (cfg.size = ((jsRound cfg.size : ℤ) : ℚ) → 8 ≤ cfg.size → cfg.size ≤ 16 →
      (Reloc.normalizedConfig cfg).size = cfg.size) ∧
    ((65 : ℚ) / 100 ≤ cfg.initialOccupancy → cfg.initialOccupancy ≤ (98 : ℚ) / 100 →
      (Reloc.normalizedConfig cfg).initialOccupancy = cfg.initialOccupancy) ∧
    ((1 : ℚ) / 10 ≤ cfg.minorityShare → cfg.minorityShare ≤ (2 : ℚ) / 10 →
      (Reloc.normalizedConfig cfg).minorityShare = cfg.minorityShare) ∧
    (cfg.maxTurns = ((jsRound cfg.maxTurns : ℤ) : ℚ) → 10 ≤ cfg.maxTurns → cfg.maxTurns ≤ 80 →
      (Reloc.normalizedConfig cfg).maxTurns = cfg.maxTurns) ∧
    (∀ (ctr : ℕ) (sC : List HouseholdColor → List HouseholdColor)
        (sP : List Coordinate → List Coordinate),
      (Reloc.createInitialState ctr cfg sC sP).1.board.length
          = (Reloc.normalizedConfig cfg).size.floor.toNat ∧
        IsSquare (Reloc.createInitialState ctr cfg sC sP).1.board ∧
        (Reloc.createInitialState ctr cfg sC sP).1.turn = 0 ∧
        (Reloc.createInitialState ctr cfg sC sP).1.gameOver = false ∧
        (Reloc.createInitialState ctr cfg sC sP).1.gameOverReason = none) := by
  refine ⟨⟨le_max_left _ _, max_le (by norm_num) (min_le_left _ _)⟩,
    ⟨le_max_left _ _, max_le (by norm_num) (min_le_left _ _)⟩,
    ⟨le_max_left _ _, max_le (by norm_num) (min_le_left _ _)⟩,
    ⟨le_max_left _ _, max_le (by norm_num) (min_le_left _ _)⟩,
    ?_, ?_, ?_, ?_, ?_⟩
  · intro hint h8 h16
    show max 8 (min 16 ((jsRound cfg.size : ℤ) : ℚ)) = cfg.size
    rw [← hint, min_eq_right h16, max_eq_right h8]
  · intro hlo hhi
    show max ((65 : ℚ) / 100) (min ((98 : ℚ) / 100) cfg.initialOccupancy) = cfg.initialOccupancy
    rw [min_eq_right hhi, max_eq_right hlo]
  · intro hlo hhi
    show max ((1 : ℚ) / 10) (min ((2 : ℚ) / 10) cfg.minorityShare) = cfg.minorityShare
    rw [min_eq_right hhi, max_eq_right hlo]
  · intro hint h10 h80
    show max 10 (min 80 ((jsRound cfg.maxTurns : ℤ) : ℚ)) = cfg.maxTurns
    rw [← hint, min_eq_right h80, max_eq_right h10]
  · intro ctr sC sP
    refine ⟨?_, ?_, rfl, rfl, rfl⟩
    · simp only [Reloc.createInitialState]
      rw [length_recomputeHappiness]
      exact (placeLoop_sq _ _ _ _ (isSquare_createEmptyBoard _) (length_createEmptyBoard _)).2
    · simp only [Reloc.createInitialState]
      exact isSquare_recomputeHappiness
        (placeLoop_sq _ _ _ _ (isSquare_createEmptyBoard _) (length_createEmptyBoard _)).1

/-- C4 fails as stated: a grid size of `4` lies inside the claimed valid
domain `[4,16]` but is clamped to `8`, and an occupancy ratio of `0` lies
inside the claimed `[0,1]` but is clamped to `0.65`; the actual domains
are `[8,16]` and `[0.65,0.98]`. -/
theorem claim_C4_counterexample :
    (Reloc.normalizedConfig ⟨4, 0, 0, 0⟩).size = 8 ∧
      (Reloc.normalizedConfig ⟨4, 0, 0, 0⟩).initialOccupancy = (65 : ℚ) / 100 := by
  constructor
  · decide
  · decide

theorem claim_C4_witness :
    (Reloc.normalizedConfig ⟨12, (7 : ℚ) / 10, (3 : ℚ) / 20, 30⟩).size = 12 :=
  (claim_C4_config_clamping ⟨12, (7 : ℚ) / 10, (3 : ℚ) / 20, 30⟩).2.2.2.2.1
    (by decide) (by decide) (by decide)

namespace Reloc

theorem applyTurn_rejected (state : GameState) (selected : Coordinate) (direction : Direction)
    (rawConfig : GameConfig) (hgo : state.gameOver = false)
    (h : selectedTileOf state selected = none ∨
      ∃ t, selectedTileOf state selected = some t ∧ t.unhappy = false) :
    applyTurn state selected direction rawConfig
      = { state with
          summary := summaryForBoard state.board (countUnhappy state.board) false false none } := by
  unfold applyTurn
  rw [hgo]
  simp only [Bool.false_eq_true, if_false]
  rcases h with hnone | ⟨t, ht, hu⟩
  · rw [show (if isInBounds state.board selected.row selected.col then
        getCell state.board selected else none) = none from hnone]
  · rw [show (if isInBounds state.board selected.row selected.col then
        getCell state.board selected else none) = some t from ht]
    simp only [hu, Bool.not_false, if_true]

theorem applyTurn_no_vacancy (state : GameState) (selected : Coordinate) (direction : Direction)
    (rawConfig : GameConfig) (hgo : state.gameOver = false) {t : HouseholdTile}
    (ht : selectedTileOf state selected = some t) (hu : t.unhappy = true)
    (hv : nearestVacancyInDirection state.board selected direction = none) :
    applyTurn state selected direction rawConfig
      = { state with
          summary := summaryForBoard state.board (countUnhappy state.board) true false none } := by
  unfold applyTurn
  rw [hgo]
  simp only [Bool.false_eq_true, if_false]
  rw [show (if isInBounds state.board selected.row selected.col then
      getCell state.board selected else none) = some t from ht]
  simp only [hu, Bool.not_true, Bool.false_eq_true, if_false, hv]

theorem applyTurn_accepted (state : GameState) (selected : Coordinate) (direction : Direction)
    (rawConfig : GameConfig) (hgo : state.gameOver = false) {t : HouseholdTile}
    (ht : selectedTileOf state selected = some t) (hu : t.unhappy = true) {v : Coordinate}
    (hv : nearestVacancyInDirection state.board selected direction = some v) :
    applyTurn state selected direction rawConfig
      = (let board' :=
          recomputeHappiness (setCell (setCell state.board v (some t)) selected none)
        let turn := state.turn + 1
        let over : Bool × Option GameOverReason :=
          if countUnhappy board' = 0 then (true, some .equilibrium)
          else if (turn : ℚ) ≥ (normalizedConfig rawConfig).maxTurns then (true, some .max_turns)
          else (false, none)
        { board := board'
          turn := turn
          gameOver := over.1
          gameOverReason := over.2
          summary := summaryForBoard board' (countUnhappy state.board) true true
            (some { src := selected, dst := v, direction := direction,
                    trail := moveTrail selected v direction }) }) := by
  unfold applyTurn
  rw [hgo]
  simp only [Bool.false_eq_true, if_false]
  rw [show (if isInBounds state.board selected.row selected.col then
      getCell state.board selected else none) = some t from ht]
  simp only [hu, Bool.not_true, Bool.false_eq_true, if_false, hv]

end Reloc

/-! ### Claim C7 -/

/-- C7: in the relocation `applyTurn`, a selection that is out of bounds,
empty, or holds a household that is not currently unhappy is rejected —
same board, same turn counter, `selectedValid = false`, `moved = false`;
a currently-unhappy selection with no vacancy in the chosen direction is
accepted as a no-move — same board and turn counter, `selectedValid =
true`, `moved = false`.  Both outcomes are ordinary return values of the
total function `applyTurn`, never an error. -/
theorem claim_C7_rejection_and_no_move (state : Reloc.GameState) (sel : Coordinate)
    (dir : Direction) (cfg : Reloc.GameConfig) (hgo : state.gameOver = false) :
    (isInBounds state.board sel.row sel.col = false → Reloc.selectedTileOf state sel = none) ∧
    (getCell state.board sel = none → Reloc.selectedTileOf state sel = none) ∧
    ((Reloc.selectedTileOf state sel = none ∨
        ∃ t, Reloc.selectedTileOf state sel = some t ∧ t.unhappy = false) →
      (Reloc.applyTurn state sel dir cfg).board = state.board ∧
      (Reloc.applyTurn state sel dir cfg).turn = state.turn ∧
      (Reloc.applyTurn state sel dir cfg).summary.selectedValid = false ∧
      (Reloc.applyTurn state sel dir cfg).summary.moved = false) ∧
    (∀ t, Reloc.selectedTileOf state sel = some t → t.unhappy = true →
      Reloc.nearestVacancyInDirection state.board sel dir = none →
      (Reloc.applyTurn state sel dir cfg).board = state.board ∧
      (Reloc.applyTurn state sel dir cfg).turn = state.turn ∧
      (Reloc.applyTurn state sel dir cfg).summary.selectedValid = true ∧
      (Reloc.applyTurn state sel dir cfg).summary.moved = false) := by
  refine ⟨?_, ?_, ?_, ?_⟩
  · intro h
    unfold Reloc.selectedTileOf
    rw [h]
    simp
  · intro h
    unfold Reloc.selectedTileOf
    rw [h]
    simp
  · intro h
    rw [Reloc.applyTurn_rejected state sel dir cfg hgo h]
    exact ⟨rfl, rfl, rfl, rfl⟩
  · intro t ht hu hv
    rw [Reloc.applyTurn_no_vacancy state sel dir cfg hgo ht hu hv]
    exact ⟨rfl, rfl, rfl, rfl⟩

theorem claim_C7_witness :
    (Reloc.applyTurn stateC7 ⟨0, 0⟩ .up ⟨12, (7 : ℚ) / 10, (3 : ℚ) / 20, 30⟩).board
        = stateC7.board ∧
      (Reloc.applyTurn stateC7 ⟨0, 0⟩ .up ⟨12, (7 : ℚ) / 10, (3 : ℚ) / 20, 30⟩).turn
        = stateC7.turn ∧
      (Reloc.applyTurn stateC7 ⟨0, 0⟩ .up
          ⟨12, (7 : ℚ) / 10, (3 : ℚ) / 20, 30⟩).summary.selectedValid = true ∧
      (Reloc.applyTurn stateC7 ⟨0, 0⟩ .up
          ⟨12, (7 : ℚ) / 10, (3 : ℚ) / 20, 30⟩).summary.moved = false :=
  (claim_C7_rejection_and_no_move stateC7 ⟨0, 0⟩ .up ⟨12, (7 : ℚ) / 10, (3 : ℚ) / 20, 30⟩
    rfl).2.2.2 ⟨1, .blue, true⟩ (by decide) rfl (by decide)

/-! ### Claim C8 -/

/-- C8: in the relocation variant, once `gameOver` holds every
`applyTurn` returns the state unchanged; a rejected or no-move action
leaves `gameOver`/`gameOverReason` unchanged; and after an accepted move
the turn counter is incremented and `gameOver` is set with reason
`equilibrium` exactly when the recomputed unhappy count is zero (taking
priority), else with reason `max_turns` exactly when the incremented turn
counter has reached the normalized `maxTurns`, and otherwise the game
continues with no reason set. -/
theorem claim_C8_game_over_logic (state : Reloc.GameState) (sel : Coordinate) (dir : Direction)
    (cfg : Reloc.GameConfig) :
    (state.gameOver = true → Reloc.applyTurn state sel dir cfg = state) ∧
    (state.gameOver = false →
      ((Reloc.selectedTileOf state sel = none ∨
          ∃ t, Reloc.selectedTileOf state sel = some t ∧ t.unhappy = false) →
        (Reloc.applyTurn state sel dir cfg).gameOver = state.gameOver ∧
        (Reloc.applyTurn state sel dir cfg).gameOverReason = state.gameOverReason) ∧
      (∀ t, Reloc.selectedTileOf state sel = some t → t.unhappy = true →
        Reloc.nearestVacancyInDirection state.board sel dir = none →
        (Reloc.applyTurn state sel dir cfg).gameOver = state.gameOver ∧
        (Reloc.applyTurn state sel dir cfg).gameOverReason = state.gameOverReason) ∧
      (∀ t v, Reloc.selectedTileOf state sel = some t → t.unhappy = true →
        Reloc.nearestVacancyInDirection state.board sel dir = some v →
        (Reloc.applyTurn state sel dir cfg).turn = state.turn + 1 ∧
        ((Reloc.applyTurn state sel dir cfg).gameOver = true ∧
            (Reloc.applyTurn state sel dir cfg).gameOverReason = some .equilibrium ↔
          (Reloc.applyTurn state sel dir cfg).summary.unhappyAfter = 0) ∧
        ((Reloc.applyTurn state sel dir cfg).gameOver = true ∧
            (Reloc.applyTurn state sel dir cfg).gameOverReason = some .max_turns ↔
          (Reloc.applyTurn state sel dir cfg).summary.unhappyAfter ≠ 0 ∧
            ((state.turn + 1 : ℕ) : ℚ) ≥ (Reloc.normalizedConfig cfg).maxTurns) ∧
        ((Reloc.applyTurn state sel dir cfg).gameOver = false ∧
            (Reloc.applyTurn state sel dir cfg).gameOverReason = none ↔
          (Reloc.applyTurn state sel dir cfg).summary.unhappyAfter ≠ 0 ∧
            ((state.turn + 1 : ℕ) : ℚ) < (Reloc.normalizedConfig cfg).maxTurns))) := by
  constructor
  · intro h
    unfold Reloc.applyTurn
    rw [h]
    simp
  · intro hgo
    refine ⟨?_, ?_, ?_⟩
    · intro h
      rw [Reloc.applyTurn_rejected state sel dir cfg hgo h]
      exact ⟨rfl, rfl⟩
    · intro t ht hu hv
      rw [Reloc.applyTurn_no_vacancy state sel dir cfg hgo ht hu hv]
      exact ⟨rfl, rfl⟩
    · intro t v ht hu hv
      rw [Reloc.applyTurn_accepted state sel dir cfg hgo ht hu hv]
      simp only []
      set board' :=
        Reloc.recomputeHappiness (setCell (setCell state.board v (some t)) sel none) with hb'
      by_cases h0 : Reloc.countUnhappy board' = 0
      · rw [if_pos h0]
        refine ⟨?_, ?_, ?_, ?_⟩ <;> simp [Reloc.summaryForBoard, h0]
      · rw [if_neg h0]
        by_cases hm : ((state.turn + 1 : ℕ) : ℚ) ≥ (Reloc.normalizedConfig cfg).maxTurns
        · rw [if_pos hm]
          have hm' : (Reloc.normalizedConfig cfg).maxTurns ≤ (state.turn : ℚ) + 1 := by
            push_cast at hm
            exact hm
          have hm'' : ¬((state.turn : ℚ) + 1 < (Reloc.normalizedConfig cfg).maxTurns) :=
            not_lt.mpr hm'
          refine ⟨?_, ?_, ?_, ?_⟩ <;> simp [Reloc.summaryForBoard, h0, hm', hm'']
        · rw [if_neg hm]
          have hl : ((state.turn + 1 : ℕ) : ℚ) < (Reloc.normalizedConfig cfg).maxTurns :=
            not_le.mp hm
          have hl' : (state.turn : ℚ) + 1 < (Reloc.normalizedConfig cfg).maxTurns := by
            push_cast at hl
            exact hl
          have hl'' : ¬((Reloc.normalizedConfig cfg).maxTurns ≤ (state.turn : ℚ) + 1) :=
            not_le.mpr hl'
          refine ⟨?_, ?_, ?_, ?_⟩ <;> simp [Reloc.summaryForBoard, h0, hl', hl'']

theorem claim_C8_witness :
    Reloc.applyTurn stateC8 ⟨0, 0⟩ .up ⟨12, (7 : ℚ) / 10, (3 : ℚ) / 20, 30⟩ = stateC8 :=
  (claim_C8_game_over_logic stateC8 ⟨0, 0⟩ .up ⟨12, (7 : ℚ) / 10, (3 : ℚ) / 20, 30⟩).1 rfl

theorem mem_natCoords {n : ℕ} {p : Coordinate} :
    p ∈ natCoords n ↔ 0 ≤ p.row ∧ p.row < (n : Int) ∧ 0 ≤ p.col ∧ p.col < (n : Int) := by
  unfold natCoords
  constructor
  · intro h
    rcases List.mem_flatMap.mp h with ⟨r, hr, hmem⟩
    rcases List.mem_map.mp hmem with ⟨c, hc, heq⟩
    rw [List.mem_range] at hr hc
    subst heq
    refine ⟨?_, ?_, ?_, ?_⟩
    · show (0 : ℤ) ≤ Int.ofNat r
      rw [Int.ofNat_eq_natCast]
      omega
    · show Int.ofNat r < (n : ℤ)
      rw [Int.ofNat_eq_natCast]
      omega
    · show (0 : ℤ) ≤ Int.ofNat c
      rw [Int.ofNat_eq_natCast]
      omega
    · show Int.ofNat c < (n : ℤ)
      rw [Int.ofNat_eq_natCast]
      omega
  · rintro ⟨h1, h2, h3, h4⟩
    apply List.mem_flatMap.mpr
    refine ⟨p.row.toNat, List.mem_range.mpr (by omega), ?_⟩
    apply List.mem_map.mpr
    refine ⟨p.col.toNat, List.mem_range.mpr (by omega), ?_⟩
    cases p with
    | mk pr pc =>
      simp only [Coordinate.mk.injEq, Int.ofNat_eq_natCast]
      exact ⟨Int.toNat_of_nonneg h1, Int.toNat_of_nonneg h3⟩

theorem mem_vacanciesInDirection {b : Board Reloc.HouseholdTile} {src : Coordinate}
    {dir : Direction} {p : Coordinate} :
    p ∈ Reloc.vacanciesInDirection b src dir ↔
      EmptyCellOn b p ∧ Reloc.isInDirection src p dir = true := by
  unfold Reloc.vacanciesInDirection
  rw [List.mem_filter, mem_natCoords]
  unfold EmptyCellOn
  simp only [Bool.and_eq_true, decide_eq_true_eq]
  tauto

theorem vacancyCmp_le_iff_lex5 (src : Coordinate) (dir : Direction) (a b : Coordinate) :
    Reloc.vacancyCmp src dir a b ≤ 0 ↔
      lex5 (Reloc.manhattanDistance src a) (rankSecondary dir a) (rankTertiary src dir a)
        a.row a.col
        (Reloc.manhattanDistance src b) (rankSecondary dir b) (rankTertiary src dir b)
        b.row b.col := by
  cases dir <;>
    (simp only [Reloc.vacancyCmp, Reloc.compareDirectionalTieBreak, rankSecondary, rankTertiary,
      lex5]
     split_ifs <;> omega)

theorem lex5_trans {a1 a2 a3 a4 a5 b1 b2 b3 b4 b5 c1 c2 c3 c4 c5 : Int}
    (h1 : lex5 a1 a2 a3 a4 a5 b1 b2 b3 b4 b5) (h2 : lex5 b1 b2 b3 b4 b5 c1 c2 c3 c4 c5) :
    lex5 a1 a2 a3 a4 a5 c1 c2 c3 c4 c5 := by
  unfold lex5 at *
  omega

theorem lex5_total (a1 a2 a3 a4 a5 b1 b2 b3 b4 b5 : Int) :
    lex5 a1 a2 a3 a4 a5 b1 b2 b3 b4 b5 ∨ lex5 b1 b2 b3 b4 b5 a1 a2 a3 a4 a5 := by
  unfold lex5
  omega

/-- The characterisation of `nearestVacancyInDirection` as head of the
sorted candidate list: `null` iff no candidate exists, otherwise a
candidate minimal under the comparator. -/
theorem nearestVacancy_spec (b : Board Reloc.HouseholdTile) (src : Coordinate)
    (dir : Direction) :
    (Reloc.nearestVacancyInDirection b src dir = none ↔
      Reloc.vacanciesInDirection b src dir = []) ∧
    ∀ c, Reloc.nearestVacancyInDirection b src dir = some c →
      c ∈ Reloc.vacanciesInDirection b src dir ∧
      ∀ d ∈ Reloc.vacanciesInDirection b src dir, Reloc.vacancyCmp src dir c d ≤ 0 := by
  have htrans : ∀ x y z : Coordinate,
      (decide (Reloc.vacancyCmp src dir x y ≤ 0)) = true →
      (decide (Reloc.vacancyCmp src dir y z ≤ 0)) = true →
      (decide (Reloc.vacancyCmp src dir x z ≤ 0)) = true := by
    intro x y z hx hy
    rw [decide_eq_true_eq] at *
    rw [vacancyCmp_le_iff_lex5] at *
    exact lex5_trans hx hy
  have htotal : ∀ x y : Coordinate,
      ((decide (Reloc.vacancyCmp src dir x y ≤ 0))
        || (decide (Reloc.vacancyCmp src dir y x ≤ 0))) = true := by
    intro x y
    rw [Bool.or_eq_true, decide_eq_true_eq, decide_eq_true_eq,
      vacancyCmp_le_iff_lex5, vacancyCmp_le_iff_lex5]
    exact lex5_total ..
  unfold Reloc.nearestVacancyInDirection
  by_cases hv : Reloc.vacanciesInDirection b src dir = []
  · rw [if_pos hv]
    refine ⟨by simp [hv], ?_⟩
    intro c hc
    exact Option.noConfusion hc
  · rw [if_neg hv]
    have hperm := List.mergeSort_perm (Reloc.vacanciesInDirection b src dir)
      fun a b => Reloc.vacancyCmp src dir a b ≤ 0
    have hsorted := @List.sorted_mergeSort _
      (fun a b => decide (Reloc.vacancyCmp src dir a b ≤ 0)) htrans htotal
      (Reloc.vacanciesInDirection b src dir)
    constructor
    · constructor
      · intro h
        exfalso
        rcases hs : (Reloc.vacanciesInDirection b src dir).mergeSort
            (fun a b => Reloc.vacancyCmp src dir a b ≤ 0) with _ | ⟨x, xs⟩
        · have := hperm.length_eq
          rw [hs] at this
          simp at this
          exact hv (List.length_eq_zero.mp this.symm)
        · rw [hs] at h
          exact Option.noConfusion h
      · intro h
        exact absurd h hv
    · intro c hc
      rcases hs : (Reloc.vacanciesInDirection b src dir).mergeSort
          (fun a b => Reloc.vacancyCmp src dir a b ≤ 0) with _ | ⟨x, xs⟩
      · rw [hs] at hc
        exact Option.noConfusion hc
      · rw [hs] at hc
        simp only [List.head?_cons, Option.some.injEq] at hc
        have hcmem : c ∈ Reloc.vacanciesInDirection b src dir := by
          apply hperm.mem_iff.mp
          rw [hs, ← hc]
          exact List.mem_cons_self ..
        refine ⟨hcmem, ?_⟩
        intro d hd
        have hd' : d ∈ x :: xs := by
          rw [← hs]
          exact hperm.mem_iff.mpr hd
        rw [← hc]
        rw [List.mem_cons] at hd'
        rcases hd' with heq | hd'
        · rw [heq, vacancyCmp_le_iff_lex5]
          have := lex5_total (Reloc.manhattanDistance src x) (rankSecondary dir x)
            (rankTertiary src dir x) x.row x.col (Reloc.manhattanDistance src x)
            (rankSecondary dir x) (rankTertiary src dir x) x.row x.col
          tauto
        · rw [hs] at hsorted
          have := (List.pairwise_cons.mp hsorted).1 d hd'
          rw [decide_eq_true_eq] at this
          exact this

theorem vacancyCmp_le_elim (src : Coordinate) (dir : Direction) (c d : Coordinate)
    (h : Reloc.vacancyCmp src dir c d ≤ 0) :
    Reloc.manhattanDistance src c ≤ Reloc.manhattanDistance src d ∧
      (Reloc.manhattanDistance src c = Reloc.manhattanDistance src d →
        specTieBreak src dir c d) := by
  rw [vacancyCmp_le_iff_lex5] at h
  cases dir <;>
    (simp only [lex5, rankSecondary, rankTertiary, specTieBreak,
      Reloc.manhattanDistance] at h ⊢
     omega)

/-- C6: the directional-relocation resolver returns `null` exactly when no
empty cell lies strictly in the chosen direction's half-plane, and
otherwise returns an empty cell of that half-plane that minimises the
Manhattan distance from the source and, among equidistant candidates, is
minimal for the direction-specific tie-break (for `up`: smaller row
first, then smaller absolute column distance from the source; analogously
for the other directions). -/
theorem claim_C6_nearest_vacancy (b : Board Reloc.HouseholdTile) (src : Coordinate)
    (dir : Direction) :
    (Reloc.nearestVacancyInDirection b src dir = none ↔
      ∀ p, EmptyCellOn b p → Reloc.isInDirection src p dir = false) ∧
    (∀ c, Reloc.nearestVacancyInDirection b src dir = some c →
      EmptyCellOn b c ∧ Reloc.isInDirection src c dir = true ∧
      ∀ d, EmptyCellOn b d → Reloc.isInDirection src d dir = true →
        Reloc.manhattanDistance src c ≤ Reloc.manhattanDistance src d ∧
        (Reloc.manhattanDistance src c = Reloc.manhattanDistance src d →
          specTieBreak src dir c d)) := by
  obtain ⟨h1, h2⟩ := nearestVacancy_spec b src dir
  constructor
  · rw [h1]
    constructor
    · intro hnil p hemp
      by_contra hdir
      rw [Bool.not_eq_false] at hdir
      have hp : p ∈ Reloc.vacanciesInDirection b src dir :=
        mem_vacanciesInDirection.mpr ⟨hemp, hdir⟩
      rw [hnil] at hp
      exact absurd hp (List.not_mem_nil p)
    · intro hall
      by_contra hne
      obtain ⟨p, hp⟩ := List.exists_mem_of_ne_nil _ hne
      obtain ⟨hemp, hdir⟩ := mem_vacanciesInDirection.mp hp
      rw [hall p hemp] at hdir
      exact Bool.noConfusion hdir
  · intro c hc
    obtain ⟨hcmem, hmin⟩ := h2 c hc
    obtain ⟨hcemp, hcdir⟩ := mem_vacanciesInDirection.mp hcmem
    refine ⟨hcemp, hcdir, ?_⟩
    intro d hde hdd
    exact vacancyCmp_le_elim src dir c d (hmin d (mem_vacanciesInDirection.mpr ⟨hde, hdd⟩))

theorem claim_C6_witness :
    Reloc.isInDirection ⟨0, 1⟩ (⟨1, 0⟩ : Coordinate) .up = false :=
  (claim_C6_nearest_vacancy boardC6 ⟨0, 1⟩ .up).1.mp (by decide) ⟨1, 0⟩ (by decide)

/-- A generic accounting lemma: a fold that adds per-cell `(same, mixed)`
counts equals the `countP` of the concatenated per-cell pair lists. -/
theorem foldl_stats_flatMap (coords : List Coordinate)
    (F : ℕ × ℕ → Coordinate → ℕ × ℕ) (G : Coordinate → List (Coordinate × Coordinate))
    (pred1 pred2 : Coordinate × Coordinate → Bool)
    (hF : ∀ acc p, F acc p = (acc.1 + (G p).countP pred1, acc.2 + (G p).countP pred2)) :
    ∀ acc, coords.foldl F acc
      = (acc.1 + (coords.flatMap G).countP pred1, acc.2 + (coords.flatMap G).countP pred2) := by
  induction coords with
  | nil => intro acc; simp
  | cons p ps ih =>
    intro acc
    rw [List.foldl_cons, hF, ih, List.flatMap_cons, List.countP_append, List.countP_append]
    refine Prod.ext ?_ ?_ <;> simp <;> omega

theorem offsetStat_eq_pairAt (b : Board Reloc.HouseholdTile) {p : Coordinate}
    {cur : Reloc.HouseholdTile} (hcur : getCell b p = some cur) (o : Coordinate) :
    Debrief.offsetStat b cur p o
      = (((debriefPairAt b p o).toList).countP (sameColorPair b),
         ((debriefPairAt b p o).toList).countP (mixedColorPair b)) := by
  unfold Debrief.offsetStat debriefPairAt
  dsimp only
  split
  · rfl
  · rcases hq : getCell b ⟨p.row + o.row, p.col + o.col⟩ with _ | neighbor
    · rfl
    · simp only [Option.toList_some, List.countP_cons, List.countP_nil, sameColorPair,
        mixedColorPair, hcur, hq]
      by_cases hcol : neighbor.color = cur.color
      · rw [if_pos hcol]
        simp [hcol]
      · rw [if_neg hcol]
        have : ¬(cur.color = neighbor.color) := fun h => hcol h.symm
        simp [this]

theorem debrief_inner_fold (b : Board Reloc.HouseholdTile) {p : Coordinate}
    {cur : Reloc.HouseholdTile} (hp : getCell b p = some cur) :
    ∀ (offs : List Coordinate) (acc2 : ℕ × ℕ),
      offs.foldl (fun acc2 offset =>
        (acc2.1 + (Debrief.offsetStat b cur p offset).1,
         acc2.2 + (Debrief.offsetStat b cur p offset).2)) acc2
        = (acc2.1 + (offs.filterMap (debriefPairAt b p)).countP (sameColorPair b),
           acc2.2 + (offs.filterMap (debriefPairAt b p)).countP (mixedColorPair b)) := by
  intro offs
  induction offs with
  | nil => intro acc2; simp
  | cons o os iho =>
    intro acc2
    rw [List.foldl_cons, iho, offsetStat_eq_pairAt b hp o, List.filterMap_cons]
    rcases debriefPairAt b p o with _ | pq
    · simp
    · simp only [Option.toList_some, List.countP_cons, List.countP_nil]
      refine Prod.ext ?_ ?_ <;> simp <;> omega

theorem debrief_adjacencyStats_eq (b : Board Reloc.HouseholdTile) :
    Debrief.adjacencyStats b
      = ((debriefPairList b).countP (sameColorPair b),
         (debriefPairList b).countP (mixedColorPair b)) := by
  have hF : ∀ (acc : ℕ × ℕ) (p : Coordinate),
      (fun (acc : ℕ × ℕ) (p : Coordinate) =>
        match getCell b p with
        | none => acc
        | some current =>
          Debrief.uniquePairOffsets.foldl
            (fun acc2 offset =>
              (acc2.1 + (Debrief.offsetStat b current p offset).1,
               acc2.2 + (Debrief.offsetStat b current p offset).2)) acc) acc p
      = (acc.1 + ((fun p =>
            match getCell b p with
            | none => []
            | some _ => Debrief.uniquePairOffsets.filterMap (debriefPairAt b p)) p).countP
          (sameColorPair b),
         acc.2 + ((fun p =>
            match getCell b p with
            | none => []
            | some _ => Debrief.uniquePairOffsets.filterMap (debriefPairAt b p)) p).countP
          (mixedColorPair b)) := by
    intro acc p
    rcases hp : getCell b p with _ | cur
    · simp [hp]
    · simp only [hp]
      exact debrief_inner_fold b hp Debrief.uniquePairOffsets acc
  have h := foldl_stats_flatMap (natCoords b.length) _ _ (sameColorPair b) (mixedColorPair b)
    hF (0, 0)
  unfold Debrief.adjacencyStats debriefPairList
  rw [h]
  simp

theorem rightOf_some {b : Board Reloc.HouseholdTile} {p : Coordinate}
    {rt : Reloc.HouseholdTile} (h : Reloc.rightOf b p = some rt) :
    getCell b ⟨p.row, p.col + 1⟩ = some rt := by
  unfold Reloc.rightOf at h
  split at h
  · exact h
  · exact Option.noConfusion h

theorem downOf_some {b : Board Reloc.HouseholdTile} {p : Coordinate}
    {dn : Reloc.HouseholdTile} (h : Reloc.downOf b p = some dn) :
    getCell b ⟨p.row + 1, p.col⟩ = some dn := by
  unfold Reloc.downOf at h
  split at h
  · exact h
  · exact Option.noConfusion h

theorem reloc_statsAt_eq (b : Board Reloc.HouseholdTile) {p : Coordinate}
    {cur : Reloc.HouseholdTile} (hp : getCell b p = some cur) :
    Reloc.statsAt b p
      = ((orthoPairsAt b p).countP (sameColorPair b),
         (orthoPairsAt b p).countP (mixedColorPair b)) := by
  unfold Reloc.statsAt orthoPairsAt
  rw [hp]
  rcases hr : Reloc.rightOf b p with _ | rt
  · rcases hd : Reloc.downOf b p with _ | dn
    · simp
    · have hgd := downOf_some hd
      by_cases hcol : dn.color = cur.color
      · simp [sameColorPair, mixedColorPair, hp, hgd, hcol]
      · simp [sameColorPair, mixedColorPair, hp, hgd, hcol,
          show ¬(cur.color = dn.color) from fun h => hcol h.symm]
  · have hgr := rightOf_some hr
    rcases hd : Reloc.downOf b p with _ | dn
    · by_cases hcol : rt.color = cur.color
      · simp [sameColorPair, mixedColorPair, hp, hgr, hcol]
      · simp [sameColorPair, mixedColorPair, hp, hgr, hcol,
          show ¬(cur.color = rt.color) from fun h => hcol h.symm]
    · have hgd := downOf_some hd
      by_cases hcolr : rt.color = cur.color <;> by_cases hcold : dn.color = cur.color
      · simp [sameColorPair, mixedColorPair, hp, hgr, hgd, hcolr, hcold]
      · simp [sameColorPair, mixedColorPair, hp, hgr, hgd, hcolr, hcold,
          show ¬(cur.color = dn.color) from fun h => hcold h.symm]
      · simp [sameColorPair, mixedColorPair, hp, hgr, hgd, hcolr, hcold,
          show ¬(cur.color = rt.color) from fun h => hcolr h.symm]
      · simp [sameColorPair, mixedColorPair, hp, hgr, hgd, hcolr, hcold,
          show ¬(cur.color = rt.color) from fun h => hcolr h.symm,
          show ¬(cur.color = dn.color) from fun h => hcold h.symm]

theorem reloc_adjacencyStats_eq (b : Board Reloc.HouseholdTile) :
    Reloc.adjacencyStats b
      = ((orthoPairList b).countP (sameColorPair b),
         (orthoPairList b).countP (mixedColorPair b)) := by
  have hF : ∀ (acc : ℕ × ℕ) (p : Coordinate),
      (fun (acc : ℕ × ℕ) (p : Coordinate) =>
        (acc.1 + (Reloc.statsAt b p).1, acc.2 + (Reloc.statsAt b p).2)) acc p
      = (acc.1 + ((fun p =>
            match getCell b p with
            | none => []
            | some _ => orthoPairsAt b p) p).countP (sameColorPair b),
         acc.2 + ((fun p =>
            match getCell b p with
            | none => []
            | some _ => orthoPairsAt b p) p).countP (mixedColorPair b)) := by
    intro acc p
    rcases hp : getCell b p with _ | cur
    · simp [Reloc.statsAt, hp]
    · simp only [hp, reloc_statsAt_eq b hp]
  have h := foldl_stats_flatMap (natCoords b.length) _ _ (sameColorPair b) (mixedColorPair b)
    hF (0, 0)
  unfold Reloc.adjacencyStats orthoPairList
  rw [h]
  simp

theorem natCoords_nodup (n : ℕ) : (natCoords n).Nodup := by
  unfold natCoords
  rw [List.nodup_flatMap]
  constructor
  · intro r _
    refine List.Nodup.map ?_ (List.nodup_range n)
    intro c1 c2 h
    simpa [Coordinate.mk.injEq, Int.ofNat_eq_natCast] using h
  · have hlt := List.pairwise_lt_range n
    refine hlt.imp ?_
    intro r r' hrr
    intro pq h1 h2
    obtain ⟨c, _, hc⟩ := List.mem_map.mp h1
    obtain ⟨c', _, hc'⟩ := List.mem_map.mp h2
    rw [← hc'] at hc
    simp only [Coordinate.mk.injEq, Int.ofNat_eq_natCast, Nat.cast_inj] at hc
    omega

theorem debriefPairAt_some {b : Board Reloc.HouseholdTile} {p o : Coordinate}
    {pq : Coordinate × Coordinate} (h : debriefPairAt b p o = some pq) :
    pq.1 = p ∧ pq.2 = (⟨p.row + o.row, p.col + o.col⟩ : Coordinate) ∧
      (getCell b pq.2).isSome ∧ 0 ≤ p.row + o.row ∧ 0 ≤ p.col + o.col ∧
      p.row + o.row < (b.length : Int) ∧ p.col + o.col < (b.length : Int) := by
  unfold debriefPairAt at h
  dsimp only at h
  split at h
  · exact Option.noConfusion h
  · rename_i hbound
    push_neg at hbound
    rcases hq : getCell b ⟨p.row + o.row, p.col + o.col⟩ with _ | t
    · rw [hq] at h
      exact Option.noConfusion h
    · rw [hq] at h
      have hpq := Option.some.inj h
      rw [← hpq]
      refine ⟨rfl, rfl, by rw [hq]; rfl, ?_, ?_, ?_, ?_⟩ <;> omega

theorem mem_pairsAt_first {b : Board Reloc.HouseholdTile} {p : Coordinate}
    {pq : Coordinate × Coordinate}
    (h : pq ∈ Debrief.uniquePairOffsets.filterMap (debriefPairAt b p)) : pq.1 = p := by
  obtain ⟨o, _, ho⟩ := List.mem_filterMap.mp h
  exact (debriefPairAt_some ho).1

theorem debriefPairList_nodup (b : Board Reloc.HouseholdTile) : (debriefPairList b).Nodup := by
  unfold debriefPairList
  rw [List.nodup_flatMap]
  constructor
  · intro p _
    rcases hp : getCell b p with _ | cur
    · exact List.nodup_nil
    · refine List.Nodup.filterMap ?_ (by decide)
      intro o o' pq h1 h2
      have d1 := debriefPairAt_some h1
      have d2 := debriefPairAt_some h2
      have : (⟨p.row + o.row, p.col + o.col⟩ : Coordinate)
          = ⟨p.row + o'.row, p.col + o'.col⟩ := by
        rw [← d1.2.1, d2.2.1]
      cases o
      cases o'
      simp only [Coordinate.mk.injEq] at this ⊢
      omega
  · refine (natCoords_nodup b.length).imp_of_mem ?_
    intro p p' _ _ hne pq h1 h2
    dsimp only at h1 h2
    rcases hp : getCell b p with _ | cur <;> rw [hp] at h1
    · exact absurd h1 (List.not_mem_nil pq)
    rcases hp' : getCell b p' with _ | cur' <;> rw [hp'] at h2
    · exact absurd h2 (List.not_mem_nil pq)
    exact hne (by rw [← mem_pairsAt_first h1, ← mem_pairsAt_first h2])

theorem mem_orthoPairsAt {b : Board Reloc.HouseholdTile} {p : Coordinate}
    {pq : Coordinate × Coordinate} (h : pq ∈ orthoPairsAt b p) :
    pq.1 = p ∧ ((pq.2 = (⟨p.row, p.col + 1⟩ : Coordinate) ∧ (getCell b pq.2).isSome) ∨
      (pq.2 = (⟨p.row + 1, p.col⟩ : Coordinate) ∧ (getCell b pq.2).isSome)) := by
  unfold orthoPairsAt at h
  rw [List.mem_append] at h
  rcases h with h | h
  · rcases hr : Reloc.rightOf b p with _ | rt <;> rw [hr] at h
    · exact absurd h (List.not_mem_nil pq)
    · rw [List.mem_singleton] at h
      rw [h]
      exact ⟨rfl, Or.inl ⟨rfl, by rw [rightOf_some hr]; rfl⟩⟩
  · rcases hd : Reloc.downOf b p with _ | dn <;> rw [hd] at h
    · exact absurd h (List.not_mem_nil pq)
    · rw [List.mem_singleton] at h
      rw [h]
      exact ⟨rfl, Or.inr ⟨rfl, by rw [downOf_some hd]; rfl⟩⟩

theorem orthoPairList_nodup (b : Board Reloc.HouseholdTile) : (orthoPairList b).Nodup := by
  unfold orthoPairList
  rw [List.nodup_flatMap]
  constructor
  · intro p _
    rcases hp : getCell b p with _ | cur
    · exact List.nodup_nil
    · unfold orthoPairsAt
      rcases Reloc.rightOf b p with _ | rt <;> rcases Reloc.downOf b p with _ | dn <;>
        simp [Coordinate.mk.injEq]
  · refine (natCoords_nodup b.length).imp_of_mem ?_
    intro p p' _ _ hne pq h1 h2
    dsimp only at h1 h2
    rcases hp : getCell b p with _ | cur <;> rw [hp] at h1
    · exact absurd h1 (List.not_mem_nil pq)
    rcases hp' : getCell b p' with _ | cur' <;> rw [hp'] at h2
    · exact absurd h2 (List.not_mem_nil pq)
    exact hne (by rw [← (mem_orthoPairsAt h1).1, ← (mem_orthoPairsAt h2).1])

theorem getCell_isSome_mem_natCoords {b : Board Reloc.HouseholdTile} (hsq : IsSquare b)
    {p : Coordinate} (hp : (getCell b p).isSome) : p ∈ natCoords b.length := by
  obtain ⟨t, ht⟩ := Option.isSome_iff_exists.mp hp
  obtain ⟨h1, h2, h3, h4⟩ := InB_of_getCell_some ht
  rw [mem_natCoords]
  have := hsq p.row.toNat h3
  omega

/-- Membership in the debrief pair list: exactly the ordered pairs of
occupied cells whose difference is one of the four canonical offsets. -/
theorem mem_debriefPairList {b : Board Reloc.HouseholdTile} (hsq : IsSquare b)
    {u v : Coordinate} :
    (u, v) ∈ debriefPairList b ↔
      (getCell b u).isSome ∧ (getCell b v).isSome ∧
        (⟨v.row - u.row, v.col - u.col⟩ : Coordinate) ∈ Debrief.uniquePairOffsets := by
  constructor
  · intro h
    obtain ⟨p, _, hmem⟩ := List.mem_flatMap.mp h
    rcases hp : getCell b p with _ | cur <;> rw [hp] at hmem
    · exact absurd hmem (List.not_mem_nil _)
    · obtain ⟨o, ho, hsome⟩ := List.mem_filterMap.mp hmem
      obtain ⟨hfst, hsnd, hocc, _, _, _, _⟩ := debriefPairAt_some hsome
      have hup : u = p := hfst
      refine ⟨by rw [hup, hp]; rfl, hocc, ?_⟩
      have hsnd' : v = (⟨p.row + o.row, p.col + o.col⟩ : Coordinate) := hsnd
      have : (⟨v.row - u.row, v.col - u.col⟩ : Coordinate) = o := by
        rw [hup, hsnd']
        cases o with
        | mk orow ocol =>
          simp only [Coordinate.mk.injEq]
          constructor <;> dsimp only <;> ring
      rw [this]
      exact ho
  · rintro ⟨hu, hv, hoff⟩
    apply List.mem_flatMap.mpr
    refine ⟨u, getCell_isSome_mem_natCoords hsq hu, ?_⟩
    dsimp only
    obtain ⟨t, ht⟩ := Option.isSome_iff_exists.mp hu
    rw [ht]
    apply List.mem_filterMap.mpr
    refine ⟨⟨v.row - u.row, v.col - u.col⟩, hoff, ?_⟩
    have hq : (⟨u.row + (v.row - u.row), u.col + (v.col - u.col)⟩ : Coordinate) = v := by
      cases u
      cases v
      simp only [Coordinate.mk.injEq]
      constructor <;> ring
    obtain ⟨t', ht'⟩ := Option.isSome_iff_exists.mp hv
    obtain ⟨h1, h2, h3, h4⟩ := InB_of_getCell_some ht'
    have hvlen := hsq v.row.toNat h3
    unfold debriefPairAt
    dsimp only
    rw [if_neg ?hb]
    case hb =>
      push_neg
      refine ⟨by omega, by omega, by omega, by omega⟩
    rw [hq, ht']

/-- Membership in the engine pair list: exactly the ordered pairs of
occupied cells one step right or down apart — no diagonals. -/
theorem mem_orthoPairList {b : Board Reloc.HouseholdTile} (hsq : IsSquare b)
    {u v : Coordinate} :
    (u, v) ∈ orthoPairList b ↔
      (getCell b u).isSome ∧ (getCell b v).isSome ∧
        ((⟨v.row - u.row, v.col - u.col⟩ : Coordinate) = (⟨0, 1⟩ : Coordinate) ∨
          (⟨v.row - u.row, v.col - u.col⟩ : Coordinate) = (⟨1, 0⟩ : Coordinate)) := by
  constructor
  · intro h
    obtain ⟨p, _, hmem⟩ := List.mem_flatMap.mp h
    rcases hp : getCell b p with _ | cur <;> rw [hp] at hmem
    · exact absurd hmem (List.not_mem_nil _)
    · obtain ⟨hfst, hsnd⟩ := mem_orthoPairsAt hmem
      have hup : u = p := hfst
      rcases hsnd with ⟨hv, hocc⟩ | ⟨hv, hocc⟩
      · have hv' : v = (⟨p.row, p.col + 1⟩ : Coordinate) := hv
        refine ⟨by rw [hup, hp]; rfl, hocc, Or.inl ?_⟩
        rw [hup, hv']
        simp only [Coordinate.mk.injEq]
        constructor <;> dsimp only <;> ring
      · have hv' : v = (⟨p.row + 1, p.col⟩ : Coordinate) := hv
        refine ⟨by rw [hup, hp]; rfl, hocc, Or.inr ?_⟩
        rw [hup, hv']
        simp only [Coordinate.mk.injEq]
        constructor <;> dsimp only <;> ring
  · rintro ⟨hu, hv, hoff⟩
    apply List.mem_flatMap.mpr
    refine ⟨u, getCell_isSome_mem_natCoords hsq hu, ?_⟩
    dsimp only
    obtain ⟨t, ht⟩ := Option.isSome_iff_exists.mp hu
    rw [ht]
    obtain ⟨t', ht'⟩ := Option.isSome_iff_exists.mp hv
    obtain ⟨h1, h2, h3, h4⟩ := InB_of_getCell_some ht'
    have hvlen := hsq v.row.toNat h3
    have hv_row_lt : v.row < (b.length : Int) := by omega
    have hv_col_lt : v.col < (b.length : Int) := by omega
    unfold orthoPairsAt
    rw [List.mem_append]
    rcases hoff with hoff | hoff
    · left
      rw [Coordinate.mk.injEq] at hoff
      have hveq : v = (⟨u.row, u.col + 1⟩ : Coordinate) := by
        cases u
        cases v
        dsimp only at hoff
        rw [Coordinate.mk.injEq]
        dsimp only
        omega
      have hbound : u.col + 1 < (b.length : Int) := by omega
      have hro : Reloc.rightOf b u = some t' := by
        unfold Reloc.rightOf
        rw [if_pos hbound, ← hveq]
        exact ht'
      rw [hro, List.mem_singleton, hveq]
    · right
      rw [Coordinate.mk.injEq] at hoff
      have hveq : v = (⟨u.row + 1, u.col⟩ : Coordinate) := by
        cases u
        cases v
        dsimp only at hoff
        rw [Coordinate.mk.injEq]
        dsimp only
        omega
      have hbound : u.row + 1 < (b.length : Int) := by omega
      have hdo : Reloc.downOf b u = some t' := by
        unfold Reloc.downOf
        rw [if_pos hbound, ← hveq]
        exact ht'
      rw [hdo, List.mem_singleton, hveq]

/-- Every eight-neighbourhood-adjacent pair of occupied cells is
enumerated exactly once by the debrief scan: in exactly one of its two
orientations. -/
theorem debrief_pair_once {b : Board Reloc.HouseholdTile} (hsq : IsSquare b)
    {u v : Coordinate} (hu : (getCell b u).isSome) (hv : (getCell b v).isSome)
    (hne : u ≠ v) (hadjr : (v.row - u.row).natAbs ≤ 1) (hadjc : (v.col - u.col).natAbs ≤ 1) :
    ((u, v) ∈ debriefPairList b ∧ (v, u) ∉ debriefPairList b) ∨
      ((v, u) ∈ debriefPairList b ∧ (u, v) ∉ debriefPairList b) := by
  simp only [mem_debriefPairList hsq, hu, hv, true_and]
  have hr : v.row - u.row = -1 ∨ v.row - u.row = 0 ∨ v.row - u.row = 1 := by omega
  have hc : v.col - u.col = -1 ∨ v.col - u.col = 0 ∨ v.col - u.col = 1 := by omega
  have hne' : ¬(v.row - u.row = 0 ∧ v.col - u.col = 0) := by
    rintro ⟨e1, e2⟩
    apply hne
    cases u
    cases v
    rw [Coordinate.mk.injEq]
    dsimp only at e1 e2
    omega
  rcases hr with h | h | h <;> rcases hc with h' | h' | h' <;>
    rw [h, h', show u.row - v.row = -(v.row - u.row) from by ring,
      show u.col - v.col = -(v.col - u.col) from by ring, h, h'] <;>
    simp [Debrief.uniquePairOffsets, Coordinate.mk.injEq]
  exact absurd ⟨h, h'⟩ hne'

theorem debriefPairList_occ (b : Board Reloc.HouseholdTile) :
    ∀ pq ∈ debriefPairList b, (getCell b pq.1).isSome ∧ (getCell b pq.2).isSome := by
  intro pq h
  obtain ⟨p, _, hmem⟩ := List.mem_flatMap.mp h
  rcases hp : getCell b p with _ | cur <;> rw [hp] at hmem
  · exact absurd hmem (List.not_mem_nil _)
  · obtain ⟨o, _, hsome⟩ := List.mem_filterMap.mp hmem
    obtain ⟨hfst, _, hocc, _⟩ := debriefPairAt_some hsome
    exact ⟨by rw [hfst, hp]; rfl, hocc⟩

theorem orthoPairList_occ (b : Board Reloc.HouseholdTile) :
    ∀ pq ∈ orthoPairList b, (getCell b pq.1).isSome ∧ (getCell b pq.2).isSome := by
  intro pq h
  obtain ⟨p, _, hmem⟩ := List.mem_flatMap.mp h
  rcases hp : getCell b p with _ | cur <;> rw [hp] at hmem
  · exact absurd hmem (List.not_mem_nil _)
  · obtain ⟨hfst, hsnd⟩ := mem_orthoPairsAt hmem
    rcases hsnd with ⟨_, hocc⟩ | ⟨_, hocc⟩ <;> exact ⟨by rw [hfst, hp]; rfl, hocc⟩

/-- Same-colored and mixed pairs partition any list of occupied pairs. -/
theorem pair_countP_partition (b : Board Reloc.HouseholdTile)
    (l : List (Coordinate × Coordinate))
    (hocc : ∀ pq ∈ l, (getCell b pq.1).isSome ∧ (getCell b pq.2).isSome) :
    l.countP (sameColorPair b) + l.countP (mixedColorPair b) = l.length := by
  induction l with
  | nil => rfl
  | cons pq l ih =>
    have h := hocc pq (List.mem_cons_self ..)
    obtain ⟨t1, ht1⟩ := Option.isSome_iff_exists.mp h.1
    obtain ⟨t2, ht2⟩ := Option.isSome_iff_exists.mp h.2
    have hsm : sameColorPair b pq = decide (t1.color = t2.color) := by
      unfold sameColorPair
      rw [ht1, ht2]
    have hmx : mixedColorPair b pq = !(decide (t1.color = t2.color)) := by
      unfold mixedColorPair
      rw [ht1, ht2]
    have ih' := ih fun x hx => hocc x (List.mem_cons_of_mem _ hx)
    rw [List.countP_cons, List.countP_cons, List.length_cons, hsm, hmx]
    by_cases hcol : t1.color = t2.color <;> simp [hcol] <;> omega

theorem debrief_index_formula (b : Board Reloc.HouseholdTile)
    (h : (debriefPairList b).length ≠ 0) :
    Debrief.calculateSegregationIndex b
      = jsRound ((((debriefPairList b).countP (sameColorPair b) : ℚ)
          / ((debriefPairList b).length : ℚ)) * 100) := by
  have hpart := pair_countP_partition b _ (debriefPairList_occ b)
  unfold Debrief.calculateSegregationIndex
  rw [debrief_adjacencyStats_eq]
  dsimp only
  rw [if_neg (by rw [hpart]; exact h), hpart]

theorem reloc_index_formula (b : Board Reloc.HouseholdTile)
    (h : (orthoPairList b).length ≠ 0) :
    Reloc.calculateSegregationIndex b
      = jsRound ((((orthoPairList b).countP (sameColorPair b) : ℚ)
          / ((orthoPairList b).length : ℚ)) * 100) := by
  have hpart := pair_countP_partition b _ (orthoPairList_occ b)
  unfold Reloc.calculateSegregationIndex
  rw [reloc_adjacencyStats_eq]
  dsimp only
  rw [if_neg (by rw [hpart]; exact h), hpart]

/-- C2 (amended): the `debrief.ts` metrics enumerate the unique adjacent
pairs once each via the canonical offsets {right, down, down-right,
down-left} — diagonals included, every eight-adjacent occupied pair
counted in exactly one orientation — and compute
`round(100 · sameColorPairs / totalOccupiedPairs)`.  The relocation
engine's `adjacencyStats`, and hence the segregation index in every
`TurnSummary`, instead enumerates only the orthogonal offsets
{right, down} (each such pair once, no diagonals) with the same rounding
formula. -/
theorem claim_C2_pair_enumeration (b : Board Reloc.HouseholdTile) :
    Debrief.adjacencyStats b
        = ((debriefPairList b).countP (sameColorPair b),
           (debriefPairList b).countP (mixedColorPair b)) ∧
      (debriefPairList b).Nodup ∧
      Reloc.adjacencyStats b
        = ((orthoPairList b).countP (sameColorPair b),
           (orthoPairList b).countP (mixedColorPair b)) ∧
      (orthoPairList b).Nodup ∧
      (∀ (ub : ℕ) (sv mv : Bool) (lm : Option Reloc.LastMove),
        (Reloc.summaryForBoard b ub sv mv lm).segregationIndex
          = Reloc.calculateSegregationIndex b) ∧
      ((debriefPairList b).length ≠ 0 →
        Debrief.calculateSegregationIndex b
          = jsRound ((((debriefPairList b).countP (sameColorPair b) : ℚ)
              / ((debriefPairList b).length : ℚ)) * 100)) ∧
      ((orthoPairList b).length ≠ 0 →
        Reloc.calculateSegregationIndex b
          = jsRound ((((orthoPairList b).countP (sameColorPair b) : ℚ)
              / ((orthoPairList b).length : ℚ)) * 100)) ∧
      (IsSquare b →
        (∀ u v, (u, v) ∈ debriefPairList b ↔
          (getCell b u).isSome ∧ (getCell b v).isSome ∧
            (⟨v.row - u.row, v.col - u.col⟩ : Coordinate) ∈ Debrief.uniquePairOffsets) ∧
        (∀ u v, (u, v) ∈ orthoPairList b ↔
          (getCell b u).isSome ∧ (getCell b v).isSome ∧
            ((⟨v.row - u.row, v.col - u.col⟩ : Coordinate) = (⟨0, 1⟩ : Coordinate) ∨
              (⟨v.row - u.row, v.col - u.col⟩ : Coordinate) = (⟨1, 0⟩ : Coordinate))) ∧
        (∀ u v, (getCell b u).isSome → (getCell b v).isSome → u ≠ v →
          (v.row - u.row).natAbs ≤ 1 → (v.col - u.col).natAbs ≤ 1 →
          ((u, v) ∈ debriefPairList b ∧ (v, u) ∉ debriefPairList b) ∨
            ((v, u) ∈ debriefPairList b ∧ (u, v) ∉ debriefPairList b))) := by
  refine ⟨debrief_adjacencyStats_eq b, debriefPairList_nodup b, reloc_adjacencyStats_eq b,
    orthoPairList_nodup b, fun ub sv mv lm => rfl, debrief_index_formula b,
    reloc_index_formula b, ?_⟩
  intro hsq
  exact ⟨fun u v => mem_debriefPairList hsq, fun u v => mem_orthoPairList hsq,
    fun u v hu hv hne h1 h2 => debrief_pair_once hsq hu hv hne h1 h2⟩

/-- C2 fails as stated: on `boardC2` the two blue households are only
diagonally adjacent, so the canonical-offset formula (computed by
`debrief.ts`) yields a segregation index of `100`, while the relocation
engine's `TurnSummary` reports `0` — the engine enumerates only {right,
down} pairs, not the diagonals. -/
theorem claim_C2_counterexample :
    Debrief.calculateSegregationIndex boardC2 = 100 ∧
      Reloc.calculateSegregationIndex boardC2 = 0 ∧
      (Reloc.summaryForBoard boardC2 0 true false none).segregationIndex = 0 := by
  refine ⟨by decide, by decide, by decide⟩

theorem claim_C2_witness :
    Debrief.calculateSegregationIndex boardC2
      = jsRound ((((debriefPairList boardC2).countP (sameColorPair boardC2) : ℚ)
          / ((debriefPairList boardC2).length : ℚ)) * 100) :=
  (claim_C2_pair_enumeration boardC2).2.2.2.2.2.1 (by decide)

/-! ### Projection lemmas for the accounting invariants -/

theorem cellMS_map {α β : Type} (f : α → β) (x : Option α) :
    (cellMS x).map f = cellMS (x.map f) := by
  cases x <;> rfl

theorem tileMS_proj_set {α β : Type} (g : α → β) (b : Board α) (p : Coordinate) (x : Option α)
    (h : InB b p) :
    (tileMS (setCell b p x)).map g + cellMS ((getCell b p).map g)
      = (tileMS b).map g + cellMS (x.map g) := by
  have hcongr := congrArg (Multiset.map g) (tileMS_set b p x h)
  simpa only [Multiset.map_add, cellMS_map] using hcongr

namespace Slide

theorem kindMS_resetMergeFlags (b : Board Tile) : kindMS (resetMergeFlags b) = kindMS b := by
  unfold kindMS resetMergeFlags
  exact tileMS_map_mapBoard (fun _ t => { t with mergedThisTurn := false }) Tile.kind
    (fun _ _ => rfl) b

theorem idsMS_resetMergeFlags (b : Board Tile) : idsMS (resetMergeFlags b) = idsMS b := by
  unfold idsMS resetMergeFlags
  exact tileMS_map_mapBoard (fun _ t => { t with mergedThisTurn := false }) Tile.id
    (fun _ _ => rfl) b

theorem kindMS_recomputeLocks (b : Board Tile) : kindMS (recomputeLocks b) = kindMS b := by
  unfold kindMS recomputeLocks
  exact tileMS_map_mapBoard _ Tile.kind (fun p t => by split <;> rfl) b

theorem idsMS_recomputeLocks (b : Board Tile) : idsMS (recomputeLocks b) = idsMS b := by
  unfold idsMS recomputeLocks
  exact tileMS_map_mapBoard _ Tile.id (fun p t => by split <;> rfl) b

theorem isSquare_resetMergeFlags {b : Board Tile} (h : IsSquare b) :
    IsSquare (resetMergeFlags b) := isSquare_mapBoard h _

theorem length_resetMergeFlags (b : Board Tile) : (resetMergeFlags b).length = b.length :=
  length_mapBoardFrom _ 0 b

theorem isSquare_recomputeLocks {b : Board Tile} (h : IsSquare b) :
    IsSquare (recomputeLocks b) := isSquare_mapBoard h _

theorem length_recomputeLocks (b : Board Tile) : (recomputeLocks b).length = b.length :=
  length_mapBoardFrom _ 0 b

theorem IdsOk_mono_ctr {ctr ctr' : ℕ} {b : Board Tile} (h : ctr ≤ ctr') (hok : IdsOk ctr b) :
    IdsOk ctr' b :=
  ⟨hok.1, fun i hi => le_trans (hok.2 i hi) h⟩

theorem IdsOk_mono_board {ctr : ℕ} {b b' : Board Tile} (h : idsMS b' ≤ idsMS b)
    (hok : IdsOk ctr b) : IdsOk ctr b' :=
  ⟨Multiset.nodup_of_le h hok.1, fun i hi => hok.2 i (Multiset.mem_of_le h hi)⟩

theorem IdsOk_fresh {ctr : ℕ} {b b' : Board Tile} (h : idsMS b' ≤ idsMS b + {ctr + 1})
    (hok : IdsOk ctr b) : IdsOk (ctr + 1) b' := by
  have hnotmem : ctr + 1 ∉ idsMS b := fun hmem => by
    have := hok.2 _ hmem; omega
  have hnd : (idsMS b + ({ctr + 1} : Multiset ℕ)).Nodup := by
    rw [Multiset.nodup_add]
    refine ⟨hok.1, Multiset.nodup_singleton _, Multiset.disjoint_left.mpr ?_⟩
    intro a ha hb
    rw [Multiset.mem_singleton] at hb
    subst hb
    exact hnotmem ha
  refine ⟨Multiset.nodup_of_le h hnd, fun i hi => ?_⟩
  have := Multiset.mem_of_le h hi
  rw [Multiset.mem_add, Multiset.mem_singleton] at this
  rcases this with hmem | rfl
  · exact le_trans (hok.2 i hmem) (Nat.le_succ ctr)
  · exact le_rfl

/-! ### The slide loop: shape, counter monotonicity, household/merge
conservation and id sanity -/

theorem slideLoop_zero (vector : Coordinate) (active : Tile) (b : Board Tile) (ctr : ℕ)
    (cur : Coordinate) (moved : Bool) (merges : ℕ) :
    slideLoop vector active 0 b ctr cur moved merges = (b, ctr, moved, merges) := rfl

theorem slideLoop_succ (vector : Coordinate) (active : Tile) (fuel : ℕ) (b : Board Tile)
    (ctr : ℕ) (cur : Coordinate) (moved : Bool) (merges : ℕ) :
    slideLoop vector active (fuel + 1) b ctr cur moved merges =
      (if !(isInBounds b (cur.row + vector.row) (cur.col + vector.col)) then
        (b, ctr, moved, merges)
      else
        match getCell b ⟨cur.row + vector.row, cur.col + vector.col⟩ with
        | none =>
          slideLoop vector active fuel
            (setCell (setCell b ⟨cur.row + vector.row, cur.col + vector.col⟩ (some active))
              cur none) ctr ⟨cur.row + vector.row, cur.col + vector.col⟩ true merges
        | some target =>
          if isImmovableWall (some target) then (b, ctr, moved, merges)
          else if canMerge active (some target) then
            (setCell
              (setCell b ⟨cur.row + vector.row, cur.col + vector.col⟩
                (some (createMergeResult active target ctr).1)) cur none,
              (createMergeResult active target ctr).2, true, merges + 1)
          else (b, ctr, moved, merges)) := rfl

theorem canMerge_household {mover target : Tile} (h : canMerge mover (some target) = true) :
    target.kind = TileKind.household := by
  by_contra hk
  have hfalse : canMerge mover (some target) = false := by
    show (if target.kind ≠ TileKind.household then false
        else if target.locked || target.mergedThisTurn || mover.mergedThisTurn then false
        else true) = false
    rw [if_pos hk]
  rw [hfalse] at h
  exact Bool.noConfusion h

theorem createMergeResult_spec (a b : Tile) (ctr : ℕ) :
    (createMergeResult a b ctr).1.kind ≠ TileKind.household ∧
      (createMergeResult a b ctr).1.id = ctr + 1 ∧ (createMergeResult a b ctr).2 = ctr + 1 := by
  unfold createMergeResult
  split <;> exact ⟨by simp, rfl, rfl⟩

theorem slideLoop_master (vector : Coordinate) (active : Tile)
    (hvec : ¬(vector.row = 0 ∧ vector.col = 0)) (hact : active.kind = TileKind.household) :
    ∀ (fuel : ℕ) (b : Board Tile) (ctr : ℕ) (cur : Coordinate) (moved : Bool) (merges : ℕ),
      IsSquare b → getCell b cur = some active →
      IsSquare (slideLoop vector active fuel b ctr cur moved merges).1 ∧
      (slideLoop vector active fuel b ctr cur moved merges).1.length = b.length ∧
      ctr ≤ (slideLoop vector active fuel b ctr cur moved merges).2.1 ∧
      hhCount (slideLoop vector active fuel b ctr cur moved merges).1 +
          2 * (slideLoop vector active fuel b ctr cur moved merges).2.2.2
        = hhCount b + 2 * merges ∧
      (IdsOk ctr b →
        IdsOk (slideLoop vector active fuel b ctr cur moved merges).2.1
          (slideLoop vector active fuel b ctr cur moved merges).1) := by
  intro fuel
  induction fuel with
  | zero =>
    intro b ctr cur moved merges hsq hcur
    rw [slideLoop_zero]
    exact ⟨hsq, by trivial, le_rfl, by trivial, fun h => h⟩
  | succ fuel ih =>
    intro b ctr cur moved merges hsq hcur
    rw [slideLoop_succ]
    by_cases hib : isInBounds b (cur.row + vector.row) (cur.col + vector.col) = true
    case neg =>
      rw [Bool.not_eq_true] at hib
      rw [hib]
      simp only [Bool.not_false]
      rw [if_pos (by trivial)]
      exact ⟨hsq, by trivial, le_rfl, by trivial, fun h => h⟩
    case pos =>
      rw [hib]
      simp only [Bool.not_true, Bool.false_eq_true, if_false]
      have hInB : InB b ⟨cur.row + vector.row, cur.col + vector.col⟩ :=
        (isInBounds_iff_InB hsq ⟨cur.row + vector.row, cur.col + vector.col⟩).mp hib
      have hne : cur ≠ (⟨cur.row + vector.row, cur.col + vector.col⟩ : Coordinate) := by
        intro h
        apply hvec
        have h1 : cur.row = cur.row + vector.row := congrArg Coordinate.row h
        have h2 : cur.col = cur.col + vector.col := congrArg Coordinate.col h
        constructor <;> omega
      rcases hget : getCell b ⟨cur.row + vector.row, cur.col + vector.col⟩ with _ | target
      · -- empty next cell: the tile slides one step
        have hms : tileMS (setCell
            (setCell b ⟨cur.row + vector.row, cur.col + vector.col⟩ (some active)) cur none)
            = tileMS b :=
          tileMS_move b hcur hget hInB hne
        have hsq2 : IsSquare (setCell
            (setCell b ⟨cur.row + vector.row, cur.col + vector.col⟩ (some active)) cur none) :=
          isSquare_setCell (isSquare_setCell hsq _ _) _ _
        have hcur2 : getCell (setCell
            (setCell b ⟨cur.row + vector.row, cur.col + vector.col⟩ (some active)) cur none)
            ⟨cur.row + vector.row, cur.col + vector.col⟩ = some active := by
          rw [getCell_setCell_other _ (Ne.symm hne), getCell_setCell_same hInB]
        obtain ⟨h1, h2, h3, h4, h5⟩ := ih (setCell
          (setCell b ⟨cur.row + vector.row, cur.col + vector.col⟩ (some active)) cur none)
          ctr ⟨cur.row + vector.row, cur.col + vector.col⟩ true merges hsq2 hcur2
        refine ⟨h1, ?_, h3, ?_, ?_⟩
        · rw [h2, length_setCell, length_setCell]
        · rw [h4]
          unfold hhCount kindMS
          rw [hms]
        · intro hok
          apply h5
          unfold IdsOk idsMS
          rw [hms]
          exact hok
      · -- occupied next cell: stop at a wall, or try a single merge
        dsimp only
        by_cases hwall : isImmovableWall (some target) = true
        · rw [hwall]
          rw [if_pos (by trivial)]
          exact ⟨hsq, by trivial, le_rfl, by trivial, fun h => h⟩
        · rw [Bool.not_eq_true] at hwall
          rw [hwall]
          simp only [Bool.false_eq_true, if_false]
          by_cases hcm : canMerge active (some target) = true
          · rw [hcm]
            rw [if_pos (by trivial)]
            obtain ⟨hmk, hmid, hmctr⟩ := createMergeResult_spec active target ctr
            have htk : target.kind = TileKind.household := canMerge_household hcm
            -- multiset accounting for the double write
            have hx1 := tileMS_set b ⟨cur.row + vector.row, cur.col + vector.col⟩
              (some (createMergeResult active target ctr).1) hInB
            rw [hget] at hx1
            have hcur2 : getCell (setCell b ⟨cur.row + vector.row, cur.col + vector.col⟩
                (some (createMergeResult active target ctr).1)) cur = some active := by
              rw [getCell_setCell_other _ hne]
              exact hcur
            have hx2 := tileMS_set (setCell b ⟨cur.row + vector.row, cur.col + vector.col⟩
                (some (createMergeResult active target ctr).1)) cur none
              (InB_of_getCell_some hcur2)
            rw [hcur2] at hx2
            have hsum : tileMS (setCell (setCell b ⟨cur.row + vector.row, cur.col + vector.col⟩
                  (some (createMergeResult active target ctr).1)) cur none)
                  + ({active} : Multiset Tile) + ({target} : Multiset Tile)
                = tileMS b + {(createMergeResult active target ctr).1} := by
              have h2' : tileMS (setCell (setCell b ⟨cur.row + vector.row, cur.col + vector.col⟩
                    (some (createMergeResult active target ctr).1)) cur none) + {active}
                  = tileMS (setCell b ⟨cur.row + vector.row, cur.col + vector.col⟩
                    (some (createMergeResult active target ctr).1)) := by
                simpa only [cellMS, add_zero] using hx2
              rw [h2']
              simpa only [cellMS] using hx1
            dsimp only
            refine ⟨isSquare_setCell (isSquare_setCell hsq _ _) _ _, ?_, ?_, ?_, ?_⟩
            · rw [length_setCell, length_setCell]
            · rw [hmctr]; omega
            · have hcond : TileKind.household ≠ (createMergeResult active target ctr).1.kind :=
                fun h => hmk h.symm
              have hk := congrArg (fun m => Multiset.count TileKind.household
                (Multiset.map Tile.kind m)) hsum
              simp only [Multiset.map_add, Multiset.map_singleton, Multiset.count_add,
                Multiset.count_singleton, hact, htk, if_pos rfl, if_true, if_neg hcond] at hk
              unfold hhCount kindMS
              omega
            · intro hok
              rw [hmctr]
              have hi := congrArg (Multiset.map Tile.id) hsum
              simp only [Multiset.map_add, Multiset.map_singleton, hmid] at hi
              apply IdsOk_fresh ?_ hok
              unfold idsMS
              calc (tileMS (setCell (setCell b ⟨cur.row + vector.row, cur.col + vector.col⟩
                      (some (createMergeResult active target ctr).1)) cur none)).map Tile.id
                  ≤ (tileMS (setCell (setCell b ⟨cur.row + vector.row, cur.col + vector.col⟩
                      (some (createMergeResult active target ctr).1)) cur none)).map Tile.id
                      + ({active.id} + {target.id}) :=
                    le_add_right le_rfl
                _ = (tileMS b).map Tile.id + {ctr + 1} := by
                    rw [← add_assoc]
                    exact hi
          · rw [Bool.not_eq_true] at hcm
            rw [hcm]
            simp only [Bool.false_eq_true, if_false]
            exact ⟨hsq, by trivial, le_rfl, by trivial, fun h => h⟩

theorem canSlide_household {t : Tile} (h : canSlide (some t) = true) :
    t.kind = TileKind.household := by
  have h' : (decide (t.kind = TileKind.household) && !t.locked) = true := h
  simp only [Bool.and_eq_true, decide_eq_true_eq] at h'
  exact h'.1

theorem slideOuter_nil (vector : Coordinate) (acc : Board Tile × ℕ × Bool × ℕ) :
    slideOuter vector [] acc = acc := rfl

theorem slideOuter_cons (vector pos : Coordinate) (rest : List Coordinate)
    (acc : Board Tile × ℕ × Bool × ℕ) :
    slideOuter vector (pos :: rest) acc =
      (match getCell acc.1 pos with
       | some startTile =>
         if canSlide (some startTile) then
           slideOuter vector rest
             (slideLoop vector startTile acc.1.length acc.1 acc.2.1 pos acc.2.2.1 acc.2.2.2)
         else slideOuter vector rest acc
       | none => slideOuter vector rest acc) := rfl

theorem slideOuter_master (vector : Coordinate) (hvec : ¬(vector.row = 0 ∧ vector.col = 0)) :
    ∀ (order : List Coordinate) (acc : Board Tile × ℕ × Bool × ℕ), IsSquare acc.1 →
      IsSquare (slideOuter vector order acc).1 ∧
      (slideOuter vector order acc).1.length = acc.1.length ∧
      acc.2.1 ≤ (slideOuter vector order acc).2.1 ∧
      hhCount (slideOuter vector order acc).1 + 2 * (slideOuter vector order acc).2.2.2
        = hhCount acc.1 + 2 * acc.2.2.2 ∧
      (IdsOk acc.2.1 acc.1 →
        IdsOk (slideOuter vector order acc).2.1 (slideOuter vector order acc).1) := by
  intro order
  induction order with
  | nil =>
    intro acc hsq
    rw [slideOuter_nil]
    exact ⟨hsq, rfl, le_rfl, rfl, fun h => h⟩
  | cons pos rest ih =>
    intro acc hsq
    rw [slideOuter_cons]
    rcases hget : getCell acc.1 pos with _ | startTile
    · exact ih acc hsq
    · dsimp only
      by_cases hcs : canSlide (some startTile) = true
      · rw [hcs, if_pos (by trivial)]
        obtain ⟨m1, m2, m3, m4, m5⟩ := slideLoop_master vector startTile hvec
          (canSlide_household hcs) acc.1.length acc.1 acc.2.1 pos acc.2.2.1 acc.2.2.2 hsq hget
        obtain ⟨o1, o2, o3, o4, o5⟩ := ih
          (slideLoop vector startTile acc.1.length acc.1 acc.2.1 pos acc.2.2.1 acc.2.2.2) m1
        refine ⟨o1, ?_, le_trans m3 o3, ?_, fun hok => o5 (m5 hok)⟩
        · rw [o2, m2]
        · omega
      · rw [Bool.not_eq_true] at hcs
        rw [hcs]
        simp only [Bool.false_eq_true, if_false]
        exact ih acc hsq

/-- `slideAndMerge`: shape, counter monotonicity, the household/merge
conservation law, and id sanity, for any square board. -/
theorem slideAndMerge_master (b : Board Tile) (ctr : ℕ) (d : Direction) (hsq : IsSquare b) :
    IsSquare (slideAndMerge b ctr d).1 ∧
    (slideAndMerge b ctr d).1.length = b.length ∧
    ctr ≤ (slideAndMerge b ctr d).2.1 ∧
    hhCount (slideAndMerge b ctr d).1 + 2 * (slideAndMerge b ctr d).2.2.2 = hhCount b ∧
    (IdsOk ctr b → IdsOk (slideAndMerge b ctr d).2.1 (slideAndMerge b ctr d).1) := by
  have hvec : ¬((directionVector d).row = 0 ∧ (directionVector d).col = 0) := by
    cases d <;> decide
  unfold slideAndMerge
  dsimp only
  obtain ⟨h1, h2, h3, h4, h5⟩ := slideOuter_master (directionVector d) hvec
    (traversalOrder (resetMergeFlags b).length d) (resetMergeFlags b, ctr, false, 0)
    (isSquare_resetMergeFlags hsq)
  dsimp only at h2 h3 h4 h5
  refine ⟨isSquare_resetMergeFlags h1, ?_, h3, ?_, ?_⟩
  · rw [length_resetMergeFlags, h2, length_resetMergeFlags]
  · unfold hhCount at h4 ⊢
    rw [kindMS_resetMergeFlags] at h4 ⊢
    omega
  · intro hok
    have hok0 : IdsOk ctr (resetMergeFlags b) :=
      IdsOk_mono_board (le_of_eq (idsMS_resetMergeFlags b)) hok
    exact IdsOk_mono_board (le_of_eq (idsMS_resetMergeFlags _)) (h5 hok0)

end Slide

namespace Reloc

theorem idsR_recomputeHappiness (b : Board HouseholdTile) :
    idsR (recomputeHappiness b) = idsR b := by
  unfold idsR recomputeHappiness
  exact tileMS_map_mapBoard (fun p t => { t with unhappy := !isHappy b p })
    HouseholdTile.id (fun _ _ => rfl) b

theorem selectedTileOf_some {state : GameState} {sel : Coordinate} {t : HouseholdTile}
    (h : selectedTileOf state sel = some t) : getCell state.board sel = some t := by
  unfold selectedTileOf at h
  by_cases hib : isInBounds state.board sel.row sel.col = true
  · rwa [if_pos hib] at h
  · rw [if_neg hib] at h
    exact Option.noConfusion h

theorem emptyCellOn_spec {α : Type} {b : Board α} {p : Coordinate} (h : EmptyCellOn b p) :
    getCell b p = none ∧ InB b p := by
  obtain ⟨h1, h2, h3, h4, h5⟩ := h
  rw [cellJS_eq_some_iff] at h5
  obtain ⟨hr, hc, hval⟩ := h5
  constructor
  · unfold getCell
    rw [if_pos ⟨h1, h3⟩]
    exact hval
  · exact ⟨h1, h3, hr, hc⟩

/-- Every branch of the relocation `applyTurn` preserves the multiset of
tile ids on the board (a move only transports an existing tile, and
`recomputeHappiness` only rewrites the `unhappy` flag). -/
theorem applyTurn_idsR (state : GameState) (sel : Coordinate) (dir : Direction)
    (cfg : GameConfig) : idsR (applyTurn state sel dir cfg).board = idsR state.board := by
  by_cases hgo : state.gameOver = true
  · unfold applyTurn
    rw [if_pos hgo]
  · have hgo' : state.gameOver = false := by rwa [Bool.not_eq_true] at hgo
    rcases hsel : selectedTileOf state sel with _ | t
    · rw [applyTurn_rejected state sel dir cfg hgo' (Or.inl hsel)]
    · by_cases hu : t.unhappy = true
      · rcases hv : nearestVacancyInDirection state.board sel dir with _ | v
        · rw [applyTurn_no_vacancy state sel dir cfg hgo' hsel hu hv]
        · rw [applyTurn_accepted state sel dir cfg hgo' hsel hu hv]
          dsimp only
          have hsome := selectedTileOf_some hsel
          have hmem := ((nearestVacancy_spec state.board sel dir).2 v hv).1
          have hempty := emptyCellOn_spec (mem_vacanciesInDirection.mp hmem).1
          have hne : sel ≠ v := by
            intro he
            rw [he, hempty.1] at hsome
            exact Option.noConfusion hsome
          have hmv : tileMS (setCell (setCell state.board v (some t)) sel none)
              = tileMS state.board :=
            tileMS_move state.board hsome hempty.1 hempty.2 hne
          rw [idsR_recomputeHappiness]
          unfold idsR
          rw [hmv]
      · have hu' : t.unhappy = false := by rwa [Bool.not_eq_true] at hu
        rw [applyTurn_rejected state sel dir cfg hgo' (Or.inr ⟨t, hsel, hu'⟩)]

theorem applyTurn_householdCount (state : GameState) (sel : Coordinate) (dir : Direction)
    (cfg : GameConfig) :
    householdCount (applyTurn state sel dir cfg).board = householdCount state.board := by
  have h := congrArg Multiset.card (applyTurn_idsR state sel dir cfg)
  unfold idsR at h
  rw [Multiset.card_map, Multiset.card_map] at h
  exact h

end Reloc

/-- C3: a relocation move preserves the number of households exactly, but
a slide-and-merge pass only satisfies the conservation law
`households_after + 2·merges = households_before` — each merge consumes
two households and produces one non-household tile, so the claimed
equality fails whenever a merge fires. -/
theorem claim_C3_movement_preserves_households :
    (∀ (state : Reloc.GameState) (sel : Coordinate) (dir : Direction) (cfg : Reloc.GameConfig),
      Reloc.householdCount (Reloc.applyTurn state sel dir cfg).board
        = Reloc.householdCount state.board) ∧
    (∀ (b : Board Slide.Tile) (ctr : ℕ) (dir : Direction), IsSquare b →
      Slide.hhCount (Slide.slideAndMerge b ctr dir).1
          + 2 * (Slide.slideAndMerge b ctr dir).2.2.2
        = Slide.hhCount b) :=
  ⟨Reloc.applyTurn_householdCount,
   fun b ctr dir hsq => (Slide.slideAndMerge_master b ctr dir hsq).2.2.2.1⟩

/-- C3 counterexample: on `boardC3` a left slide performs one merge and
the household count drops from 2 to 0, refuting the claimed preservation
for slide-and-merge passes. -/
theorem claim_C3_counterexample :
    IsSquare boardC3 ∧ Slide.hhCount boardC3 = 2 ∧
      Slide.hhCount (Slide.slideAndMerge boardC3 0 Direction.left).1 = 0 ∧
      (Slide.slideAndMerge boardC3 0 Direction.left).2.2.2 = 1 := by
  decide

/-- C3 witness: the conservation law at the concrete merging board. -/
theorem claim_C3_witness :
    IsSquare boardC3 ∧
      Slide.hhCount (Slide.slideAndMerge boardC3 0 Direction.left).1
          + 2 * (Slide.slideAndMerge boardC3 0 Direction.left).2.2.2
        = Slide.hhCount boardC3 :=
  ⟨by decide, claim_C3_movement_preserves_households.2 boardC3 0 Direction.left (by decide)⟩

namespace Slide

theorem findFarthestEdgeCell_eq (b : Board Tile) (mc : List Coordinate) (ex : Coordinate)
    (r : ℚ) :
    findFarthestEdgeCell b mc ex r =
      (match ((edgeCells b).foldl (farthestStep b ex (farthestScore b mc)) (none, [])).2 with
       | [] => none
       | c :: rest =>
         some ((c :: rest).getD ((Rat.floor (r * ((c :: rest).length : ℚ))).toNat) c)) := rfl

theorem farthestStep_keep {b : Board Tile} {ex : Coordinate} {score : Coordinate → ℚ}
    {acc : Option ℚ × List Coordinate} {e : Coordinate} (h : ¬ Admissible b ex e) :
    farthestStep b ex score acc e = acc := by
  unfold farthestStep
  by_cases hg : getCell b e = none
  · have hx : e.row = ex.row ∧ e.col = ex.col := by
      unfold Admissible at h
      tauto
    rw [if_neg (not_not_intro hg), if_pos hx]
  · rw [if_pos hg]

theorem farthestStep_adm {b : Board Tile} {ex : Coordinate} {score : Coordinate → ℚ}
    {acc : Option ℚ × List Coordinate} {e : Coordinate} (h : Admissible b ex e)
    (hinv : acc.1 = none ↔ acc.2 = []) :
    (farthestStep b ex score acc e).1 ≠ none ∧ (farthestStep b ex score acc e).2 ≠ [] ∧
      ∀ x ∈ (farthestStep b ex score acc e).2, x ∈ acc.2 ∨ x = e := by
  unfold farthestStep
  rw [if_neg (not_not_intro h.1), if_neg h.2]
  rcases hacc : acc.1 with _ | best
  · refine ⟨by simp, by simp, ?_⟩
    intro x hx
    rw [List.mem_singleton] at hx
    exact Or.inr hx
  · dsimp only
    split_ifs with h1 h2
    · refine ⟨by simp, by simp, ?_⟩
      intro x hx
      rw [List.mem_singleton] at hx
      exact Or.inr hx
    · refine ⟨by simp, by simp, ?_⟩
      intro x hx
      rw [List.mem_append, List.mem_singleton] at hx
      exact hx
    · have hne : acc.2 ≠ [] := fun hemp => by
        rw [hinv.mpr hemp] at hacc
        exact Option.noConfusion hacc
      exact ⟨by rw [hacc]; simp, hne, fun x hx => Or.inl hx⟩

theorem farthest_fold_master (b : Board Tile) (ex : Coordinate) (score : Coordinate → ℚ) :
    ∀ (l : List Coordinate) (acc : Option ℚ × List Coordinate),
      (acc.1 = none ↔ acc.2 = []) →
      ((l.foldl (farthestStep b ex score) acc).1 = none
          ↔ (l.foldl (farthestStep b ex score) acc).2 = []) ∧
      ((l.foldl (farthestStep b ex score) acc).2 = []
          ↔ acc.2 = [] ∧ ∀ e ∈ l, ¬ Admissible b ex e) ∧
      (∀ x ∈ (l.foldl (farthestStep b ex score) acc).2,
        x ∈ acc.2 ∨ (x ∈ l ∧ Admissible b ex x)) := by
  intro l
  induction l with
  | nil =>
    intro acc hinv
    rw [List.foldl_nil]
    exact ⟨hinv, by simp, fun x hx => Or.inl hx⟩
  | cons e rest ih =>
    intro acc hinv
    rw [List.foldl_cons]
    by_cases hadm : Admissible b ex e
    · obtain ⟨s1, s2, s3⟩ := @farthestStep_adm b ex score acc e hadm hinv
      have hinv2 : (farthestStep b ex score acc e).1 = none
          ↔ (farthestStep b ex score acc e).2 = [] := by
        constructor
        · intro h; exact absurd h s1
        · intro h; exact absurd h s2
      obtain ⟨i1, i2, i3⟩ := ih (farthestStep b ex score acc e) hinv2
      refine ⟨i1, ?_, ?_⟩
      · rw [i2]
        constructor
        · intro h
          exact absurd h.1 s2
        · intro h
          exact absurd hadm (h.2 e (List.mem_cons_self e rest))
      · intro x hx
        rcases i3 x hx with hx2 | ⟨hr, ha⟩
        · rcases s3 x hx2 with hm | rfl
          · exact Or.inl hm
          · exact Or.inr ⟨List.mem_cons_self x rest, hadm⟩
        · exact Or.inr ⟨List.mem_cons_of_mem e hr, ha⟩
    · rw [farthestStep_keep hadm]
      obtain ⟨i1, i2, i3⟩ := ih acc hinv
      refine ⟨i1, ?_, ?_⟩
      · rw [i2]
        constructor
        · intro h
          refine ⟨h.1, ?_⟩
          intro x hx
          rw [List.mem_cons] at hx
          rcases hx with rfl | hx
          · exact hadm
          · exact h.2 x hx
        · intro h
          exact ⟨h.1, fun x hx => h.2 x (List.mem_cons_of_mem e hx)⟩
      · intro x hx
        rcases i3 x hx with hm | ⟨hr, ha⟩
        · exact Or.inl hm
        · exact Or.inr ⟨List.mem_cons_of_mem e hr, ha⟩

theorem getD_cons_mem {α : Type} (c : α) (rest : List α) (i : ℕ) :
    (c :: rest).getD i c ∈ c :: rest := by
  rw [List.getD_eq_getElem?_getD]
  rcases h : (c :: rest)[i]? with _ | x
  · exact List.mem_cons_self c rest
  · obtain ⟨hlt, hx⟩ := List.getElem?_eq_some_iff.mp h
    exact hx ▸ List.getElem_mem hlt

theorem findFarthest_none_iff (b : Board Tile) (mc : List Coordinate) (ex : Coordinate)
    (r : ℚ) :
    findFarthestEdgeCell b mc ex r = none ↔ ∀ e ∈ edgeCells b, ¬ Admissible b ex e := by
  rw [findFarthestEdgeCell_eq]
  obtain ⟨f1, f2, f3⟩ := farthest_fold_master b ex (farthestScore b mc) (edgeCells b)
    (none, []) (by simp)
  rcases hres : ((edgeCells b).foldl (farthestStep b ex (farthestScore b mc)) (none, [])).2
    with _ | ⟨c, rest⟩
  · rw [hres] at f2
    constructor
    · intro _
      exact (f2.mp rfl).2
    · intro _
      rfl
  · rw [hres] at f2
    constructor
    · intro h
      exact Option.noConfusion h
    · intro h
      have : c :: rest = [] := f2.mpr ⟨rfl, h⟩
      exact List.noConfusion this

theorem findFarthest_some_mem (b : Board Tile) (mc : List Coordinate) (ex : Coordinate)
    (r : ℚ) (e : Coordinate) (h : findFarthestEdgeCell b mc ex r = some e) :
    e ∈ edgeCells b ∧ Admissible b ex e := by
  rw [findFarthestEdgeCell_eq] at h
  obtain ⟨f1, f2, f3⟩ := farthest_fold_master b ex (farthestScore b mc) (edgeCells b)
    (none, []) (by simp)
  rcases hres : ((edgeCells b).foldl (farthestStep b ex (farthestScore b mc)) (none, [])).2
    with _ | ⟨c, rest⟩
  · rw [hres] at h
    exact Option.noConfusion h
  · rw [hres] at h
    dsimp only at h
    have hgd := Option.some.inj h
    have hmem0 := getD_cons_mem c rest ((Rat.floor (r * (((c :: rest).length : ℕ) : ℚ))).toNat)
    rw [hgd] at hmem0
    have hmem1 : e ∈ ((edgeCells b).foldl (farthestStep b ex (farthestScore b mc))
        (none, [])).2 := by
      rw [hres]
      exact hmem0
    rcases f3 e hmem1 with hmem | ⟨hmem, hadm⟩
    · exact absurd hmem (List.not_mem_nil e)
    · exact ⟨hmem, hadm⟩

theorem InB_mk {α : Type} {b : Board α} (hsq : IsSquare b) {r c : Int}
    (h1 : 0 ≤ r) (h2 : 0 ≤ c) (h3 : r < (b.length : Int)) (h4 : c < (b.length : Int)) :
    InB b ⟨r, c⟩ := by
  have hr : r.toNat < b.length := by omega
  refine ⟨h1, h2, hr, ?_⟩
  rw [hsq r.toNat hr]
  show c.toNat < b.length
  omega

theorem mem_edgeCells_InB {b : Board Tile} (hsq : IsSquare b) {e : Coordinate}
    (he : e ∈ edgeCells b) : InB b e := by
  unfold edgeCells at he
  rw [List.mem_append] at he
  rcases he with h | h
  · rcases List.mem_flatMap.mp h with ⟨i, hi, hmem⟩
    rw [List.mem_range] at hi
    simp only [List.mem_cons, List.not_mem_nil, or_false] at hmem
    rcases hmem with rfl | rfl
    · exact InB_mk hsq le_rfl (by rw [Int.ofNat_eq_natCast]; omega) (by omega)
        (by rw [Int.ofNat_eq_natCast]; omega)
    · exact InB_mk hsq (by omega) (by rw [Int.ofNat_eq_natCast]; omega) (by omega)
        (by rw [Int.ofNat_eq_natCast]; omega)
  · rcases List.mem_flatMap.mp h with ⟨row, hrow, hmem⟩
    rw [List.mem_range'_1] at hrow
    simp only [List.mem_cons, List.not_mem_nil, or_false] at hmem
    rcases hmem with rfl | rfl
    · exact InB_mk hsq (by rw [Int.ofNat_eq_natCast]; omega) le_rfl
        (by rw [Int.ofNat_eq_natCast]; omega) (by omega)
    · exact InB_mk hsq (by rw [Int.ofNat_eq_natCast]; omega) (by omega)
        (by rw [Int.ofNat_eq_natCast]; omega) (by omega)

theorem isMajority_household {t : Tile} (h : isMajority (some t) = true) :
    t.kind = TileKind.household := by
  have h' : (decide (t.kind = TileKind.household)
      && decide (t.color = some HouseholdColor.blue)) = true := h
  simp only [Bool.and_eq_true, decide_eq_true_eq] at h'
  exact h'.1

/-- One counted `edge-relocate` departure: the event fires, and the
household count drops by exactly one when no admissible border cell
exists on the vacated board, and is preserved (with the tile landing on
the selected border cell) when one does. -/
theorem flightStep_edgeRelocate (cfg : GameConfig) (b : Board Tile) (dep : Coordinate)
    (tile : Tile) (r : ℚ) (hsq : IsSquare b) (hbe : cfg.flightBehavior = .edgeRelocate)
    (hdep : getCell b dep = some tile) (hmaj : isMajority (some tile) = true) :
    (flightStep cfg b dep r).2 = true ∧
    (findFarthestEdgeCell (setCell b dep none)
        ((natCoords (setCell b dep none).length).filter
          (fun p => isMinority (getCell (setCell b dep none) p))) dep r = none →
      hhCount (flightStep cfg b dep r).1 + 1 = hhCount b) ∧
    (∀ e, findFarthestEdgeCell (setCell b dep none)
        ((natCoords (setCell b dep none).length).filter
          (fun p => isMinority (getCell (setCell b dep none) p))) dep r = some e →
      hhCount (flightStep cfg b dep r).1 = hhCount b ∧
        getCell (flightStep cfg b dep r).1 e = some tile) := by
  have hInB : InB b dep := InB_of_getCell_some hdep
  have hkind : tile.kind = TileKind.household := isMajority_household hmaj
  have hx1 := tileMS_set b dep none hInB
  rw [hdep] at hx1
  have hms1 : tileMS (setCell b dep none) + ({tile} : Multiset Tile) = tileMS b := by
    simpa only [cellMS, add_zero] using hx1
  have hcount1 : hhCount (setCell b dep none) + 1 = hhCount b := by
    have hk := congrArg (fun m => Multiset.count TileKind.household
      (Multiset.map Tile.kind m)) hms1
    simp only [Multiset.map_add, Multiset.map_singleton, Multiset.count_add,
      Multiset.count_singleton, hkind, if_pos rfl, if_true] at hk
    unfold hhCount kindMS
    omega
  have hstep : flightStep cfg b dep r =
      (match findFarthestEdgeCell (setCell b dep none)
          ((natCoords (setCell b dep none).length).filter
            (fun p => isMinority (getCell (setCell b dep none) p))) dep r with
       | none => (setCell b dep none, true)
       | some edgeTarget => (setCell (setCell b dep none) edgeTarget (some tile), true)) := by
    unfold flightStep
    rw [hdep]
    dsimp only
    rw [hmaj]
    simp only [Bool.not_true, Bool.false_eq_true, if_false]
    rw [if_neg (by rw [hbe]; intro hcon; exact FlightBehavior.noConfusion hcon)]
  refine ⟨?_, ?_, ?_⟩
  · rw [hstep]
    rcases hf : findFarthestEdgeCell (setCell b dep none)
        ((natCoords (setCell b dep none).length).filter
          (fun p => isMinority (getCell (setCell b dep none) p))) dep r with _ | e <;> rfl
  · intro hf
    rw [hstep, hf]
    exact hcount1
  · intro e he
    rw [hstep, he]
    obtain ⟨hmem, hadm⟩ := findFarthest_some_mem _ _ _ _ _ he
    have hInB2 : InB (setCell b dep none) e :=
      mem_edgeCells_InB (isSquare_setCell hsq dep none) hmem
    have hx2 := tileMS_set (setCell b dep none) e (some tile) hInB2
    rw [hadm.1] at hx2
    have hms2 : tileMS (setCell (setCell b dep none) e (some tile))
        = tileMS (setCell b dep none) + {tile} := by
      simpa only [cellMS, add_zero] using hx2
    constructor
    · have hk : Multiset.count TileKind.household (Multiset.map Tile.kind
          (tileMS (setCell (setCell b dep none) e (some tile))))
          = Multiset.count TileKind.household (Multiset.map Tile.kind (tileMS b)) :=
        congrArg (fun m => Multiset.count TileKind.household (Multiset.map Tile.kind m))
          (hms2.trans hms1)
      exact hk
    · exact getCell_setCell_same hInB2 (some tile)

end Slide

/-! ### Claim C10 -/

/-- C10: with `edge-relocate` flight, `findFarthestEdgeCell` returns
`null` exactly when no empty border cell other than the excluded
departure cell exists, and otherwise returns such a cell; consequently a
counted departure removes its household outright (count drops by one)
in the former case — relocation silently degrades to despawn — and
re-places the very same tile on the returned border cell (count
preserved) in the latter. -/
theorem claim_C10_edge_relocate_fallback :
    (∀ (b : Board Slide.Tile) (mc : List Coordinate) (ex : Coordinate) (r : ℚ),
      (Slide.findFarthestEdgeCell b mc ex r = none ↔
        ∀ e ∈ Slide.edgeCells b, ¬ Slide.Admissible b ex e) ∧
      ∀ e, Slide.findFarthestEdgeCell b mc ex r = some e →
        e ∈ Slide.edgeCells b ∧ Slide.Admissible b ex e) ∧
    (∀ (cfg : Slide.GameConfig) (b : Board Slide.Tile) (dep : Coordinate) (tile : Slide.Tile)
      (r : ℚ), IsSquare b → cfg.flightBehavior = .edgeRelocate →
      getCell b dep = some tile → Slide.isMajority (some tile) = true →
      (Slide.flightStep cfg b dep r).2 = true ∧
      (Slide.findFarthestEdgeCell (setCell b dep none)
          ((natCoords (setCell b dep none).length).filter
            (fun p => Slide.isMinority (getCell (setCell b dep none) p))) dep r = none →
        Slide.hhCount (Slide.flightStep cfg b dep r).1 + 1 = Slide.hhCount b) ∧
      (∀ e, Slide.findFarthestEdgeCell (setCell b dep none)
          ((natCoords (setCell b dep none).length).filter
            (fun p => Slide.isMinority (getCell (setCell b dep none) p))) dep r = some e →
        Slide.hhCount (Slide.flightStep cfg b dep r).1 = Slide.hhCount b ∧
          getCell (Slide.flightStep cfg b dep r).1 e = some tile)) :=
  ⟨fun b mc ex r => ⟨Slide.findFarthest_none_iff b mc ex r,
      fun e he => Slide.findFarthest_some_mem b mc ex r e he⟩,
   Slide.flightStep_edgeRelocate⟩

/-- C10 witness: on the fully occupied 2×2 board the counted departure at
the corner finds no admissible border cell, so the household count drops
from 4 to 3. -/
theorem claim_C10_witness :
    (Slide.flightStep cfgC10 boardC10 ⟨0, 0⟩ 0).2 = true ∧
      Slide.hhCount (Slide.flightStep cfgC10 boardC10 ⟨0, 0⟩ 0).1 + 1
        = Slide.hhCount boardC10 := by
  obtain ⟨h1, h2, h3⟩ := claim_C10_edge_relocate_fallback.2 cfgC10 boardC10 ⟨0, 0⟩ tileC10 0
    (by decide) rfl (by decide) (by decide)
  exact ⟨h1, h2 (by decide)⟩

namespace Slide

theorem dedupInsert_preserve (b : Board Tile) (acc : List Coordinate) (c : Coordinate)
    (h : acc.Nodup ∧ ∀ x ∈ acc, isMajority (getCell b x) = true)
    (hc : isMajority (getCell b c) = true) :
    (dedupInsert acc c).Nodup ∧ ∀ x ∈ dedupInsert acc c, isMajority (getCell b x) = true := by
  unfold dedupInsert
  by_cases hmem : c ∈ acc
  · rw [if_pos hmem]; exact h
  · rw [if_neg hmem]
    constructor
    · rw [List.nodup_append]
      refine ⟨h.1, List.nodup_singleton c, ?_⟩
      intro a ha hb
      rw [List.mem_singleton] at hb
      subst hb
      exact hmem ha
    · intro x hx
      rw [List.mem_append, List.mem_singleton] at hx
      rcases hx with hx | rfl
      · exact h.2 x hx
      · exact hc

/-- The deduplicated flight candidates are pairwise distinct and each of
them holds a majority household on the pre-flight board. -/
theorem flightCandidates_spec (b : Board Tile) (cfg : GameConfig) :
    (flightCandidates b cfg).Nodup ∧
      ∀ x ∈ flightCandidates b cfg, isMajority (getCell b x) = true := by
  unfold flightCandidates
  refine foldl_preserve
    (fun acc => acc.Nodup ∧ ∀ x ∈ acc, isMajority (getCell b x) = true)
    _ ?_ _ _ ⟨List.nodup_nil, fun x hx => absurd hx (List.not_mem_nil x)⟩
  intro acc unit hacc
  by_cases hth : getMinorityShare b unit ≤ cfg.tippingThreshold
  · rw [if_pos hth]; exact hacc
  · rw [if_neg hth]
    refine foldl_preserve
      (fun a => a.Nodup ∧ ∀ x ∈ a, isMajority (getCell b x) = true) _ ?_ unit acc hacc
    intro acc2 cell hacc2
    by_cases hmaj : isMajority (getCell b cell) = true
    · rw [if_pos hmaj]
      exact dedupInsert_preserve b acc2 cell hacc2 hmaj
    · rw [if_neg hmaj]
      exact hacc2

theorem selectFleeing_det (cfg : GameConfig) (shuf : List Coordinate → List Coordinate)
    (coins : ℕ → ℚ) (targets : List Coordinate) (hmode : cfg.flightMode = .deterministic) :
    selectFleeing cfg shuf coins targets = (shuf targets).take (targets.length / 2) := by
  unfold selectFleeing
  rw [hmode]

theorem isMajority_some_of (b : Board Tile) (c : Coordinate)
    (h : isMajority (getCell b c) = true) :
    ∃ t, getCell b c = some t ∧ isMajority (some t) = true := by
  rcases hg : getCell b c with _ | t
  · rw [hg] at h
    exact absurd h (by decide)
  · rw [hg] at h
    exact ⟨t, rfl, h⟩

/-- A departure cell that still holds a majority household is counted. -/
theorem flightStep_counted (cfg : GameConfig) (b : Board Tile) (dep : Coordinate) (r : ℚ)
    (h : isMajority (getCell b dep) = true) : (flightStep cfg b dep r).2 = true := by
  obtain ⟨t, hg, hm⟩ := isMajority_some_of b dep h
  unfold flightStep
  rw [hg]
  try dsimp only
  rw [hm]
  simp only [Bool.not_true, Bool.false_eq_true, if_false]
  by_cases hbh : cfg.flightBehavior = .despawn
  · rw [if_pos hbh]
  · rw [if_neg hbh]
    try dsimp only
    split <;> rfl

/-- A flight departure never changes any other occupied cell: the
vacated cell is the departure itself and a relocation target is empty at
relocation time. -/
theorem flightStep_getCell_other (cfg : GameConfig) (b : Board Tile) (dep c : Coordinate)
    (r : ℚ) (hne : c ≠ dep) (hocc : getCell b c ≠ none) :
    getCell (flightStep cfg b dep r).1 c = getCell b c := by
  unfold flightStep
  rcases hg : getCell b dep with _ | t
  · rfl
  · try dsimp only
    by_cases hm : isMajority (some t) = true
    · rw [hm]
      simp only [Bool.not_true, Bool.false_eq_true, if_false]
      by_cases hbh : cfg.flightBehavior = .despawn
      · rw [if_pos hbh]
        exact getCell_setCell_other b hne none
      · rw [if_neg hbh]
        try dsimp only
        rcases hf : findFarthestEdgeCell (setCell b dep none)
            ((natCoords (setCell b dep none).length).filter
              (fun p => isMinority (getCell (setCell b dep none) p))) dep r with _ | e
        · exact getCell_setCell_other b hne none
        · have hempty := (findFarthest_some_mem _ _ _ _ _ hf).2.1
          have hc1 : getCell (setCell b dep none) c = getCell b c :=
            getCell_setCell_other b hne none
          have hcne : c ≠ e := by
            intro hEq
            subst hEq
            exact hocc (hc1.symm.trans hempty)
          show getCell (setCell (setCell b dep none) e (some t)) c = getCell b c
          rw [getCell_setCell_other _ hcne (some t)]
          exact hc1
    · rw [Bool.not_eq_true] at hm
      rw [hm]
      simp only [Bool.not_false]
      rw [if_pos (by trivial)]

theorem flightLoop_cons (cfg : GameConfig) (eR : ℕ → ℚ) (dep : Coordinate)
    (rest : List Coordinate) (b : Board Tile) (events : ℕ) :
    flightLoop cfg eR (dep :: rest) b events =
      flightLoop cfg eR rest (flightStep cfg b dep (eR events)).1
        (events + (if (flightStep cfg b dep (eR events)).2 then 1 else 0)) := rfl

/-- Every departure in a duplicate-free list of majority cells is counted:
the loop fires exactly once per listed cell. -/
theorem flightLoop_master (cfg : GameConfig) (eR : ℕ → ℚ) :
    ∀ (deps : List Coordinate) (b : Board Tile) (events : ℕ),
      deps.Nodup → (∀ c ∈ deps, isMajority (getCell b c) = true) →
      (flightLoop cfg eR deps b events).2 = events + deps.length := by
  intro deps
  induction deps with
  | nil => intro b events _ _; rfl
  | cons dep rest ih =>
    intro b events hnd hmaj
    rw [flightLoop_cons]
    have hdep := hmaj dep (List.mem_cons_self dep rest)
    have hcnt := flightStep_counted cfg b dep (eR events) hdep
    rw [hcnt, if_pos (by trivial)]
    have hrest : ∀ c ∈ rest,
        isMajority (getCell (flightStep cfg b dep (eR events)).1 c) = true := by
      intro c hc
      have hcm := hmaj c (List.mem_cons_of_mem dep hc)
      have hcne : c ≠ dep := fun hEq => (List.nodup_cons.mp hnd).1 (hEq ▸ hc)
      have hocc : getCell b c ≠ none := by
        intro hnone
        rw [hnone] at hcm
        exact absurd hcm (by decide)
      rw [flightStep_getCell_other cfg b dep c (eR events) hcne hocc]
      exact hcm
    rw [ih _ _ (List.nodup_cons.mp hnd).2 hrest, List.length_cons]
    omega

/-- Deterministic flight: for every shuffle outcome that permutes the
candidate list, the number of flight events is exactly
`⌊candidates/2⌋`. -/
theorem applyFlight_det (b : Board Tile) (cfg : GameConfig)
    (shuf : List Coordinate → List Coordinate) (coins eR : ℕ → ℚ)
    (hmode : cfg.flightMode = .deterministic)
    (hperm : (shuf (flightCandidates b cfg)).Perm (flightCandidates b cfg)) :
    (applyFlight b cfg shuf coins eR).2 = (flightCandidates b cfg).length / 2 := by
  unfold applyFlight
  dsimp only
  by_cases hz : (flightCandidates b cfg).length = 0
  · rw [if_pos hz, hz]
  · rw [if_neg hz, selectFleeing_det cfg shuf coins _ hmode]
    have hlen : ((shuf (flightCandidates b cfg)).take
        ((flightCandidates b cfg).length / 2)).length
        = (flightCandidates b cfg).length / 2 := by
      rw [List.length_take, hperm.length_eq]
      exact Nat.min_eq_left (Nat.div_le_self _ _)
    by_cases hfz : ((shuf (flightCandidates b cfg)).take
        ((flightCandidates b cfg).length / 2)).length = 0
    · rw [if_pos hfz]
      rw [hlen] at hfz
      omega
    · rw [if_neg hfz]
      obtain ⟨hnd, hmaj⟩ := flightCandidates_spec b cfg
      have hndt : ((shuf (flightCandidates b cfg)).take
          ((flightCandidates b cfg).length / 2)).Nodup :=
        (List.take_sublist _ _).nodup (hperm.nodup_iff.mpr hnd)
      have hmajt : ∀ c ∈ (shuf (flightCandidates b cfg)).take
          ((flightCandidates b cfg).length / 2), isMajority (getCell b c) = true := by
        intro c hc
        exact hmaj c (hperm.mem_iff.mp ((List.take_sublist _ _).subset hc))
      rw [flightLoop_master cfg eR _ b 0 hndt hmajt, hlen]
      omega

end Slide

/-! ### Claim C5 -/

/-- C5: under deterministic flight, exactly `⌊0.5 · candidateCount⌋`
flight events occur — one per selected majority cell — for every outcome
of the random shuffle, where the candidates are the deduplicated
majority-household cells of units whose minority share strictly exceeds
the tipping threshold. -/
theorem claim_C5_deterministic_flight :
    ∀ (b : Board Slide.Tile) (cfg : Slide.GameConfig)
      (shuf : List Coordinate → List Coordinate) (coins eR : ℕ → ℚ),
      cfg.flightMode = .deterministic →
      (shuf (Slide.flightCandidates b cfg)).Perm (Slide.flightCandidates b cfg) →
      (Slide.applyFlight b cfg shuf coins eR).2
        = (Slide.flightCandidates b cfg).length / 2 :=
  fun b cfg shuf coins eR => Slide.applyFlight_det b cfg shuf coins eR

/-- C5 witness: on `boardC5` with the identity shuffle, the two
candidates produce exactly `2 / 2 = 1` flight event. -/
theorem claim_C5_witness :
    cfgC10.flightMode = Slide.FlightMode.deterministic ∧
      (Slide.flightCandidates boardC5 cfgC10).length = 2 ∧
      (Slide.applyFlight boardC5 cfgC10 id (fun _ => 0) (fun _ => 0)).2
        = (Slide.flightCandidates boardC5 cfgC10).length / 2 :=
  ⟨rfl, by decide,
   claim_C5_deterministic_flight boardC5 cfgC10 id (fun _ => 0) (fun _ => 0) rfl
     (List.Perm.refl _)⟩

/-! ### Claim C9: id uniqueness over reachable states -/

theorem tileMS_replicate_empty {α : Type} (n m : ℕ) :
    tileMS (List.replicate n (List.replicate m (none : Option α))) = 0 := by
  unfold tileMS tilesList
  rw [Multiset.coe_eq_zero, List.filterMap_eq_nil_iff]
  intro a ha
  rcases List.mem_flatten.mp ha with ⟨row, hrow, har⟩
  have h1 := List.eq_of_mem_replicate hrow
  subst h1
  have h2 := List.eq_of_mem_replicate har
  subst h2
  rfl

namespace Reloc

theorem idsR_eq_RIdsOk {ctr : ℕ} {b b' : Board HouseholdTile} (h : idsR b' = idsR b)
    (hok : RIdsOk ctr b) : RIdsOk ctr b' :=
  ⟨by rw [h]; exact hok.1, fun i hi => hok.2 i (by rw [← h]; exact hi)⟩

theorem RIdsOk_fresh {ctr : ℕ} {b b' : Board HouseholdTile}
    (h : idsR b' ≤ idsR b + {ctr + 1}) (hok : RIdsOk ctr b) : RIdsOk (ctr + 1) b' := by
  have hnotmem : ctr + 1 ∉ idsR b := fun hmem => by
    have := hok.2 _ hmem; omega
  have hnd : (idsR b + ({ctr + 1} : Multiset ℕ)).Nodup := by
    rw [Multiset.nodup_add]
    refine ⟨hok.1, Multiset.nodup_singleton _, Multiset.disjoint_left.mpr ?_⟩
    intro a ha hb
    rw [Multiset.mem_singleton] at hb
    subst hb
    exact hnotmem ha
  refine ⟨Multiset.nodup_of_le h hnd, fun i hi => ?_⟩
  have := Multiset.mem_of_le h hi
  rw [Multiset.mem_add, Multiset.mem_singleton] at this
  rcases this with hmem | rfl
  · exact le_trans (hok.2 i hmem) (Nat.le_succ ctr)
  · exact le_rfl

theorem idsR_setCell_le (b : Board HouseholdTile) (p : Coordinate) (t : HouseholdTile) :
    idsR (setCell b p (some t)) ≤ idsR b + {t.id} := by
  have h : (tileMS (setCell b p (some t))).map HouseholdTile.id
      ≤ (tileMS b + {t}).map HouseholdTile.id :=
    Multiset.map_le_map (tileMS_setCell_le b p t)
  rw [Multiset.map_add, Multiset.map_singleton] at h
  exact h

theorem placeLoop_cons (positions : List Coordinate) (colors : List HouseholdColor)
    (i : ℕ) (rest : List ℕ) (acc : Board HouseholdTile × ℕ) :
    placeLoop positions colors (i :: rest) acc =
      placeLoop positions colors rest
        (setCell acc.1 (positions.getD i ⟨0, 0⟩)
          (some (createHousehold acc.2 (colors.getD i HouseholdColor.blue)).1),
         (createHousehold acc.2 (colors.getD i HouseholdColor.blue)).2) := rfl

theorem placeLoop_RIdsOk (positions : List Coordinate) (colors : List HouseholdColor) :
    ∀ (idx : List ℕ) (acc : Board HouseholdTile × ℕ), RIdsOk acc.2 acc.1 →
      RIdsOk (placeLoop positions colors idx acc).2 (placeLoop positions colors idx acc).1 := by
  intro idx
  induction idx with
  | nil => intro acc h; exact h
  | cons i rest ih =>
    intro acc hok
    rw [placeLoop_cons]
    apply ih
    exact RIdsOk_fresh (idsR_setCell_le acc.1 _ _) hok

theorem RIdsOk_createEmptyBoard (ctr n : ℕ) : RIdsOk ctr (createEmptyBoard n) := by
  unfold RIdsOk idsR createEmptyBoard
  rw [tileMS_replicate_empty]
  constructor
  · rw [Multiset.map_zero]
    exact Multiset.nodup_zero
  · intro i hi
    rw [Multiset.map_zero] at hi
    exact absurd hi (Multiset.not_mem_zero i)

/-- The ids placed by `createInitialState` are fresh and distinct, whatever
the configuration and shuffles. -/
theorem createInitialState_RIdsOk (ctr : ℕ) (cfg : GameConfig)
    (sC : List HouseholdColor → List HouseholdColor)
    (sP : List Coordinate → List Coordinate) :
    RIdsOk (createInitialState ctr cfg sC sP).2 (createInitialState ctr cfg sC sP).1.board := by
  unfold createInitialState
  dsimp only
  refine idsR_eq_RIdsOk (idsR_recomputeHappiness _) ?_
  exact placeLoop_RIdsOk _ _ _ _ (RIdsOk_createEmptyBoard ctr _)

end Reloc

namespace Slide

theorem idsMS_setCell_le (b : Board Tile) (p : Coordinate) (t : Tile) :
    idsMS (setCell b p (some t)) ≤ idsMS b + {t.id} := by
  have h : (tileMS (setCell b p (some t))).map Tile.id ≤ (tileMS b + {t}).map Tile.id :=
    Multiset.map_le_map (tileMS_setCell_le b p t)
  rw [Multiset.map_add, Multiset.map_singleton] at h
  exact h

theorem idsMS_le_of_tileMS_le {b b' : Board Tile} (h : tileMS b' ≤ tileMS b) :
    idsMS b' ≤ idsMS b :=
  Multiset.map_le_map h

theorem length_createEmptyBoardS (n : ℕ) : (createEmptyBoard n).length = n :=
  List.length_replicate ..

theorem isSquare_createEmptyBoardS (n : ℕ) : IsSquare (createEmptyBoard n) := by
  intro i hi
  unfold createEmptyBoard at *
  rw [List.length_replicate] at hi
  rw [List.getD_eq_getElem?_getD, List.getElem?_replicate, if_pos hi]
  simp

theorem IdsOk_createEmptyBoardS (ctr n : ℕ) : IdsOk ctr (createEmptyBoard n) := by
  unfold IdsOk idsMS createEmptyBoard
  rw [tileMS_replicate_empty]
  constructor
  · rw [Multiset.map_zero]
    exact Multiset.nodup_zero
  · intro i hi
    rw [Multiset.map_zero] at hi
    exact absurd hi (Multiset.not_mem_zero i)

/-- One flight departure keeps the board square and never adds tiles. -/
theorem flightStep_shape (cfg : GameConfig) (b : Board Tile) (dep : Coordinate) (r : ℚ)
    (hsq : IsSquare b) :
    IsSquare (flightStep cfg b dep r).1 ∧ tileMS (flightStep cfg b dep r).1 ≤ tileMS b := by
  unfold flightStep
  rcases hg : getCell b dep with _ | t
  · exact ⟨hsq, le_rfl⟩
  · try dsimp only
    by_cases hm : isMajority (some t) = true
    · rw [hm]
      simp only [Bool.not_true, Bool.false_eq_true, if_false]
      have h1 : tileMS (setCell b dep none) + {t} = tileMS b := by
        have h0 := tileMS_set b dep none (InB_of_getCell_some hg)
        rw [hg] at h0
        simpa only [cellMS, add_zero] using h0
      have hle1 : tileMS (setCell b dep none) ≤ tileMS b := by
        calc tileMS (setCell b dep none)
            ≤ tileMS (setCell b dep none) + {t} := le_add_right le_rfl
          _ = tileMS b := h1
      by_cases hbh : cfg.flightBehavior = .despawn
      · rw [if_pos hbh]
        exact ⟨isSquare_setCell hsq _ _, hle1⟩
      · rw [if_neg hbh]
        try dsimp only
        rcases hf : findFarthestEdgeCell (setCell b dep none)
            ((natCoords (setCell b dep none).length).filter
              (fun p => isMinority (getCell (setCell b dep none) p))) dep r with _ | e
        · exact ⟨isSquare_setCell hsq _ _, hle1⟩
        · refine ⟨isSquare_setCell (isSquare_setCell hsq _ _) _ _, ?_⟩
          show tileMS (setCell (setCell b dep none) e (some t)) ≤ tileMS b
          calc tileMS (setCell (setCell b dep none) e (some t))
              ≤ tileMS (setCell b dep none) + {t} := tileMS_setCell_le _ _ _
            _ = tileMS b := h1
    · rw [Bool.not_eq_true] at hm
      rw [hm]
      simp only [Bool.not_false]
      rw [if_pos (by trivial)]
      exact ⟨hsq, le_rfl⟩

theorem flightLoop_shape (cfg : GameConfig) (eR : ℕ → ℚ) :
    ∀ (deps : List Coordinate) (b : Board Tile) (events : ℕ), IsSquare b →
      IsSquare (flightLoop cfg eR deps b events).1 ∧
        tileMS (flightLoop cfg eR deps b events).1 ≤ tileMS b := by
  intro deps
  induction deps with
  | nil => intro b events hsq; exact ⟨hsq, le_rfl⟩
  | cons dep rest ih =>
    intro b events hsq
    rw [flightLoop_cons]
    obtain ⟨f1, f2⟩ := flightStep_shape cfg b dep (eR events) hsq
    obtain ⟨l1, l2⟩ := ih (flightStep cfg b dep (eR events)).1
      (events + if (flightStep cfg b dep (eR events)).2 then 1 else 0) f1
    exact ⟨l1, le_trans l2 f2⟩

theorem applyFlight_shape (b : Board Tile) (cfg : GameConfig)
    (shuf : List Coordinate → List Coordinate) (coins eR : ℕ → ℚ) (hsq : IsSquare b) :
    IsSquare (applyFlight b cfg shuf coins eR).1 ∧
      tileMS (applyFlight b cfg shuf coins eR).1 ≤ tileMS b := by
  unfold applyFlight
  dsimp only
  by_cases h1 : (flightCandidates b cfg).length = 0
  · rw [if_pos h1]
    exact ⟨hsq, le_rfl⟩
  · rw [if_neg h1]
    by_cases h2 : (selectFleeing cfg shuf coins (flightCandidates b cfg)).length = 0
    · rw [if_pos h2]
      exact ⟨hsq, le_rfl⟩
    · rw [if_neg h2]
      exact flightLoop_shape cfg eR _ b 0 hsq

/-- A spawn keeps the board square, advances the counter, and places only
a fresh id. -/
theorem spawnOneHousehold_master (b : Board Tile) (cfg : GameConfig) (turn ctr : ℕ)
    (rP rC : ℚ) (hsq : IsSquare b) :
    IsSquare (spawnOneHousehold b cfg turn ctr rP rC).1 ∧
    ctr ≤ (spawnOneHousehold b cfg turn ctr rP rC).2.1 ∧
    (IdsOk ctr b → IdsOk (spawnOneHousehold b cfg turn ctr rP rC).2.1
      (spawnOneHousehold b cfg turn ctr rP rC).1) := by
  unfold spawnOneHousehold
  by_cases hz : (emptyCells b).length = 0
  · rw [if_pos hz]
    exact ⟨hsq, le_rfl, fun h => h⟩
  · rw [if_neg hz]
    dsimp only
    refine ⟨isSquare_setCell hsq _ _, Nat.le_succ ctr, ?_⟩
    intro hok
    exact IdsOk_fresh (idsMS_setCell_le b _ _) hok

theorem initialSpawnLoop_succ (cfg : GameConfig) (rP rC : ℕ → ℚ) (count i : ℕ)
    (b : Board Tile) (ctr : ℕ) :
    initialSpawnLoop cfg rP rC (count + 1) i b ctr =
      (if (spawnOneHousehold b cfg 0 ctr (rP i) (rC i)).2.2 then
        initialSpawnLoop cfg rP rC count (i + 1) (spawnOneHousehold b cfg 0 ctr (rP i) (rC i)).1
          (spawnOneHousehold b cfg 0 ctr (rP i) (rC i)).2.1
      else ((spawnOneHousehold b cfg 0 ctr (rP i) (rC i)).1,
        (spawnOneHousehold b cfg 0 ctr (rP i) (rC i)).2.1)) := rfl

theorem initialSpawnLoop_master (cfg : GameConfig) (rP rC : ℕ → ℚ) :
    ∀ (count i : ℕ) (b : Board Tile) (ctr : ℕ), IsSquare b → IdsOk ctr b →
      IsSquare (initialSpawnLoop cfg rP rC count i b ctr).1 ∧
      IdsOk (initialSpawnLoop cfg rP rC count i b ctr).2
        (initialSpawnLoop cfg rP rC count i b ctr).1 := by
  intro count
  induction count with
  | zero => intro i b ctr hsq hok; exact ⟨hsq, hok⟩
  | succ count ih =>
    intro i b ctr hsq hok
    rw [initialSpawnLoop_succ]
    obtain ⟨s1, s2, s3⟩ := spawnOneHousehold_master b cfg 0 ctr (rP i) (rC i) hsq
    by_cases hsp : (spawnOneHousehold b cfg 0 ctr (rP i) (rC i)).2.2 = true
    · rw [hsp, if_pos (by trivial)]
      exact ih (i + 1) _ _ s1 (s3 hok)
    · rw [Bool.not_eq_true] at hsp
      rw [hsp]
      simp only [Bool.false_eq_true, if_false]
      exact ⟨s1, s3 hok⟩

/-- `createInitialState` (slide variant) produces a square board whose
ids are distinct and bounded by the returned counter. -/
theorem createInitialState_master (cfg : GameConfig) (ctr : ℕ) (rP rC : ℕ → ℚ) :
    IsSquare (createInitialState cfg ctr rP rC).1.board ∧
    IdsOk (createInitialState cfg ctr rP rC).2 (createInitialState cfg ctr rP rC).1.board := by
  unfold createInitialState
  dsimp only
  obtain ⟨h1, h2⟩ := initialSpawnLoop_master cfg rP rC cfg.initialTiles 0
    (createEmptyBoard cfg.size) ctr (isSquare_createEmptyBoardS cfg.size)
    (IdsOk_createEmptyBoardS ctr cfg.size)
  exact ⟨isSquare_recomputeLocks h1,
    IdsOk_mono_board (le_of_eq (idsMS_recomputeLocks _)) h2⟩

theorem legalMovesLoop_cons (b : Board Tile) (d : Direction) (rest : List Direction)
    (ctr : ℕ) :
    legalMovesLoop b (d :: rest) ctr =
      (if (slideAndMerge b ctr d).2.2.1 then (true, (slideAndMerge b ctr d).2.1)
       else legalMovesLoop b rest (slideAndMerge b ctr d).2.1) := rfl

/-- The `hasLegalMoves` probes only advance the counter. -/
theorem legalMovesLoop_ctr (b : Board Tile) (hsq : IsSquare b) :
    ∀ (dirs : List Direction) (ctr : ℕ), ctr ≤ (legalMovesLoop b dirs ctr).2 := by
  intro dirs
  induction dirs with
  | nil => intro ctr; exact le_rfl
  | cons d rest ih =>
    intro ctr
    rw [legalMovesLoop_cons]
    have hm := (slideAndMerge_master b ctr d hsq).2.2.1
    by_cases hmoved : (slideAndMerge b ctr d).2.2.1 = true
    · rw [hmoved, if_pos (by trivial)]
      exact hm
    · rw [Bool.not_eq_true] at hmoved
      rw [hmoved]
      simp only [Bool.false_eq_true, if_false]
      exact le_trans hm (ih _)

/-- The slide-variant `applyTurn`: counter monotone, board stays square,
and id sanity is preserved. -/
theorem applyTurn_master (state : GameState) (dir : Direction) (cfg : GameConfig)
    (ctr : ℕ) (o : Oracle) (hsq : IsSquare state.board) (hok : IdsOk ctr state.board) :
    ctr ≤ (applyTurn state dir cfg ctr o).2 ∧
    IsSquare (applyTurn state dir cfg ctr o).1.board ∧
    IdsOk (applyTurn state dir cfg ctr o).2 (applyTurn state dir cfg ctr o).1.board := by
  unfold applyTurn
  by_cases hgo : state.gameOver = true
  · rw [if_pos hgo]
    exact ⟨le_rfl, hsq, hok⟩
  · rw [if_neg hgo]
    dsimp only
    obtain ⟨m1, m2, m3, m4, m5⟩ := slideAndMerge_master state.board ctr dir hsq
    by_cases hmv : (slideAndMerge state.board ctr dir).2.2.1 = true
    case neg =>
      rw [Bool.not_eq_true] at hmv
      rw [hmv]
      simp only [Bool.not_false]
      rw [if_pos (by trivial)]
      exact ⟨m3, hsq, IdsOk_mono_ctr m3 hok⟩
    case pos =>
      rw [hmv]
      simp only [Bool.not_true, Bool.false_eq_true, if_false]
      have hb1sq : IsSquare (recomputeLocks (slideAndMerge state.board ctr dir).1) :=
        isSquare_recomputeLocks m1
      have hb1ok : IdsOk (slideAndMerge state.board ctr dir).2.1
          (recomputeLocks (slideAndMerge state.board ctr dir).1) :=
        IdsOk_mono_board (le_of_eq (idsMS_recomputeLocks _)) (m5 hok)
      obtain ⟨af1, af2⟩ := applyFlight_shape
        (recomputeLocks (slideAndMerge state.board ctr dir).1) cfg o.shuf o.coins o.eRands hb1sq
      have hb2sq : IsSquare (recomputeLocks (applyFlight
          (recomputeLocks (slideAndMerge state.board ctr dir).1) cfg
          o.shuf o.coins o.eRands).1) :=
        isSquare_recomputeLocks af1
      have hb2ok : IdsOk (slideAndMerge state.board ctr dir).2.1
          (recomputeLocks (applyFlight
            (recomputeLocks (slideAndMerge state.board ctr dir).1) cfg
            o.shuf o.coins o.eRands).1) :=
        IdsOk_mono_board (le_of_eq (idsMS_recomputeLocks _))
          (IdsOk_mono_board (idsMS_le_of_tileMS_le af2) hb1ok)
      obtain ⟨sp1, sp2, sp3⟩ := spawnOneHousehold_master
        (recomputeLocks (applyFlight
          (recomputeLocks (slideAndMerge state.board ctr dir).1) cfg
          o.shuf o.coins o.eRands).1) cfg (state.turn + 1)
        (slideAndMerge state.board ctr dir).2.1 o.spawnPick o.spawnColor hb2sq
      have hb3sq : IsSquare (recomputeLocks (spawnOneHousehold
          (recomputeLocks (applyFlight
            (recomputeLocks (slideAndMerge state.board ctr dir).1) cfg
            o.shuf o.coins o.eRands).1) cfg (state.turn + 1)
          (slideAndMerge state.board ctr dir).2.1 o.spawnPick o.spawnColor).1) :=
        isSquare_recomputeLocks sp1
      have hb3ok : IdsOk (spawnOneHousehold
          (recomputeLocks (applyFlight
            (recomputeLocks (slideAndMerge state.board ctr dir).1) cfg
            o.shuf o.coins o.eRands).1) cfg (state.turn + 1)
          (slideAndMerge state.board ctr dir).2.1 o.spawnPick o.spawnColor).2.1
          (recomputeLocks (spawnOneHousehold
            (recomputeLocks (applyFlight
              (recomputeLocks (slideAndMerge state.board ctr dir).1) cfg
              o.shuf o.coins o.eRands).1) cfg (state.turn + 1)
            (slideAndMerge state.board ctr dir).2.1 o.spawnPick o.spawnColor).1) :=
        IdsOk_mono_board (le_of_eq (idsMS_recomputeLocks _)) (sp3 hb2ok)
      have hlm : (spawnOneHousehold
          (recomputeLocks (applyFlight
            (recomputeLocks (slideAndMerge state.board ctr dir).1) cfg
            o.shuf o.coins o.eRands).1) cfg (state.turn + 1)
          (slideAndMerge state.board ctr dir).2.1 o.spawnPick o.spawnColor).2.1
          ≤ (hasLegalMoves (recomputeLocks (spawnOneHousehold
            (recomputeLocks (applyFlight
              (recomputeLocks (slideAndMerge state.board ctr dir).1) cfg
              o.shuf o.coins o.eRands).1) cfg (state.turn + 1)
            (slideAndMerge state.board ctr dir).2.1 o.spawnPick o.spawnColor).1)
            (spawnOneHousehold
              (recomputeLocks (applyFlight
                (recomputeLocks (slideAndMerge state.board ctr dir).1) cfg
                o.shuf o.coins o.eRands).1) cfg (state.turn + 1)
              (slideAndMerge state.board ctr dir).2.1 o.spawnPick o.spawnColor).2.1).2 :=
        legalMovesLoop_ctr _ hb3sq DIRECTIONS _
      refine ⟨le_trans m3 (le_trans sp2 hlm), hb3sq, IdsOk_mono_ctr hlm hb3ok⟩

end Slide

theorem rreach_RIdsOk {s : Reloc.GameState} {ctr : ℕ} (h : RReach s ctr) :
    Reloc.RIdsOk ctr s.board := by
  induction h with
  | init cfg sC sP => exact Reloc.createInitialState_RIdsOk 0 cfg sC sP
  | step s ctr sel dir cfg hr ih =>
    exact Reloc.idsR_eq_RIdsOk (Reloc.applyTurn_idsR s sel dir cfg) ih
  | finish s ctr hr ih => exact ih

theorem sreach_master {s : Slide.GameState} {ctr : ℕ} (h : SReach s ctr) :
    IsSquare s.board ∧ Slide.IdsOk ctr s.board := by
  induction h with
  | init cfg rP rC => exact Slide.createInitialState_master cfg 0 rP rC
  | step s ctr dir cfg o hr ih =>
    obtain ⟨h1, h2, h3⟩ := Slide.applyTurn_master s dir cfg ctr o ih.1 ih.2
    exact ⟨h2, h3⟩
  | finish s ctr hr ih => exact ih

/-- C9: in both engine variants, every state reachable from an initial
state by any sequence of engine operations has pairwise-distinct tile
ids: spawns and merges always draw a fresh counter value, and every other
operation only transports or rewrites existing tiles. -/
theorem claim_C9_unique_ids :
    (∀ (s : Reloc.GameState) (ctr : ℕ), RReach s ctr → (Reloc.idsR s.board).Nodup) ∧
    (∀ (s : Slide.GameState) (ctr : ℕ), SReach s ctr → (Slide.idsMS s.board).Nodup) :=
  ⟨fun _ _ h => (rreach_RIdsOk h).1, fun _ _ h => (sreach_master h).2.1⟩

/-- C9 witness: the invariant applied to the initial states of concrete
sessions of both variants. -/
theorem claim_C9_witness :
    (Reloc.idsR (Reloc.createInitialState 0 cfgC9 id id).1.board).Nodup ∧
    (Slide.idsMS (Slide.createInitialState cfgC10 0 (fun _ => 0) (fun _ => 0)).1.board).Nodup :=
  ⟨claim_C9_unique_ids.1 _ _ (RReach.init cfgC9 id id),
   claim_C9_unique_ids.2 _ _ (SReach.init cfgC10 (fun _ => 0) (fun _ => 0))⟩

end BlockBurb
